import Mathlib

/-!
# Task tracker: query engine, ownership checks and statistics

A shallow embedding of `lib/api/models/Task.js`, of the task route handler
`pages/api/tasks/[[...params]].js`, of the auth gate `lib/api/middleware/auth.js`, of
`lib/api/models/User.js` and of the auth route handler `pages/api/auth/[...path].js`,
followed by theorems about them.

Conventions of the embedding

* JavaScript values that can sit in a task field are `JsVal`: the JSON primitives,
  `undefined`, and `obj r` for a value that is not a primitive (`r` is the string its
  `ToPrimitive` conversion yields).  Numbers are integers; fractions, `NaN` and the
  infinities do not occur in a field.
* The document store is a list of task documents in snapshot order.
* A thrown exception is `Except.error`.
* The document id and the clock readings taken by `Task.create` are explicit arguments.
* Token verification (`jwt.verify` with the process-wide secret) is an explicit argument
  of `protect`.
* The library calls of the auth handler (`bcrypt`, `jsonwebtoken`, the Firebase token
  check) are the fields of an explicit `Crypto` argument, and the verdict of the
  express-validator rules is a field of the request.
* `String.prototype.toLowerCase` is the lower-casing of the JavaScript engine, over all
  of Unicode.  It is the explicit argument `toLowerCase` of every definition whose code
  calls it, and the theorems hold for every such function; a theorem that needs a
  property of it states the property as a hypothesis.  `asciiToLowerCase` is what the
  engine computes on strings of ASCII characters; the sample data are ASCII, and the
  evaluations on sample data use it.
-/

namespace Judix

/-! ## JavaScript values -/

/-- A JavaScript value held by a task field or produced by a property lookup. -/
inductive JsVal where
  | undefined
  | null
  | bool (b : Bool)
  | num (n : Int)
  | str (s : String)
  | obj (repr : String)
  deriving DecidableEq

/-- A thrown JavaScript exception, identified by its message. -/
structure JsError where
  message : String
  deriving DecidableEq

/-- The result of a numeric conversion or division: `NaN`, `Infinity`, or an integer. -/
inductive JsNum where
  | nan
  | inf
  | int (n : Int)
  deriving DecidableEq

/-- JavaScript `ToBoolean`. -/
def JsVal.truthy : JsVal → Bool
  | .undefined => false
  | .null => false
  | .bool b => b
  | .num n => n != 0
  | .str s => s != ""
  | .obj _ => true

/-- The UTF-16 code units of one character. -/
def utf16 (c : Char) : List Nat :=
  if c.toNat < 0x10000 then [c.toNat]
  else [0xD800 + (c.toNat - 0x10000) / 0x400, 0xDC00 + (c.toNat - 0x10000) % 0x400]

/-- The UTF-16 code units of a string, the sequence JavaScript compares. -/
def codeUnits (s : String) : List Nat :=
  (s.data.map utf16).flatten

/-- Lexicographic "strictly less" on code-unit sequences. -/
def unitsLt : List Nat → List Nat → Bool
  | _, [] => false
  | [], _ :: _ => true
  | a :: as, b :: bs => a < b || (a == b && unitsLt as bs)

/-- White space and line terminators stripped by `StringToNumber`. -/
def isJsWhitespace (c : Char) : Bool :=
  c.toNat ∈ [0x09, 0x0A, 0x0B, 0x0C, 0x0D, 0x20, 0xA0, 0x1680, 0x2000, 0x2001, 0x2002,
    0x2003, 0x2004, 0x2005, 0x2006, 0x2007, 0x2008, 0x2009, 0x200A, 0x2028, 0x2029,
    0x202F, 0x205F, 0x3000, 0xFEFF]

/-- The value of a non-empty run of decimal digits. -/
def digitsValue (cs : List Char) : Option Nat :=
  if cs ≠ [] ∧ cs.all Char.isDigit then
    some (cs.foldl (fun acc c => 10 * acc + (c.toNat - '0'.toNat)) 0)
  else none

/-- JavaScript `StringToNumber` on the integer fragment: surrounding white space is
dropped, the empty string is `0`, an optionally signed run of decimal digits is its
value, and any other text is `NaN` (`none`).  Literals with a fraction, an exponent, a
radix prefix, or `Infinity` denote numbers outside the integer model. -/
def stringToNumber (s : String) : Option Int :=
  let cs := ((s.data.dropWhile isJsWhitespace).reverse.dropWhile isJsWhitespace).reverse
  match cs with
  | [] => some 0
  | '-' :: ds => (digitsValue ds).map (fun n => -(n : Int))
  | '+' :: ds => (digitsValue ds).map (fun n => (n : Int))
  | ds => (digitsValue ds).map (fun n => (n : Int))

/-- JavaScript `ToPrimitive`: a non-primitive becomes its string form. -/
def toPrimitive : JsVal → JsVal
  | .obj r => .str r
  | v => v

/-- JavaScript `ToNumber` on a primitive; `none` is `NaN`. -/
def toNumber : JsVal → Option Int
  | .undefined => none
  | .null => some 0
  | .bool b => some (if b then 1 else 0)
  | .num n => some n
  | .str s => stringToNumber s
  | .obj r => stringToNumber r

/-- The JavaScript relational operator `a < b`: two strings compare by code units,
anything else compares numerically and `NaN` makes the answer `false`. -/
def jsLt (a b : JsVal) : Bool :=
  match toPrimitive a, toPrimitive b with
  | .str x, .str y => unitsLt (codeUnits x) (codeUnits y)
  | x, y =>
    match toNumber x, toNumber y with
    | some m, some n => m < n
    | _, _ => false

/-- The JavaScript relational operator `a > b`, which the language defines as `b < a`. -/
def jsGt (a b : JsVal) : Bool :=
  jsLt b a

/-- JavaScript `ToPropertyKey` for the values of the model. -/
def toPropertyKey : JsVal → String
  | .undefined => "undefined"
  | .null => "null"
  | .bool true => "true"
  | .bool false => "false"
  | .num n => toString n
  | .str s => s
  | .obj r => r

/-- The names every plain object inherits from `Object.prototype` in Node. -/
def objectPrototypeKeys : List String :=
  ["constructor", "__defineGetter__", "__defineSetter__", "hasOwnProperty",
   "__lookupGetter__", "__lookupSetter__", "isPrototypeOf", "propertyIsEnumerable",
   "toString", "valueOf", "__proto__", "toLocaleString"]

/-- Reading an inherited property of a plain object: the accessor `__proto__` yields
the prototype object, `constructor` the function `Object`, every other inherited name
the built-in function of that name, and any other name `undefined`. -/
def objectPrototype (key : String) : JsVal :=
  if key = "__proto__" then .obj "[object Object]"
  else if key = "constructor" then .obj "function Object() \x7b [native code] \x7d"
  else if key ∈ objectPrototypeKeys then
    .obj ("function " ++ key ++ "() \x7b [native code] \x7d")
  else .undefined

/-- `String.prototype.toLowerCase` on a string of ASCII characters: the letters `A` to
`Z` are lowered and every other character is kept.  On other strings the engine's
function is not this one; the definitions take the engine's function as an argument. -/
def asciiToLowerCase (s : String) : String :=
  ⟨s.data.map Char.toLower⟩

/-- `String.prototype.includes`: `needle` occurs in `hay` as a contiguous run. -/
def includes (hay needle : String) : Bool :=
  decide (needle.data <:+: hay.data)

/-! ## Arrays -/

/-- `Array.prototype.filter` with a callback that may throw: elements are tested left
to right and the first exception aborts the call. -/
def filterE {α : Type} (p : α → Except JsError Bool) : List α → Except JsError (List α)
  | [] => .ok []
  | x :: xs =>
    match p x with
    | .error e => .error e
    | .ok b =>
      match filterE p xs with
      | .error e => .error e
      | .ok ys => .ok (if b then x :: ys else ys)

/-- A callback result that is the value `true`, with no exception. -/
def okTrue (r : Except JsError Bool) : Bool :=
  match r with
  | .ok b => b
  | .error _ => false

/-- One insertion step of the sort: `x` goes in front of the first element it is
strictly before (`cmp x y < 0`), hence behind everything it is not strictly before. -/
def insertByCompare {α : Type} (cmp : α → α → Int) (x : α) : List α → List α
  | [] => [x]
  | y :: ys => if cmp x y < 0 then x :: y :: ys else y :: insertByCompare cmp x ys

/-- `Array.prototype.sort` with a comparator, as Node runs it: a stable sort that
consults the comparator only through the test `cmp x y < 0`.  Elements are taken left
to right and inserted into the sorted prefix.  This is the engine's result whenever
`cmp x y < 0` is a strict weak order, and on lists of at most two elements; for an
inconsistent comparator on a longer list the engine may order the elements otherwise. -/
def arraySort {α : Type} (cmp : α → α → Int) (l : List α) : List α :=
  l.foldl (fun acc x => insertByCompare cmp x acc) []

/-- The index `Array.prototype.slice` derives from an integer argument: a negative
argument counts from the end, and the result is clamped to `0 .. len`. -/
def relativeIndex (len : Nat) (i : Int) : Nat :=
  if i < 0 then (len + i).toNat else min i.toNat len

/-- `Array.prototype.slice(start, stop)` for integer arguments. -/
def arraySlice {α : Type} (l : List α) (start stop : Int) : List α :=
  let k := relativeIndex l.length start
  let final := relativeIndex l.length stop
  (l.drop k).take (final - k)

/-- `Math.ceil(total / limit)` for a length `total` and an integer `limit`: division by
zero gives `Infinity`, or `NaN` when `total` is zero too. -/
def ceilDiv (total : Nat) (limit : Int) : JsNum :=
  if limit = 0 then (if total = 0 then .nan else .inf)
  else if 0 < limit then .int (-((-(total : Int)) / limit))
  else .int (-((total : Int) / (-limit)))

/-- The digits of `cs`, read in `radix`, up to the first character that is not one. -/
def digitPrefix (radix : Nat) : List Char → List Nat
  | [] => []
  | c :: cs =>
    let d :=
      if c.isDigit then c.toNat - '0'.toNat
      else if 'a'.toNat ≤ c.toNat ∧ c.toNat ≤ 'z'.toNat then c.toNat - 'a'.toNat + 10
      else if 'A'.toNat ≤ c.toNat ∧ c.toNat ≤ 'Z'.toNat then c.toNat - 'A'.toNat + 10
      else radix
    if d < radix then d :: digitPrefix radix cs else []

/-- The magnitude `parseInt` reads after the sign: a `0x` prefix selects radix 16, and
an empty digit run is `NaN` (`none`). -/
def parseMagnitude : List Char → Option Nat
  | '0' :: 'x' :: cs | '0' :: 'X' :: cs =>
    match digitPrefix 16 cs with
    | [] => none
    | ds => some (ds.foldl (fun acc d => 16 * acc + d) 0)
  | cs =>
    match digitPrefix 10 cs with
    | [] => none
    | ds => some (ds.foldl (fun acc d => 10 * acc + d) 0)

/-- JavaScript `parseInt(s)` with no radix argument; `none` is `NaN`.  The value is the
exact integer; the engine rounds a magnitude above `2 ^ 53` to the nearest double. -/
def jsParseInt (s : String) : Option Int :=
  match s.data.dropWhile isJsWhitespace with
  | '-' :: cs => (parseMagnitude cs).map (fun n => -(n : Int))
  | '+' :: cs => (parseMagnitude cs).map (fun n => (n : Int))
  | cs => (parseMagnitude cs).map (fun n => (n : Int))

/-! ## Task documents and the store -/

/-- A task as the model layer returns it: the document id as `_id` and the stored
fields.  The five fields a request body supplies hold arbitrary values; the id, the
owner and the two timestamps are strings set by the server. -/
structure Task where
  _id : String
  title : JsVal
  description : JsVal
  status : JsVal
  priority : JsVal
  dueDate : JsVal
  userId : String
  createdAt : String
  updatedAt : String
  deriving DecidableEq

/-- The property read `task[key]`: an own field, or else what the prototype gives. -/
def Task.prop (t : Task) (key : String) : JsVal :=
  if key = "_id" then .str t._id
  else if key = "title" then t.title
  else if key = "description" then t.description
  else if key = "status" then t.status
  else if key = "priority" then t.priority
  else if key = "dueDate" then t.dueDate
  else if key = "userId" then .str t.userId
  else if key = "createdAt" then .str t.createdAt
  else if key = "updatedAt" then .str t.updatedAt
  else objectPrototype key

/-- The argument of `Task.create`; an absent field is `undefined`. -/
structure TaskData where
  title : JsVal := .undefined
  description : JsVal := .undefined
  status : JsVal := .undefined
  priority : JsVal := .undefined
  dueDate : JsVal := .undefined
  userId : String

/-- The argument of `Task.findByIdAndUpdate` as the handler builds it: `none` is a key
that is not present. -/
structure UpdateData where
  title : Option JsVal := none
  description : Option JsVal := none
  status : Option JsVal := none
  priority : Option JsVal := none
  dueDate : Option JsVal := none

/-- What a store call takes from outside the program: the id generated for a new
document and two successive readings of the clock as ISO strings. -/
structure Env where
  docId : String
  clock1 : String
  clock2 : String

/-- Modelled from the spec: the store handle `db` (`lib/api/config/db`) is not among the
sources; its collection follows the store contract `create(record) → record-with-id`.
The new document is placed last in the snapshot order. -/
def collectionAdd (store : List Task) (doc : Task) : List Task :=
  store ++ [doc]

/-- Modelled from the spec: `findByOwnerEquals(ownerId) → sequence of records`, the
query `where('userId', '==', userId).get()`. -/
def whereUserId (store : List Task) (userId : String) : List Task :=
  store.filter (fun t => t.userId = userId)

/-- Modelled from the spec: `getById(id) → record | absent`, the read `doc(id).get()`. -/
def docGet (store : List Task) (id : String) : Option Task :=
  store.find? (fun t => t._id = id)

/-- Modelled from the spec: `updateById(id, partialFields) → updated record`, the write
`doc(id).update(fields)`, which fails when the document is absent. -/
def docUpdate (store : List Task) (id : String) (f : Task → Task) :
    Except JsError (List Task) :=
  match docGet store id with
  | none => .error ⟨"No document to update"⟩
  | some _ => .ok (store.map (fun t => if t._id = id then f t else t))

/-- Modelled from the spec: `deleteById(id) → success`, the write `doc(id).delete()`. -/
def docDelete (store : List Task) (id : String) : List Task :=
  store.filter (fun t => t._id ≠ id)

/-! ## The Task model (`lib/api/models/Task.js`) -/

/-- The JavaScript expression `a || b`. -/
def JsVal.orElse (a b : JsVal) : JsVal :=
  if a.truthy then a else b

/-- `Task.create(taskData)`: returns the created task and the new store. -/
def Task.create (store : List Task) (env : Env) (taskData : TaskData) : Task × List Task :=
  let newTask : Task :=
    { _id := env.docId
      title := taskData.title
      description := taskData.description.orElse (.str "")
      status := taskData.status.orElse (.str "pending")
      priority := taskData.priority.orElse (.str "medium")
      dueDate := taskData.dueDate.orElse .null
      userId := taskData.userId
      createdAt := env.clock1
      updatedAt := env.clock2 }
  (newTask, collectionAdd store newTask)

/-- A `page` or `limit` option: left out, `NaN`, or an integer. -/
inductive NumArg where
  | undefined
  | nan
  | int (n : Int)
  deriving DecidableEq

/-- The value of a numeric option after its destructuring default; `none` is `NaN`. -/
def NumArg.withDefault : NumArg → Int → Option Int
  | .undefined, d => some d
  | .nan, _ => none
  | .int n, _ => some n

/-- The `options` argument of `Task.findByUser`; `none` is a property that is
`undefined`. -/
structure Options where
  status : Option String := none
  priority : Option String := none
  search : Option String := none
  sortBy : Option String := none
  order : Option String := none
  page : NumArg := .undefined
  limit : NumArg := .undefined

/-- The result object of `Task.findByUser`. -/
structure FindResult where
  tasks : List Task
  total : Nat
  totalPages : JsNum
  currentPage : JsNum
  deriving DecidableEq

/-- The guard `value && value !== 'all'` on a status or priority option. -/
def filterActive (value : Option String) : Bool :=
  match value with
  | none => false
  | some s => s != "" && s != "all"

/-- The method call `value.toLowerCase()`: a `TypeError` unless the value is a string. -/
def callToLowerCase (toLowerCase : String → String)
    (field : String) (v : JsVal) : Except JsError String :=
  match v with
  | .str s => .ok (toLowerCase s)
  | .undefined =>
    .error ⟨"Cannot read properties of undefined (reading 'toLowerCase')"⟩
  | .null => .error ⟨"Cannot read properties of null (reading 'toLowerCase')"⟩
  | _ => .error ⟨"task." ++ field ++ ".toLowerCase is not a function"⟩

/-- The search callback: the title is tested first and the description is read only
when the title does not match. -/
def matchesSearch (toLowerCase : String → String)
    (searchLower : String) (task : Task) : Except JsError Bool :=
  match callToLowerCase toLowerCase "title" task.title with
  | .error e => .error e
  | .ok title =>
    if includes title searchLower then .ok true
    else
      match callToLowerCase toLowerCase "description" task.description with
      | .error e => .error e
      | .ok description => .ok (includes description searchLower)

/-- The table lookup `priorityOrder[value]`: an own entry, or an inherited property. -/
def priorityOrder (key : String) : JsVal :=
  if key = "high" then .num 3
  else if key = "medium" then .num 2
  else if key = "low" then .num 1
  else objectPrototype key

/-- The sort callback of `Task.findByUser`. -/
def compareTasks (sortBy order : String) (a b : Task) : Int :=
  let aVal := a.prop sortBy
  let bVal := b.prop sortBy
  let aVal := if sortBy = "priority" then (priorityOrder (toPropertyKey aVal)).orElse (.num 0) else aVal
  let bVal := if sortBy = "priority" then (priorityOrder (toPropertyKey bVal)).orElse (.num 0) else bVal
  if order = "desc" then
    (if jsGt aVal bVal then -1 else 1)
  else
    (if jsLt aVal bVal then -1 else 1)

/-- The search stage: with a non-empty `search` the tasks are filtered by the search
callback, otherwise they are kept as they are. -/
def searchFilter (toLowerCase : String → String) (search : Option String) (tasks : List Task) :
    Except JsError (List Task) :=
  match search with
  | none => .ok tasks
  | some search =>
    if search = "" then .ok tasks
    else filterE (matchesSearch toLowerCase (toLowerCase search)) tasks

/-- The tasks of `userId` that pass the active filters, before sorting. -/
def filterTasks (toLowerCase : String → String)
    (store : List Task) (userId : String) (options : Options) :
    Except JsError (List Task) :=
  let tasks := whereUserId store userId
  let tasks :=
    if filterActive options.status then
      tasks.filter (fun task => task.status = .str (options.status.getD ""))
    else tasks
  let tasks :=
    if filterActive options.priority then
      tasks.filter (fun task => task.priority = .str (options.priority.getD ""))
    else tasks
  searchFilter toLowerCase options.search tasks

/-- The filtered tasks in sorted order, before pagination. -/
def sortedTasks (toLowerCase : String → String)
    (store : List Task) (userId : String) (options : Options) :
    Except JsError (List Task) :=
  match filterTasks toLowerCase store userId options with
  | .error e => .error e
  | .ok tasks =>
    .ok (arraySort (compareTasks (options.sortBy.getD "createdAt")
      (options.order.getD "desc")) tasks)

/-- The pagination stage and the result object, from the sorted tasks. -/
def paginate (options : Options) (tasks : List Task) : FindResult :=
  let page := options.page.withDefault 1
  let limit := options.limit.withDefault 10
  let total := tasks.length
  let startIndex : Option Int :=
    match page, limit with
    | some p, some l => some ((p - 1) * l)
    | _, _ => none
  let endIndex : Option Int :=
    match startIndex, limit with
    | some s, some l => some (s + l)
    | _, _ => none
  let paginatedTasks := arraySlice tasks (startIndex.getD 0) (endIndex.getD 0)
  { tasks := paginatedTasks
    total := total
    totalPages :=
      match limit with
      | some l => ceilDiv total l
      | none => .nan
    currentPage :=
      match page with
      | some p => .int p
      | none => .nan }

/-- `Task.findByUser(userId, options)`. -/
def Task.findByUser (toLowerCase : String → String)
    (store : List Task) (userId : String) (options : Options) :
    Except JsError FindResult :=
  match sortedTasks toLowerCase store userId options with
  | .error e => .error e
  | .ok tasks => .ok (paginate options tasks)

/-- `Task.findById(taskId)`. -/
def Task.findById (store : List Task) (taskId : String) : Option Task :=
  docGet store taskId

/-- `Task.findOne(taskId, userId)`: `none` is the JavaScript `null`. -/
def Task.findOne (store : List Task) (taskId userId : String) : Option Task :=
  match docGet store taskId with
  | none => none
  | some task => if task.userId ≠ userId then none else some task

/-- The effect of a partial update on one document. -/
def applyUpdate (updateData : UpdateData) (updatedAt : String) (t : Task) : Task :=
  { t with
    title := updateData.title.getD t.title
    description := updateData.description.getD t.description
    status := updateData.status.getD t.status
    priority := updateData.priority.getD t.priority
    dueDate := updateData.dueDate.getD t.dueDate
    updatedAt := updatedAt }

/-- `Task.findByIdAndUpdate(taskId, updateData)`: the re-read task and the new store. -/
def Task.findByIdAndUpdate (store : List Task) (env : Env) (taskId : String)
    (updateData : UpdateData) : Except JsError (Option Task × List Task) :=
  match docUpdate store taskId (applyUpdate updateData env.clock1) with
  | .error e => .error e
  | .ok store2 => .ok (Task.findById store2 taskId, store2)

/-- `Task.findByIdAndDelete(taskId)`: the new store (the call returns `true`). -/
def Task.findByIdAndDelete (store : List Task) (taskId : String) : List Task :=
  docDelete store taskId

/-- `Task.countByUser(userId)`. -/
def Task.countByUser (store : List Task) (userId : String) : Nat :=
  (whereUserId store userId).length

/-! ### Statistics -/

/-- A counter object such as `stats.byStatus`: its own properties in creation order.
A value is a count, or `none` for `NaN`. -/
abbrev Counters := List (String × Option Nat)

/-- The guard `counters[key] !== undefined`: an own property, or an inherited one. -/
def counterDefined (o : Counters) (key : String) : Bool :=
  (o.lookup key).isSome || objectPrototype key != .undefined

/-- The statement `counters[key]++` when the guard holds.  An own count goes up by one
and an own `NaN` stays `NaN`.  An inherited function converts to `NaN`, which the
assignment stores as a new own property; for `__proto__` the assignment reaches the
inherited setter, which ignores a number. -/
def counterIncrement (o : Counters) (key : String) : Counters :=
  match o.lookup key with
  | some _ => o.map (fun kv => if kv.1 = key then (kv.1, kv.2.map (· + 1)) else kv)
  | none => if key = "__proto__" then o else o ++ [(key, none)]

/-- The result object of `Task.getStats`. -/
structure Stats where
  total : Nat
  byStatus : Counters
  byPriority : Counters
  deriving DecidableEq

/-- The `stats` object before any document is visited. -/
def Stats.initial : Stats :=
  { total := 0
    byStatus := [("pending", some 0), ("in-progress", some 0), ("completed", some 0)]
    byPriority := [("low", some 0), ("medium", some 0), ("high", some 0)] }

/-- The body of the `forEach` callback of `Task.getStats` for one document. -/
def statsStep (stats : Stats) (task : Task) : Stats :=
  let stats := { stats with total := stats.total + 1 }
  let stats :=
    if counterDefined stats.byStatus (toPropertyKey task.status) then
      { stats with byStatus := counterIncrement stats.byStatus (toPropertyKey task.status) }
    else stats
  if counterDefined stats.byPriority (toPropertyKey task.priority) then
    { stats with
      byPriority := counterIncrement stats.byPriority (toPropertyKey task.priority) }
  else stats

/-- `Task.getStats(userId)`. -/
def Task.getStats (store : List Task) (userId : String) : Stats :=
  (whereUserId store userId).foldl statsStep Stats.initial

/-! ## The task route handler (`pages/api/tasks/[[...params]].js`) -/

/-- The query string of a request; `none` is a parameter that is not given. -/
structure Query where
  status : Option String := none
  priority : Option String := none
  search : Option String := none
  sortBy : Option String := none
  order : Option String := none
  page : Option String := none
  limit : Option String := none

/-- The parsed JSON body of a request; a key that is not given reads `undefined`.  The
handler destructures five keys; `extra` holds every other key of the body, such as
`userId`, `_id` or `createdAt`. -/
structure Body where
  title : JsVal := .undefined
  description : JsVal := .undefined
  status : JsVal := .undefined
  priority : JsVal := .undefined
  dueDate : JsVal := .undefined
  extra : List (String × JsVal) := []

/-- An inbound request: `params` is `req.query.params`, the path segments after
`/api/tasks`. -/
structure Request where
  method : String
  params : Option (List String) := none
  query : Query := {}
  body : Body := {}

/-- What `protect(req, res)` returned: a rejection with its message, or the id of the
authenticated user. -/
inductive AuthResult where
  | denied (message : String)
  | granted (userId : String)
  deriving DecidableEq

/-- The JSON bodies the handler sends. -/
inductive ResBody where
  | empty
  | message (success : Bool) (message : String)
  | task (task : Option Task)
  | stats (stats : Stats)
  | list (count total : Nat) (totalPages currentPage : JsNum) (tasks : List Task)
  deriving DecidableEq

/-- A response: the status code and the body. -/
structure Response where
  status : Nat
  body : ResBody
  deriving DecidableEq

/-- The `catch` branch: status 500 with `error.message || 'Internal server error'`. -/
def serverError (e : JsError) : Response :=
  ⟨500, .message false (if e.message = "" then "Internal server error" else e.message)⟩

/-- The 404 answer shared by the three routes on one task. -/
def taskNotFound : Response :=
  ⟨404, .message false "Task not found"⟩

/-- The update object built from the body: a key is set when its value is not
`undefined`. -/
def buildUpdateData (body : Body) : UpdateData :=
  let pick := fun (v : JsVal) => if v = .undefined then none else some v
  { title := pick body.title
    description := pick body.description
    status := pick body.status
    priority := pick body.priority
    dueDate := pick body.dueDate }

/-- The numeric option `parseInt(value)` where `value` defaults to the number `d`. -/
def parseNumArg (value : Option String) (d : Int) : NumArg :=
  match value with
  | none => .int d
  | some s =>
    match jsParseInt s with
    | some n => .int n
    | none => .nan

/-- The test `title.trim().length === 0` on a string. -/
def isBlank (s : String) : Bool :=
  s.data.all isJsWhitespace

/-- The exported handler, after `protect` has answered `auth`: the response sent and the
store afterwards. -/
def tasksHandler (toLowerCase : String → String)
    (auth : AuthResult) (req : Request) (env : Env) (store : List Task) :
    Response × List Task :=
  if req.method = "OPTIONS" then (⟨200, .empty⟩, store)
  else
    match auth with
    | .denied message => (⟨401, .message false message⟩, store)
    | .granted userId =>
      let route :=
        match req.params with
        | some params => "/".intercalate params
        | none => ""
      if route = "stats" ∧ req.method = "GET" then
        (⟨200, .stats (Task.getStats store userId)⟩, store)
      else if route ≠ "" ∧ route ≠ "stats" ∧ req.method = "GET" then
        match Task.findOne store route userId with
        | none => (taskNotFound, store)
        | some task => (⟨200, .task (some task)⟩, store)
      else if route ≠ "" ∧ route ≠ "stats" ∧ req.method = "PUT" then
        match Task.findOne store route userId with
        | none => (taskNotFound, store)
        | some _ =>
          match Task.findByIdAndUpdate store env route (buildUpdateData req.body) with
          | .error e => (serverError e, store)
          | .ok (task, store2) => (⟨200, .task task⟩, store2)
      else if route ≠ "" ∧ route ≠ "stats" ∧ req.method = "DELETE" then
        match Task.findOne store route userId with
        | none => (taskNotFound, store)
        | some _ =>
          (⟨200, .message true "Task deleted successfully"⟩,
            Task.findByIdAndDelete store route)
      else if route = "" ∧ req.method = "GET" then
        match Task.findByUser toLowerCase store userId
            { status := req.query.status
              priority := req.query.priority
              search := req.query.search
              sortBy := req.query.sortBy
              order := req.query.order
              page := parseNumArg req.query.page 1
              limit := parseNumArg req.query.limit 10 } with
        | .error e => (serverError e, store)
        | .ok result =>
          (⟨200, .list result.tasks.length result.total result.totalPages
            result.currentPage result.tasks⟩, store)
      else if route = "" ∧ req.method = "POST" then
        match req.body.title with
        | .str title =>
          if title = "" ∨ isBlank title then
            (⟨400, .message false "Title is required"⟩, store)
          else
            let created := Task.create store env
              { title := req.body.title
                description := req.body.description
                status := req.body.status
                priority := req.body.priority
                dueDate := req.body.dueDate
                userId := userId }
            (⟨201, .task (some created.1)⟩, created.2)
        | title =>
          if title.truthy then (serverError ⟨"title.trim is not a function"⟩, store)
          else (⟨400, .message false "Title is required"⟩, store)
      else (⟨405, .message false "Method not allowed"⟩, store)

/-! ## The auth gate (`lib/api/middleware/auth.js`) -/

/-- An account document as the User model returns it: the document id as `id` and the
stored fields. -/
structure User where
  id : String
  name : JsVal
  email : String
  password : String
  avatar : JsVal
  bio : JsVal
  createdAt : String
  updatedAt : String
  deriving DecidableEq

/-- `User.findById(id)` on the users collection, read by the store contract
`getById(id) → record | absent`. -/
def User.findById (users : List User) (id : String) : Option User :=
  users.find? (fun u => u.id = id)

/-- `String.prototype.split(' ')`: the pieces between single spaces. -/
def splitOnSpace : List Char → List String
  | [] => [""]
  | c :: cs =>
    match splitOnSpace cs with
    | [] => [""]
    | p :: ps => if c = ' ' then "" :: p :: ps else ⟨c :: p.data⟩ :: ps

/-- The token `protect` takes from the `Authorization` header: when the header is
non-empty and `startsWith('Bearer')`, the element `split(' ')[1]`; `none` is
`undefined`. -/
def bearerToken (authorization : Option String) : Option String :=
  match authorization with
  | none => none
  | some header =>
    if header ≠ "" ∧ "Bearer".data.isPrefixOf header.data then
      (splitOnSpace header.data)[1]?
    else none

/-- The message of the rejection for a missing token and for a failed verification. -/
def notAuthorizedMessage : String :=
  "Not authorized to access this route"

/-- `protect(req, res)`.  The call `jwt.verify(token, process.env.JWT_SECRET)` is the
argument `verify`: it yields the account id bound in the token, or `none` when it
throws (bad signature, expired or malformed token). -/
def protect (verify : String → Option String) (users : List User)
    (authorization : Option String) : AuthResult :=
  match bearerToken authorization with
  | none => .denied notAuthorizedMessage
  | some token =>
    if token = "" then .denied notAuthorizedMessage
    else
      match verify token with
      | none => .denied notAuthorizedMessage
      | some id =>
        match User.findById users id with
        | none => .denied "User not found"
        | some user => .granted user.id

/-! ## The User model (`lib/api/models/User.js`) and the auth route handler
(`pages/api/auth/[...path].js`) -/

/-- The claims of a verified Google ID token that the handler reads; `none` is a claim
that is `undefined`. -/
structure GoogleToken where
  uid : String
  email : String
  name : Option String := none
  picture : Option String := none

/-- The library calls of the auth handlers, for one request: `bcrypt.hash` with the salt
drawn by `genSalt`, `bcrypt.compare`, both on string arguments, `jwt.sign` and
`jwt.verify` with the process-wide secret (`none` when `verify` throws), and
`admin.auth().verifyIdToken`. -/
structure Crypto where
  hash : String → String
  compare : String → String → Bool
  sign : String → String
  verify : String → Option String
  verifyIdToken : String → Except JsError GoogleToken

/-- The operator `typeof` on a value of a JSON request body. -/
def jsTypeof : JsVal → String
  | .undefined => "undefined"
  | .null => "object"
  | .bool _ => "boolean"
  | .num _ => "number"
  | .str _ => "string"
  | .obj _ => "object"

/-- The call `bcrypt.hash(password, salt)` with a salt of `genSalt`: bcryptjs rejects
with `Illegal arguments` unless the password is a string. -/
def bcryptHash (crypto : Crypto) (password : JsVal) : Except JsError String :=
  match password with
  | .str s => .ok (crypto.hash s)
  | v => .error ⟨"Illegal arguments: " ++ jsTypeof v ++ ", string"⟩

/-- `User.matchPassword(enteredPassword, hashedPassword)`, that is `bcrypt.compare`:
bcryptjs rejects with `Illegal arguments` unless the entered password is a string. -/
def User.matchPassword (crypto : Crypto) (enteredPassword : JsVal)
    (hashedPassword : String) : Except JsError Bool :=
  match enteredPassword with
  | .str s => .ok (crypto.compare s hashedPassword)
  | v => .error ⟨"Illegal arguments: " ++ jsTypeof v ++ ", string"⟩

/-- The method call `email.toLowerCase()` of the User model: a `TypeError` unless the
value is a string. -/
def emailToLowerCase (toLowerCase : String → String) (email : JsVal) :
    Except JsError String :=
  match email with
  | .str s => .ok (toLowerCase s)
  | .undefined =>
    .error ⟨"Cannot read properties of undefined (reading 'toLowerCase')"⟩
  | .null => .error ⟨"Cannot read properties of null (reading 'toLowerCase')"⟩
  | _ => .error ⟨"email.toLowerCase is not a function"⟩

/-- The argument of `User.create`.  The Google route also passes `avatar` and
`googleId`. -/
structure UserData where
  name : JsVal
  email : JsVal
  password : JsVal
  avatar : JsVal := .undefined
  googleId : JsVal := .undefined

/-- `User.create(userData)`: only `name`, `email` and `password` are destructured; the
password is hashed, then the document is built and added.  The created account and the
new collection are returned. -/
def User.create (toLowerCase : String → String) (crypto : Crypto) (env : Env)
    (users : List User) (userData : UserData) : Except JsError (User × List User) :=
  match bcryptHash crypto userData.password with
  | .error e => .error e
  | .ok hashedPassword =>
    match emailToLowerCase toLowerCase userData.email with
    | .error e => .error e
    | .ok email =>
      let newUser : User :=
        { id := env.docId
          name := userData.name
          email := email
          password := hashedPassword
          avatar := .str ""
          bio := .str ""
          createdAt := env.clock1
          updatedAt := env.clock2 }
      .ok (newUser, users ++ [newUser])

/-- `User.findByEmail(email)`: the first account whose stored email equals the
lower-cased argument. -/
def User.findByEmail (toLowerCase : String → String) (users : List User)
    (email : JsVal) : Except JsError (Option User) :=
  match emailToLowerCase toLowerCase email with
  | .error e => .error e
  | .ok lowered => .ok (users.find? (fun u => u.email = lowered))

/-- The update object passed to `User.findByIdAndUpdate`; `none` is a key that is not
present. -/
structure UserUpdate where
  name : Option JsVal := none
  bio : Option JsVal := none
  avatar : Option JsVal := none
  password : Option String := none

/-- The effect of a partial update on one account document. -/
def applyUserUpdate (upd : UserUpdate) (updatedAt : String) (u : User) : User :=
  { u with
    name := upd.name.getD u.name
    bio := upd.bio.getD u.bio
    avatar := upd.avatar.getD u.avatar
    password := upd.password.getD u.password
    updatedAt := updatedAt }

/-- `User.findByIdAndUpdate(id, updateData)`: the re-read account and the new
collection; the update fails when the document is absent. -/
def User.findByIdAndUpdate (users : List User) (env : Env) (id : String)
    (upd : UserUpdate) : Except JsError (Option User × List User) :=
  match User.findById users id with
  | none => .error ⟨"No document to update"⟩
  | some _ =>
    let users2 := users.map (fun u => if u.id = id then applyUserUpdate upd env.clock1 u else u)
    .ok (User.findById users2 id, users2)

/-- The request body of an auth route, as the handler reads it after the validation
chains have run; `idToken` is `none` when the key is absent. -/
structure AuthFields where
  name : JsVal := .undefined
  email : JsVal := .undefined
  password : JsVal := .undefined
  bio : JsVal := .undefined
  avatar : JsVal := .undefined
  currentPassword : JsVal := .undefined
  newPassword : JsVal := .undefined
  idToken : Option String := none

/-- An inbound auth request: `path` is `req.query.path`, and `valid` is the verdict of
`runValidation` (express-validator) for the rules of the route.  The rules check the
string form of a value, so a value that is not a string can pass them. -/
structure AuthRequest where
  method : String
  path : Option (List String) := none
  authorization : Option String := none
  valid : Bool := true
  body : AuthFields := {}

/-- The JSON bodies the auth handler sends.  A `user` object is the list of its keys
with their values. -/
inductive AuthBody where
  | empty
  | message (success : Bool) (message : String)
  | validationErrors
  | session (token : String) (user : List (String × JsVal))
  | account (user : List (String × JsVal))
  | tokenMessage (token : String) (message : String)
  deriving DecidableEq

/-- A response of the auth handler: the status code and the body. -/
structure AuthResponse where
  status : Nat
  body : AuthBody
  deriving DecidableEq

/-- The object literal `{ id, name, email, avatar, bio }` built from an account. -/
def userSummary (u : User) : List (String × JsVal) :=
  [("id", .str u.id), ("name", u.name), ("email", .str u.email), ("avatar", u.avatar),
   ("bio", u.bio)]

/-- The object literal of the `me` route, which adds `createdAt`. -/
def meSummary (u : User) : List (String × JsVal) :=
  userSummary u ++ [("createdAt", .str u.createdAt)]

/-- The `catch` branch of the auth handler. -/
def authServerError (e : JsError) : AuthResponse :=
  ⟨500, .message false (if e.message = "" then "Internal server error" else e.message)⟩

/-- The user update built by the profile route from the body. -/
def buildProfileUpdate (body : AuthFields) : UserUpdate :=
  let pick := fun (v : JsVal) => if v = .undefined then none else some v
  { name := pick body.name, bio := pick body.bio, avatar := pick body.avatar }

/-- The expression `email.split('@')[0]`. -/
def emailLocalPart (email : String) : String :=
  ⟨email.data.takeWhile (fun c => c != '@')⟩

/-- The register branch: `POST /api/auth/register`. -/
def registerRoute (toLowerCase : String → String) (crypto : Crypto) (env : Env)
    (req : AuthRequest) (users : List User) : AuthResponse × List User :=
  if req.valid = false then (⟨400, .validationErrors⟩, users)
  else
    match User.findByEmail toLowerCase users req.body.email with
    | .error e => (authServerError e, users)
    | .ok (some _) => (⟨400, .message false "Email already registered"⟩, users)
    | .ok none =>
      match User.create toLowerCase crypto env users
          { name := req.body.name, email := req.body.email,
            password := req.body.password } with
      | .error e => (authServerError e, users)
      | .ok created =>
        (⟨201, .session (crypto.sign created.1.id) (userSummary created.1)⟩, created.2)

/-- The login branch: `POST /api/auth/login`. -/
def loginRoute (toLowerCase : String → String) (crypto : Crypto) (req : AuthRequest)
    (users : List User) : AuthResponse × List User :=
  if req.valid = false then (⟨400, .validationErrors⟩, users)
  else
    match User.findByEmail toLowerCase users req.body.email with
    | .error e => (authServerError e, users)
    | .ok none => (⟨401, .message false "Invalid credentials"⟩, users)
    | .ok (some user) =>
      match User.matchPassword crypto req.body.password user.password with
      | .error e => (authServerError e, users)
      | .ok false => (⟨401, .message false "Invalid credentials"⟩, users)
      | .ok true => (⟨200, .session (crypto.sign user.id) (userSummary user)⟩, users)

/-- The branch `GET /api/auth/me`. -/
def meRoute (crypto : Crypto) (req : AuthRequest) (users : List User) :
    AuthResponse × List User :=
  match protect crypto.verify users req.authorization with
  | .denied message => (⟨401, .message false message⟩, users)
  | .granted id =>
    match User.findById users id with
    | none => (authServerError ⟨"Cannot read properties of null (reading 'id')"⟩, users)
    | some user => (⟨200, .account (meSummary user)⟩, users)

/-- The branch `PUT /api/auth/profile`. -/
def profileRoute (crypto : Crypto) (env : Env) (req : AuthRequest) (users : List User) :
    AuthResponse × List User :=
  match protect crypto.verify users req.authorization with
  | .denied message => (⟨401, .message false message⟩, users)
  | .granted id =>
    if req.valid = false then (⟨400, .validationErrors⟩, users)
    else
      match User.findByIdAndUpdate users env id (buildProfileUpdate req.body) with
      | .error e => (authServerError e, users)
      | .ok (none, users2) =>
        (authServerError ⟨"Cannot read properties of null (reading 'id')"⟩, users2)
      | .ok (some user, users2) => (⟨200, .account (userSummary user)⟩, users2)

/-- The branch `PUT /api/auth/password`. -/
def passwordRoute (crypto : Crypto) (env : Env) (req : AuthRequest) (users : List User) :
    AuthResponse × List User :=
  match protect crypto.verify users req.authorization with
  | .denied message => (⟨401, .message false message⟩, users)
  | .granted id =>
    if req.valid = false then (⟨400, .validationErrors⟩, users)
    else
      match User.findById users id with
      | none =>
        (authServerError ⟨"Cannot read properties of null (reading 'password')"⟩, users)
      | some user =>
        match User.matchPassword crypto req.body.currentPassword user.password with
        | .error e => (authServerError e, users)
        | .ok false => (⟨401, .message false "Current password is incorrect"⟩, users)
        | .ok true =>
          match bcryptHash crypto req.body.newPassword with
          | .error e => (authServerError e, users)
          | .ok hashedPassword =>
            match User.findByIdAndUpdate users env id
                { password := some hashedPassword } with
            | .error e => (authServerError e, users)
            | .ok (_, users2) =>
              (⟨200, .tokenMessage (crypto.sign user.id) "Password updated successfully"⟩,
                users2)

/-- The account data the Google branch passes to `User.create`. -/
def googleUserData (decoded : GoogleToken) : UserData :=
  { name := .str
      (match decoded.name with
        | some n => if n = "" then emailLocalPart decoded.email else n
        | none => emailLocalPart decoded.email)
    email := .str decoded.email
    password := .str decoded.uid
    avatar := .str (decoded.picture.getD "")
    googleId := .str decoded.uid }

/-- The branch `POST /api/auth/google`. -/
def googleRoute (toLowerCase : String → String) (crypto : Crypto) (env : Env)
    (req : AuthRequest) (users : List User) : AuthResponse × List User :=
  match req.body.idToken with
  | none => (⟨400, .message false "ID token is required"⟩, users)
  | some idToken =>
    if idToken = "" then (⟨400, .message false "ID token is required"⟩, users)
    else
      match crypto.verifyIdToken idToken with
      | .error e => (authServerError e, users)
      | .ok decoded =>
        match User.findByEmail toLowerCase users (.str decoded.email) with
        | .error e => (authServerError e, users)
        | .ok (some user) =>
          (⟨200, .session (crypto.sign user.id) (userSummary user)⟩, users)
        | .ok none =>
          match User.create toLowerCase crypto env users (googleUserData decoded) with
          | .error e => (authServerError e, users)
          | .ok created =>
            (⟨200, .session (crypto.sign created.1.id) (userSummary created.1)⟩,
              created.2)

/-- The exported auth handler: the response sent and the accounts afterwards. -/
def authHandler (toLowerCase : String → String) (crypto : Crypto) (env : Env)
    (req : AuthRequest) (users : List User) : AuthResponse × List User :=
  if req.method = "OPTIONS" then (⟨200, .empty⟩, users)
  else
    let route :=
      match req.path with
      | some path => "/".intercalate path
      | none => ""
    if route = "register" ∧ req.method = "POST" then
      registerRoute toLowerCase crypto env req users
    else if route = "login" ∧ req.method = "POST" then
      loginRoute toLowerCase crypto req users
    else if route = "me" ∧ req.method = "GET" then meRoute crypto req users
    else if route = "profile" ∧ req.method = "PUT" then profileRoute crypto env req users
    else if route = "password" ∧ req.method = "PUT" then passwordRoute crypto env req users
    else if route = "google" ∧ req.method = "POST" then
      googleRoute toLowerCase crypto env req users
    else (⟨404, .message false "Route not found"⟩, users)

/-- The `user` object of a response body, when it has one. -/
def AuthBody.user : AuthBody → Option (List (String × JsVal))
  | .session _ user => some user
  | .account user => some user
  | _ => none

/-- The accounts after a sequence of auth requests handled one after the other, each
with its own library calls, generated id and clock readings. -/
def runAuth (toLowerCase : String → String)
    (requests : List (Crypto × Env × AuthRequest)) (users : List User) : List User :=
  requests.foldl (fun us x => (authHandler toLowerCase x.1 x.2.1 x.2.2 us).2) users

/-- The spec's email invariant: every stored email is lower-case, and no two accounts
have emails that are equal up to letter case. -/
def emailsUnique (toLowerCase : String → String) (users : List User) : Prop :=
  (∀ u ∈ users, toLowerCase u.email = u.email) ∧
    users.Pairwise (fun a b => toLowerCase a.email ≠ toLowerCase b.email)

instance emailsUnique_decidable (toLowerCase : String → String) (users : List User) :
    Decidable (emailsUnique toLowerCase users) := by
  unfold emailsUnique
  infer_instance

/-- An account record with its password hash rewritten by `f`. -/
def rehash (f : String → String) (u : User) : User :=
  { u with password := f u.password }

/-! ## Reference predicates, written from the specification -/

/-- The spec's search predicate on one field: the lower-cased field contains the
lower-cased search text. -/
def fieldContains (toLowerCase : String → String) (field : JsVal) (searchLower : String) : Bool :=
  match field with
  | .str s => includes (toLowerCase s) searchLower
  | _ => false

/-- The spec's exact-match predicate for a status or priority option: the filter is
active when the option is a non-empty string other than `all`, and an inactive filter
passes everything. -/
def passesExact (option : Option String) (field : JsVal) : Bool :=
  match option with
  | some s => s = "" || s = "all" || field = .str s
  | none => true

/-- The spec's search predicate: active when the search text is non-empty; the task
passes when its title or its description contains the text, ignoring case. -/
def passesSearch (toLowerCase : String → String) (search : Option String) (task : Task) : Bool :=
  match search with
  | some q =>
    q = "" || fieldContains toLowerCase task.title (toLowerCase q) ||
      fieldContains toLowerCase task.description (toLowerCase q)
  | none => true

/-- The spec's filter predicate: a task passes when it passes each active filter. -/
def satisfiesFilters (toLowerCase : String → String) (options : Options) (task : Task) : Bool :=
  passesExact options.status task.status &&
    passesExact options.priority task.priority &&
    passesSearch toLowerCase options.search task

/-- The spec's priority mapping `high: 3, medium: 2, low: 1`, and `0` otherwise. -/
def mappedRank (priority : JsVal) : Int :=
  if priority = .str "high" then 3
  else if priority = .str "medium" then 2
  else if priority = .str "low" then 1
  else 0

/-- The `tasks` array `Task.findByUser` returns for page `page` at limit `limit`; empty
when the call throws. -/
def pageTasks (toLowerCase : String → String)
    (store : List Task) (userId : String) (options : Options) (limit page : Int) :
    List Task :=
  match Task.findByUser toLowerCase store userId
    { options with page := .int page, limit := .int limit } with
  | .ok r => r.tasks
  | .error _ => []

/-- Modelled from the spec: task identifiers are opaque and store-assigned.  The ids the
store generates are 20 characters drawn from the letters and digits. -/
def isAutoId (id : String) : Bool :=
  id.data.length == 20 && id.data.all Char.isAlphanum

/-- Document ids are unique within the collection. -/
def uniqueIds (store : List Task) : Prop :=
  (store.map (fun t => t._id)).Nodup

/-- The priority is one of the three recognized strings. -/
def recognizedPriority (v : JsVal) : Prop :=
  v = .str "high" ∨ v = .str "medium" ∨ v = .str "low"

/-- The recognized priority that the mapping sends to a given rank. -/
def priorityOfRank (n : Int) : JsVal :=
  if n = 3 then .str "high" else if n = 2 then .str "medium" else .str "low"

/-- The status is one of the three recognized strings. -/
def recognizedStatus (v : JsVal) : Prop :=
  v = .str "pending" ∨ v = .str "in-progress" ∨ v = .str "completed"

/-- The number of tasks whose field, read as a property key, is `key`.  For a field
holding a string this is the number of tasks whose field is that string. -/
def countKey (tasks : List Task) (field : Task → JsVal) (key : String) : Nat :=
  (tasks.filter (fun t => toPropertyKey (field t) = key)).length

/-- The guarded statement `if (counters[key] !== undefined) counters[key]++`. -/
def counterStep (o : Counters) (key : String) : Counters :=
  if counterDefined o key then counterIncrement o key else o

/-- The spec's partial update of one field: a value present in the body replaces the
old one, an absent key (`undefined`) keeps it. -/
def pickField (supplied old : JsVal) : JsVal :=
  if supplied = .undefined then old else supplied

/-- The spec's result of a partial update: the five fields follow the body, the update
timestamp is refreshed, and the id, the owner and the creation timestamp are kept. -/
def updatedTask (t : Task) (body : Body) (updatedAt : String) : Task :=
  { _id := t._id
    title := pickField body.title t.title
    description := pickField body.description t.description
    status := pickField body.status t.status
    priority := pickField body.priority t.priority
    dueDate := pickField body.dueDate t.dueDate
    userId := t.userId
    createdAt := t.createdAt
    updatedAt := updatedAt }

/-- The value the sort callback compares for one task: the field `task[sortBy]`, or for
`sortBy = 'priority'` the table entry `priorityOrder[value] || 0`. -/
def sortKey (sortBy : String) (t : Task) : JsVal :=
  if sortBy = "priority" then (priorityOrder (toPropertyKey (t.prop sortBy))).orElse (.num 0)
  else t.prop sortBy

/-! ## Sample data -/

/-- A sample task of owner `u1`. -/
def sampleTask1 : Task :=
  { _id := "a1B2c3D4e5F6g7H8i9J0", title := .str "Write Report", description := .str "quarterly",
    status := .str "pending", priority := .str "high", dueDate := .null,
    userId := "u1", createdAt := "2024-01-01T00:00:00.000Z",
    updatedAt := "2024-01-01T00:00:00.000Z" }

/-- A second sample task of owner `u1`. -/
def sampleTask2 : Task :=
  { _id := "k1L2m3N4o5P6q7R8s9T0", title := .str "Call Bob", description := .str "about the report",
    status := .str "completed", priority := .str "low", dueDate := .null,
    userId := "u1", createdAt := "2024-01-02T00:00:00.000Z",
    updatedAt := "2024-01-02T00:00:00.000Z" }

/-- A sample task of owner `u2`. -/
def sampleTask3 : Task :=
  { _id := "u1V2w3X4y5Z6a7B8c9D0", title := .str "Other", description := .str "",
    status := .str "pending", priority := .str "medium", dueDate := .null,
    userId := "u2", createdAt := "2024-01-03T00:00:00.000Z",
    updatedAt := "2024-01-03T00:00:00.000Z" }

/-- A sample store holding the three sample tasks. -/
def sampleStore : List Task :=
  [sampleTask1, sampleTask2, sampleTask3]

/-- A task of owner `u1` whose status is not one of the recognized values. -/
def archivedTask : Task :=
  { _id := "e1F2g3H4i5J6k7L8m9N0", title := .str "Old", description := .str "",
    status := .str "archived", priority := .str "medium", dueDate := .null,
    userId := "u1", createdAt := "2024-01-04T00:00:00.000Z",
    updatedAt := "2024-01-04T00:00:00.000Z" }

/-- A task of owner `u1` whose status is the name of an inherited property. -/
def constructorTask : Task :=
  { _id := "o1P2q3R4s5T6u7V8w9X0", title := .str "Odd", description := .str "",
    status := .str "constructor", priority := .str "medium", dueDate := .null,
    userId := "u1", createdAt := "2024-01-05T00:00:00.000Z",
    updatedAt := "2024-01-05T00:00:00.000Z" }

/-- Sample outside inputs for a first `Task.create` call. -/
def sampleEnv1 : Env :=
  { docId := "Q1r2S3t4U5v6W7x8Y9z0", clock1 := "2024-02-01T10:00:00.000Z",
    clock2 := "2024-02-01T10:00:00.001Z" }

/-- Sample outside inputs for a second `Task.create` call. -/
def sampleEnv2 : Env :=
  { docId := "A9b8C7d6E5f4G3h2I1j0", clock1 := "2024-02-01T11:00:00.000Z",
    clock2 := "2024-02-01T11:00:00.000Z" }

/-- A sample account. -/
def sampleUser : User :=
  { id := "U1a2B3c4D5e6F7g8H9i0", name := .str "Ada", email := "ada@example.com",
    password := "$2a$10$hash", avatar := .str "", bio := .str "",
    createdAt := "2024-01-01T00:00:00.000Z", updatedAt := "2024-01-01T00:00:00.000Z" }

/-- A sample token verifier: the token `good` is bound to the sample account, the token
`gone` to an account that does not exist, and every other token is rejected. -/
def sampleVerify (token : String) : Option String :=
  if token = "good" then some "U1a2B3c4D5e6F7g8H9i0"
  else if token = "gone" then some "Z9y8X7w6V5u4T3s2R1q0"
  else none

/-- A task of owner `u1` with a due date. -/
def dueTask : Task :=
  { _id := "d1U2e3D4a5T6e7T8a9S0", title := .str "Pay rent", description := .str "",
    status := .str "pending", priority := .str "medium", dueDate := .str "2024-03-01",
    userId := "u1", createdAt := "2024-01-06T00:00:00.000Z",
    updatedAt := "2024-01-06T00:00:00.000Z" }

/-- A task of owner `u1` whose priority is the name of an inherited property. -/
def inheritedPriorityTask : Task :=
  { _id := "p1R2i3O4r5I6t7Y8x9Z0", title := .str "Odd priority", description := .str "",
    status := .str "pending", priority := .str "constructor", dueDate := .null,
    userId := "u1", createdAt := "2024-01-07T00:00:00.000Z",
    updatedAt := "2024-01-07T00:00:00.000Z" }

/-- Sample library calls: a tagging hash, its checker, and the sample token verifier. -/
def sampleCrypto : Crypto :=
  { hash := fun p => "hash:" ++ p
    compare := fun p h => h = "hash:" ++ p
    sign := fun id => "token:" ++ id
    verify := sampleVerify
    verifyIdToken := fun t =>
      if t = "google-ok" then
        .ok { uid := "firebase-uid-1", email := "Grace@Example.com", name := some "Grace",
              picture := some "https://example.com/grace.png" }
      else .error ⟨"Decoding Firebase ID token failed"⟩ }

/-- An account whose password is `secret1` under the sample hash. -/
def sampleAccount : User :=
  { id := "u1", name := .str "Ada", email := "ada@example.com",
    password := "hash:secret1", avatar := .str "", bio := .str "",
    createdAt := "2024-01-01T00:00:00.000Z", updatedAt := "2024-01-01T00:00:00.000Z" }

/-- The sample library calls over re-encoded hashes: a stored hash is read back to
front before it is compared. -/
def sampleCryptoReversed : Crypto :=
  { sampleCrypto with
    compare := fun p h => sampleCrypto.compare p ⟨h.data.reverse⟩ }

/-! ## Lemmas on the array operations -/

theorem filterE_eq_filter {α : Type} (p : α → Except JsError Bool) (l ys : List α)
    (h : filterE p l = .ok ys) :
    ys = l.filter (fun x => okTrue (p x)) ∧ ∀ x ∈ l, ∃ b, p x = .ok b := by
  induction l generalizing ys with
  | nil =>
    simp [filterE] at h
    simp [h]
  | cons x xs ih =>
    unfold filterE at h
    cases hp : p x with
    | error e => simp [hp] at h
    | ok b =>
      cases hr : filterE p xs with
      | error e => simp [hp, hr] at h
      | ok zs =>
        simp only [hp, hr] at h
        obtain ⟨hz, hall⟩ := ih zs hr
        have hys : ys = if b then x :: zs else zs := by
          injection h with h'
          exact h'.symm
        refine ⟨?_, ?_⟩
        · cases b <;> simp [hys, hz, List.filter_cons, hp, okTrue]
        · intro y hy
          rcases List.mem_cons.mp hy with rfl | hy'
          · exact ⟨b, hp⟩
          · exact hall y hy'

theorem filterE_ok_of_forall {α : Type} (p : α → Except JsError Bool) (l : List α)
    (h : ∀ x ∈ l, ∃ b, p x = .ok b) : ∃ ys, filterE p l = .ok ys := by
  induction l with
  | nil => exact ⟨[], rfl⟩
  | cons x xs ih =>
    obtain ⟨b, hb⟩ := h x (List.mem_cons_self _ _)
    obtain ⟨zs, hz⟩ := ih (fun y hy => h y (List.mem_cons_of_mem _ hy))
    exact ⟨if b then x :: zs else zs, by simp [filterE, hb, hz]⟩

theorem insertByCompare_perm {α : Type} (cmp : α → α → Int) (x : α) (l : List α) :
    (insertByCompare cmp x l).Perm (x :: l) := by
  induction l with
  | nil => simp [insertByCompare]
  | cons y ys ih =>
    unfold insertByCompare
    split
    · exact List.Perm.refl _
    · exact (List.Perm.cons y ih).trans (List.Perm.swap x y ys)

theorem foldl_insert_perm {α : Type} (cmp : α → α → Int) (l acc : List α) :
    (l.foldl (fun acc x => insertByCompare cmp x acc) acc).Perm (l ++ acc) := by
  induction l generalizing acc with
  | nil => simp
  | cons x xs ih =>
    simp only [List.foldl_cons]
    refine (ih _).trans ?_
    refine (List.Perm.append_left xs (insertByCompare_perm cmp x acc)).trans ?_
    simp

theorem arraySort_perm {α : Type} (cmp : α → α → Int) (l : List α) :
    (arraySort cmp l).Perm l := by
  simpa [arraySort] using foldl_insert_perm cmp l []

theorem arraySlice_sublist {α : Type} (l : List α) (a b : Int) :
    (arraySlice l a b).Sublist l := by
  unfold arraySlice
  exact (List.take_sublist _ _).trans (List.drop_sublist _ _)

/-! ## The filter stage -/

theorem exactFilter_eq (option : Option String) (field : Task → JsVal) (tasks : List Task) :
    (if filterActive option then
        tasks.filter (fun task => field task = .str (option.getD ""))
      else tasks) = tasks.filter (fun task => passesExact option (field task)) := by
  cases option with
  | none => simp [filterActive, passesExact]
  | some s =>
    by_cases h1 : s = ""
    · simp [filterActive, passesExact, h1]
    · by_cases h2 : s = "all"
      · simp [filterActive, passesExact, h2]
      · simp [filterActive, passesExact, h1, h2]

theorem matchesSearch_ok {toLowerCase : String → String} (q : String) (t : Task) (b : Bool)
    (h : matchesSearch toLowerCase q t = .ok b) :
    b = (fieldContains toLowerCase t.title q || fieldContains toLowerCase t.description q) ∧
      ∃ title, t.title = .str title := by
  unfold matchesSearch at h
  cases ht : t.title <;> simp [ht, callToLowerCase] at h
  rename_i title
  refine ⟨?_, title, rfl⟩
  by_cases hi : includes (toLowerCase title) q = true
  · simp [hi] at h
    simp [fieldContains, hi, h]
  · simp [hi] at h
    cases hd : t.description <;> simp [hd, callToLowerCase] at h
    simp [fieldContains, hi, h]

theorem searchFilter_eq {toLowerCase : String → String}
    (search : Option String) (tasks ys : List Task)
    (h : searchFilter toLowerCase search tasks = Except.ok ys) :
    ys = tasks.filter (passesSearch toLowerCase search) := by
  unfold searchFilter at h
  cases search with
  | none =>
    simp only [Except.ok.injEq] at h
    subst h
    exact (List.filter_eq_self.mpr (fun x _ => by simp [passesSearch])).symm
  | some q =>
    by_cases hq : q = ""
    · simp only [hq, if_true, Except.ok.injEq] at h
      subst h
      exact (List.filter_eq_self.mpr (fun x _ => by simp [passesSearch, hq])).symm
    · simp only [hq, if_false] at h
      obtain ⟨hys, hall⟩ := filterE_eq_filter _ _ _ h
      rw [hys]
      apply List.filter_congr
      intro x hx
      obtain ⟨b, hb⟩ := hall x hx
      have := (matchesSearch_ok _ _ _ hb).1
      simp [passesSearch, hq, okTrue, hb, this]

theorem filterTasks_eq {toLowerCase : String → String}
    (store : List Task) (userId : String) (options : Options)
    (ts : List Task) (h : filterTasks toLowerCase store userId options = .ok ts) :
    ts = (whereUserId store userId).filter (satisfiesFilters toLowerCase options) := by
  unfold filterTasks at h
  simp only [exactFilter_eq options.status (fun t => t.status),
    exactFilter_eq options.priority (fun t => t.priority)] at h
  have := searchFilter_eq _ _ _ h
  rw [this, List.filter_filter, List.filter_filter]
  apply List.filter_congr
  intro x _
  simp only [satisfiesFilters]
  cases passesExact options.status x.status <;>
    cases passesExact options.priority x.priority <;>
    cases passesSearch toLowerCase options.search x <;> rfl

/-- What a successful `Task.findByUser` call returns, in terms of the filter stage. -/
theorem findByUser_ok {toLowerCase : String → String}
    (store : List Task) (userId : String) (options : Options)
    (r : FindResult) (h : Task.findByUser toLowerCase store userId options = .ok r) :
    ∃ ts full, filterTasks toLowerCase store userId options = .ok ts ∧
      sortedTasks toLowerCase store userId options = .ok full ∧ full.Perm ts ∧
      r.tasks.Sublist full ∧ r.total = ts.length := by
  unfold Task.findByUser at h
  cases hs : sortedTasks toLowerCase store userId options with
  | error e => simp [hs] at h
  | ok full =>
    simp only [hs, Except.ok.injEq, paginate] at h
    have hs2 := hs
    unfold sortedTasks at hs2
    cases hf : filterTasks toLowerCase store userId options with
    | error e => simp [hf] at hs2
    | ok ts =>
      simp only [hf, Except.ok.injEq] at hs2
      refine ⟨ts, full, rfl, rfl, ?_, ?_, ?_⟩
      · rw [← hs2]
        exact arraySort_perm _ _
      · rw [← h]
        exact arraySlice_sublist _ _ _
      · rw [← h, ← hs2]
        exact (arraySort_perm _ _).length_eq

/-- Every returned task is one of the owner's tasks that pass the filters. -/
theorem findByUser_mem {toLowerCase : String → String}
    (store : List Task) (userId : String) (options : Options)
    (r : FindResult) (h : Task.findByUser toLowerCase store userId options = .ok r) (t : Task)
    (ht : t ∈ r.tasks) :
    (t ∈ store ∧ t.userId = userId) ∧ satisfiesFilters toLowerCase options t = true := by
  obtain ⟨ts, full, hf, _, hperm, hsub, _⟩ := findByUser_ok store userId options r h
  have hmem : t ∈ ts := hperm.subset (hsub.subset ht)
  rw [filterTasks_eq store userId options ts hf] at hmem
  obtain ⟨hown, hsat⟩ := List.mem_filter.mp hmem
  simp only [whereUserId, List.mem_filter, decide_eq_true_eq] at hown
  exact ⟨hown, hsat⟩

/-! ## C1 -/

/-- C1: every task in the `tasks` array returned by `Task.findByUser` is a stored task of
the owner and satisfies every active predicate: its status is the `status` option when
that option is set (a non-empty string) and not `all`, its priority is the `priority`
option when that is set and not `all`, and its lower-cased title or lower-cased
description contains the lower-cased `search` when `search` is non-empty. -/
theorem findByUser_tasks_satisfy_filters (toLowerCase : String → String)
    (store : List Task) (userId : String)
    (options : Options) (r : FindResult)
    (h : Task.findByUser toLowerCase store userId options = .ok r) :
    ∀ t ∈ r.tasks,
      t ∈ store ∧ t.userId = userId ∧
      (∀ s, options.status = some s → s ≠ "" → s ≠ "all" → t.status = .str s) ∧
      (∀ p, options.priority = some p → p ≠ "" → p ≠ "all" → t.priority = .str p) ∧
      (∀ q, options.search = some q → q ≠ "" →
        (∃ title, t.title = .str title ∧
          includes (toLowerCase title) (toLowerCase q) = true) ∨
        (∃ d, t.description = .str d ∧
          includes (toLowerCase d) (toLowerCase q) = true)) := by
  intro t ht
  obtain ⟨hown, hsat⟩ := findByUser_mem store userId options r h t ht
  simp only [satisfiesFilters, Bool.and_eq_true] at hsat
  obtain ⟨⟨hst, hpr⟩, hse⟩ := hsat
  refine ⟨hown.1, hown.2, ?_, ?_, ?_⟩
  · intro s hs h1 h2
    simpa [passesExact, hs, h1, h2] using hst
  · intro p hp h1 h2
    simpa [passesExact, hp, h1, h2] using hpr
  · intro q hq h1
    simp only [passesSearch, hq, h1, decide_False, Bool.false_or, Bool.or_eq_true] at hse
    rcases hse with hse | hse
    · left
      cases htt : t.title <;> simp [fieldContains, htt] at hse
      exact ⟨_, rfl, hse⟩
    · right
      cases htd : t.description <;> simp [fieldContains, htd] at hse
      exact ⟨_, rfl, hse⟩

/-- The filters at work on the sample store: the one task returned for
`status = pending`, `search = REPORT` has status `pending`. -/
theorem findByUser_tasks_satisfy_filters_witness :
    Task.findByUser asciiToLowerCase sampleStore "u1"
      { status := some "pending", search := some "REPORT" } =
        .ok { tasks := [sampleTask1], total := 1, totalPages := .int 1,
              currentPage := .int 1 } ∧
      sampleTask1.status = .str "pending" :=
  ⟨rfl,
    ((findByUser_tasks_satisfy_filters asciiToLowerCase sampleStore "u1"
        { status := some "pending", search := some "REPORT" }
        { tasks := [sampleTask1], total := 1, totalPages := .int 1, currentPage := .int 1 }
        rfl) sampleTask1 (List.mem_singleton.mpr rfl)).2.2.1 "pending" rfl
      (by decide) (by decide)⟩

/-! ## C2 -/

theorem sortedTasks_page_limit (toLowerCase : String → String)
    (store : List Task) (userId : String) (options : Options)
    (page limit : NumArg) :
    sortedTasks toLowerCase store userId { options with page := page, limit := limit } =
      sortedTasks toLowerCase store userId options :=
  rfl

/-- C2: the `total` returned by `Task.findByUser` is the number of the owner's tasks that
satisfy all active status, priority and search predicates, and a call with any other
`page` and `limit` returns the same `total`. -/
theorem findByUser_total_counts_filtered (toLowerCase : String → String)
    (store : List Task) (userId : String)
    (options : Options) (r : FindResult)
    (h : Task.findByUser toLowerCase store userId options = .ok r) :
    r.total = ((whereUserId store userId).filter (satisfiesFilters toLowerCase options)).length ∧
      ∀ page limit : NumArg, ∃ r2,
        Task.findByUser toLowerCase store userId
          { options with page := page, limit := limit } = .ok r2 ∧
          r2.total = r.total := by
  obtain ⟨ts, full, hf, hs, hperm, _, htot⟩ := findByUser_ok store userId options r h
  refine ⟨?_, ?_⟩
  · rw [htot, filterTasks_eq store userId options ts hf]
  · intro page limit
    have hs2 := sortedTasks_page_limit toLowerCase store userId options page limit
    rw [hs] at hs2
    unfold Task.findByUser
    rw [hs2]
    refine ⟨_, rfl, ?_⟩
    show full.length = r.total
    rw [htot]
    exact hperm.length_eq

/-- The count on the sample store: one task of `u1` is pending. -/
theorem findByUser_total_counts_filtered_witness :
    Task.findByUser asciiToLowerCase sampleStore "u1" { status := some "pending" } =
        .ok { tasks := [sampleTask1], total := 1, totalPages := .int 1,
              currentPage := .int 1 } ∧
      (1 : Nat) = ((whereUserId sampleStore "u1").filter
        (satisfiesFilters asciiToLowerCase { status := some "pending" })).length :=
  ⟨rfl,
    (findByUser_total_counts_filtered asciiToLowerCase sampleStore "u1" { status := some "pending" }
      { tasks := [sampleTask1], total := 1, totalPages := .int 1, currentPage := .int 1 }
      rfl).1⟩

/-! ## C3 -/

theorem arraySlice_nat {α : Type} (l : List α) (a b : Nat) :
    arraySlice l (a : Int) (b : Int) = (l.drop a).take (b - a) := by
  unfold arraySlice relativeIndex
  have ha : ¬ ((a : Int) < 0) := by omega
  have hb : ¬ ((b : Int) < 0) := by omega
  simp only [ha, hb, if_false, Int.toNat_ofNat]
  by_cases h : a ≤ l.length
  · rw [Nat.min_eq_left h]
    apply List.take_eq_take.mpr
    simp only [List.length_drop]
    omega
  · have h2 : l.length ≤ a := by omega
    rw [Nat.min_eq_right h2]
    simp [List.drop_of_length_le h2]

theorem chunks_flatten {α : Type} (l : List α) (L n : Nat) :
    ((List.range n).map (fun i => (l.drop (i * L)).take L)).flatten = l.take (n * L) := by
  induction n with
  | zero => simp
  | succ n ih =>
    rw [List.range_succ, List.map_append, List.flatten_append, ih, Nat.succ_mul, List.take_add]
    simp

theorem ceilDiv_pos (total : Nat) (L : Nat) (hL : 1 ≤ L) :
    ∃ n : Nat, ceilDiv total (L : Int) = .int (n : Int) ∧ total ≤ n * L := by
  have hpos : (0 : Int) < (L : Int) := by omega
  have hne : (L : Int) ≠ 0 := by omega
  have h1 := Int.emod_add_ediv (-(total : Int)) (L : Int)
  have h2 := Int.emod_nonneg (-(total : Int)) hne
  have h3 := Int.emod_lt_of_pos (-(total : Int)) hpos
  have hq : (-(total : Int)) / (L : Int) ≤ 0 := by
    by_contra hcon
    have : 1 ≤ (-(total : Int)) / (L : Int) := by omega
    nlinarith
  refine ⟨(-((-(total : Int)) / (L : Int))).toNat, ?_, ?_⟩
  · unfold ceilDiv
    simp only [hne, if_false, hpos, if_true]
    congr 1
    omega
  · have : ((total : Int)) ≤ ((-((-(total : Int)) / (L : Int))).toNat : Int) * (L : Int) := by
      rw [Int.toNat_of_nonneg (by omega)]
      nlinarith
    exact_mod_cast this

/-- The result of `Task.findByUser` for an integer page and limit. -/
theorem findByUser_int {toLowerCase : String → String}
    (store : List Task) (userId : String) (options : Options)
    (full : List Task) (hs : sortedTasks toLowerCase store userId options = .ok full) (p l : Int) :
    Task.findByUser toLowerCase store userId { options with page := .int p, limit := .int l } =
      .ok { tasks := arraySlice full ((p - 1) * l) ((p - 1) * l + l)
            total := full.length
            totalPages := ceilDiv full.length l
            currentPage := .int p } := by
  have hs2 := sortedTasks_page_limit toLowerCase store userId options (.int p) (.int l)
  rw [hs] at hs2
  unfold Task.findByUser
  rw [hs2]
  rfl

/-- C3: for every limit `>= 1`, the returned `totalPages` is a natural number `n`, and
the `tasks` arrays returned for the pages `1, 2, ..., n`, concatenated in that order, are
the full filtered, sorted sequence, which is a rearrangement of the filtered tasks: every
filtered task appears exactly once and in sorted position. -/
theorem pages_concat_eq_sorted (toLowerCase : String → String)
    (store : List Task) (userId : String) (options : Options)
    (limit : Int) (hl : 1 ≤ limit) (full : List Task)
    (hs : sortedTasks toLowerCase store userId options = .ok full) :
    ∃ n : Nat,
      (∀ page : Int, ∃ r,
        Task.findByUser toLowerCase store userId
          { options with page := .int page, limit := .int limit } = .ok r ∧
        r.totalPages = .int n) ∧
      ((List.range n).map
        (fun i : Nat =>
          pageTasks toLowerCase store userId options limit ((i : Int) + 1))).flatten =
        full ∧
      ∃ ts, filterTasks toLowerCase store userId options = .ok ts ∧ full.Perm ts := by
  obtain ⟨L, rfl⟩ : ∃ L : Nat, limit = (L : Int) := ⟨limit.toNat, by omega⟩
  have hL : 1 ≤ L := by omega
  obtain ⟨n, hn, hle⟩ := ceilDiv_pos full.length L hL
  refine ⟨n, ?_, ?_, ?_⟩
  · intro page
    exact ⟨_, findByUser_int store userId options full hs page L, hn⟩
  · have hpage : ∀ i : Nat,
        pageTasks toLowerCase store userId options (L : Int) ((i : Int) + 1) =
          (full.drop (i * L)).take L := by
      intro i
      unfold pageTasks
      rw [findByUser_int store userId options full hs]
      have e1 : ((i : Int) + 1 - 1) * (L : Int) = ((i * L : Nat) : Int) := by
        push_cast
        ring
      have e2 : ((i : Int) + 1 - 1) * (L : Int) + (L : Int) = ((i * L + L : Nat) : Int) := by
        push_cast
        ring
      simp only [e1]
      rw [show ((i * L : Nat) : Int) + (L : Int) = ((i * L + L : Nat) : Int) by push_cast; ring,
        arraySlice_nat]
      simp
    simp only [hpage]
    rw [chunks_flatten]
    exact List.take_of_length_le hle
  · unfold sortedTasks at hs
    cases hf : filterTasks toLowerCase store userId options with
    | error e => simp [hf] at hs
    | ok ts =>
      simp only [hf, Except.ok.injEq] at hs
      exact ⟨ts, rfl, hs ▸ arraySort_perm _ _⟩

/-- The pages of the sample store at limit 1: the two pages give the two tasks of
`u1`, newest first. -/
theorem pages_concat_eq_sorted_witness :
    sortedTasks asciiToLowerCase sampleStore "u1" {} = .ok [sampleTask2, sampleTask1] ∧
      ∃ n : Nat,
        ((List.range n).map
          (fun i : Nat =>
            pageTasks asciiToLowerCase sampleStore "u1" {} 1 ((i : Int) + 1))).flatten =
            [sampleTask2, sampleTask1] :=
  ⟨rfl,
    match pages_concat_eq_sorted asciiToLowerCase sampleStore "u1" {} 1 (by decide)
      [sampleTask2, sampleTask1] rfl with
    | ⟨n, _, h, _⟩ => ⟨n, h⟩⟩

/-! ## C4 -/

theorem insertByCompare_sorted {α : Type} (cmp : α → α → Int) (key : α → Int) (x : α)
    (l : List α) (hcmp : ∀ y ∈ l, (cmp x y < 0 ↔ key x < key y))
    (hl : l.Pairwise (fun a b => key a ≤ key b)) :
    (insertByCompare cmp x l).Pairwise (fun a b => key a ≤ key b) := by
  induction l with
  | nil => simp [insertByCompare]
  | cons y ys ih =>
    have hy := hcmp y (List.mem_cons_self _ _)
    obtain ⟨hy1, hy2⟩ := List.pairwise_cons.mp hl
    unfold insertByCompare
    split
    · rename_i hlt
      have hxy : key x < key y := hy.mp hlt
      refine List.pairwise_cons.mpr ⟨?_, hl⟩
      intro z hz
      rcases List.mem_cons.mp hz with rfl | hz
      · omega
      · have := hy1 z hz
        omega
    · rename_i hlt
      have hxy : ¬ key x < key y := fun h => hlt (hy.mpr h)
      refine List.pairwise_cons.mpr ⟨?_, ih (fun z hz => hcmp z (List.mem_cons_of_mem _ hz)) hy2⟩
      intro z hz
      have hz2 := (insertByCompare_perm cmp x ys).subset hz
      rcases List.mem_cons.mp hz2 with rfl | hz3
      · omega
      · exact hy1 z hz3

theorem foldl_insert_sorted {α : Type} (cmp : α → α → Int) (key : α → Int) (l acc : List α)
    (hcmp : ∀ a ∈ l ++ acc, ∀ b ∈ l ++ acc, (cmp a b < 0 ↔ key a < key b))
    (hacc : acc.Pairwise (fun a b => key a ≤ key b)) :
    (l.foldl (fun acc x => insertByCompare cmp x acc) acc).Pairwise
      (fun a b => key a ≤ key b) := by
  induction l generalizing acc with
  | nil => simpa using hacc
  | cons x xs ih =>
    simp only [List.foldl_cons]
    apply ih
    · intro a ha b hb
      have sub : ∀ c ∈ xs ++ insertByCompare cmp x acc, c ∈ x :: xs ++ acc := by
        intro c hc
        rcases List.mem_append.mp hc with h | h
        · simp [h]
        · have := (insertByCompare_perm cmp x acc).subset h
          rcases List.mem_cons.mp this with rfl | h2
          · simp
          · simp [h2]
      exact hcmp a (sub a ha) b (sub b hb)
    · apply insertByCompare_sorted _ _ _ _ _ hacc
      intro y hy
      exact hcmp x (by simp) y (by simp [hy])

theorem arraySort_sorted {α : Type} (cmp : α → α → Int) (key : α → Int) (l : List α)
    (hcmp : ∀ a ∈ l, ∀ b ∈ l, (cmp a b < 0 ↔ key a < key b)) :
    (arraySort cmp l).Pairwise (fun a b => key a ≤ key b) := by
  unfold arraySort
  apply foldl_insert_sorted cmp key l []
  · simpa using hcmp
  · exact List.Pairwise.nil

theorem compareTasks_priority_desc (a b : Task) (ha : recognizedPriority a.priority)
    (hb : recognizedPriority b.priority) :
    compareTasks "priority" "desc" a b < 0 ↔
      -mappedRank a.priority < -mappedRank b.priority := by
  rcases ha with ha | ha | ha <;> rcases hb with hb | hb | hb <;>
    simp [compareTasks, Task.prop, ha, hb, priorityOrder, toPropertyKey, JsVal.orElse,
      JsVal.truthy, jsGt, jsLt, toPrimitive, toNumber, mappedRank]

theorem compareTasks_priority_asc (order : String) (horder : order ≠ "desc") (a b : Task)
    (ha : recognizedPriority a.priority) (hb : recognizedPriority b.priority) :
    compareTasks "priority" order a b < 0 ↔
      mappedRank a.priority < mappedRank b.priority := by
  rcases ha with ha | ha | ha <;> rcases hb with hb | hb | hb <;>
    simp [compareTasks, Task.prop, ha, hb, priorityOrder, toPropertyKey, JsVal.orElse,
      JsVal.truthy, jsGt, jsLt, toPrimitive, toNumber, mappedRank, horder]

theorem searchFilter_perm {toLowerCase : String → String}
    (search : Option String) (tasks1 tasks2 ys1 : List Task)
    (hperm : tasks1.Perm tasks2) (h : searchFilter toLowerCase search tasks1 = .ok ys1) :
    ∃ ys2, searchFilter toLowerCase search tasks2 = .ok ys2 ∧ ys1.Perm ys2 := by
  unfold searchFilter at h ⊢
  cases search with
  | none =>
    simp only [Except.ok.injEq] at h
    exact ⟨tasks2, rfl, h ▸ hperm⟩
  | some q =>
    by_cases hq : q = ""
    · simp only [hq, if_true, Except.ok.injEq] at h
      exact ⟨tasks2, by simp [hq], h ▸ hperm⟩
    · simp only [hq, if_false] at h ⊢
      obtain ⟨hys, hall⟩ := filterE_eq_filter _ _ _ h
      obtain ⟨ys2, h2⟩ := filterE_ok_of_forall (matchesSearch toLowerCase (toLowerCase q)) tasks2
        (fun x hx => hall x (hperm.symm.subset hx))
      refine ⟨ys2, h2, ?_⟩
      rw [hys, (filterE_eq_filter _ _ _ h2).1]
      exact hperm.filter _

theorem filterTasks_perm {toLowerCase : String → String}
    (store1 store2 : List Task) (userId : String) (options : Options)
    (ts1 : List Task) (hperm : store1.Perm store2)
    (h : filterTasks toLowerCase store1 userId options = .ok ts1) :
    ∃ ts2, filterTasks toLowerCase store2 userId options = .ok ts2 ∧ ts1.Perm ts2 := by
  unfold filterTasks at h ⊢
  simp only [exactFilter_eq options.status (fun t => t.status),
    exactFilter_eq options.priority (fun t => t.priority)] at h ⊢
  refine searchFilter_perm _ _ _ _ ?_ h
  unfold whereUserId
  exact ((hperm.filter _).filter _).filter _

theorem arraySlice_map {α β : Type} (f : α → β) (l : List α) (a b : Int) :
    (arraySlice l a b).map f = arraySlice (l.map f) a b := by
  simp [arraySlice, List.map_take, List.map_drop]

theorem map_priority_eq_of_sorted (l1 l2 : List Task) (key : Task → Int)
    (hperm : l1.Perm l2)
    (h1 : l1.Pairwise (fun a b => key a ≤ key b))
    (h2 : l2.Pairwise (fun a b => key a ≤ key b)) :
    l1.map key = l2.map key := by
  have s1 : @List.Sorted Int LE.le (l1.map key) := List.pairwise_map.mpr h1
  have s2 : @List.Sorted Int LE.le (l2.map key) := List.pairwise_map.mpr h2
  exact List.eq_of_perm_of_sorted (hperm.map key) s1 s2

theorem priorityOfRank_mappedRank (v : JsVal) (h : recognizedPriority v) :
    priorityOfRank (mappedRank v) = v := by
  rcases h with h | h | h <;> simp [h, mappedRank, priorityOfRank]

theorem filterTasks_subset {toLowerCase : String → String}
    (store : List Task) (userId : String) (options : Options)
    (ts : List Task) (h : filterTasks toLowerCase store userId options = .ok ts) :
    ∀ t ∈ ts, t ∈ store := by
  intro t ht
  rw [filterTasks_eq store userId options ts h] at ht
  exact (List.mem_filter.mp (List.mem_filter.mp ht).1).1

/-- Sorting by a key that the comparator follows: the page is ordered by the key, and a
rearranged store gives the same priorities. -/
theorem sorted_by_key {toLowerCase : String → String}
    (store1 store2 : List Task) (userId : String) (options : Options)
    (r1 : FindResult) (key : Task → Int) (decode : Int → JsVal)
    (hperm : store1.Perm store2)
    (hdec : ∀ t ∈ store1, decode (key t) = t.priority)
    (hcmp : ∀ a ∈ store1, ∀ b ∈ store1,
      (compareTasks (options.sortBy.getD "createdAt") (options.order.getD "desc") a b < 0 ↔
        key a < key b))
    (h1 : Task.findByUser toLowerCase store1 userId options = .ok r1) :
    r1.tasks.Pairwise (fun a b => key a ≤ key b) ∧
      ∃ r2, Task.findByUser toLowerCase store2 userId options = .ok r2 ∧
        r2.tasks.map (fun t => t.priority) = r1.tasks.map (fun t => t.priority) := by
  unfold Task.findByUser at h1 ⊢
  unfold sortedTasks at h1 ⊢
  cases hf : filterTasks toLowerCase store1 userId options with
  | error e => simp [hf] at h1
  | ok ts1 =>
    simp only [hf, Except.ok.injEq] at h1
    obtain ⟨ts2, hf2, hts⟩ := filterTasks_perm store1 store2 userId options ts1 hperm hf
    have hsub1 := filterTasks_subset store1 userId options ts1 hf
    have hsub2 : ∀ t ∈ ts2, t ∈ store1 := fun t ht => hsub1 t (hts.symm.subset ht)
    have hs1 := arraySort_sorted
      (compareTasks (options.sortBy.getD "createdAt") (options.order.getD "desc")) key ts1
      (fun a ha b hb => hcmp a (hsub1 a ha) b (hsub1 b hb))
    have hs2 := arraySort_sorted
      (compareTasks (options.sortBy.getD "createdAt") (options.order.getD "desc")) key ts2
      (fun a ha b hb => hcmp a (hsub2 a ha) b (hsub2 b hb))
    have hp := ((arraySort_perm
      (compareTasks (options.sortBy.getD "createdAt") (options.order.getD "desc")) ts1).trans
        hts).trans (arraySort_perm
      (compareTasks (options.sortBy.getD "createdAt") (options.order.getD "desc")) ts2).symm
    have hkeys := map_priority_eq_of_sorted _ _ key hp hs1 hs2
    have hprio : ∀ l : List Task, (∀ t ∈ l, t ∈ store1) →
        l.map (fun t => t.priority) = (l.map key).map decode := by
      intro l hl
      rw [List.map_map]
      apply List.map_congr_left
      intro t ht
      exact (hdec t (hl t ht)).symm
    simp only [hf2]
    refine ⟨?_, _, rfl, ?_⟩
    · rw [← h1]
      exact hs1.sublist (arraySlice_sublist _ _ _)
    · rw [← h1]
      simp only [paginate, arraySlice_map, List.length_map]
      rw [hprio _ (fun t ht => hsub1 t ((arraySort_perm _ ts1).subset ht)),
        hprio _ (fun t ht => hsub2 t ((arraySort_perm _ ts2).subset ht)), hkeys]

/-- C4: when every stored priority is `low`, `medium` or `high` and the tasks are sorted by
`priority`, the returned tasks are ordered by the mapping high 3, medium 2, low 1: the
mapped ranks are non-increasing when the order is `desc` (the default) and non-decreasing
for any other order such as `asc`; and for every rearrangement of the stored tasks the
call returns the same sequence of priorities. -/
theorem priority_sort_ordered (toLowerCase : String → String)
    (store1 store2 : List Task) (userId : String)
    (options : Options) (r1 : FindResult) (hperm : store1.Perm store2)
    (hprio : ∀ t ∈ store1, recognizedPriority t.priority)
    (hsort : options.sortBy = some "priority")
    (h1 : Task.findByUser toLowerCase store1 userId options = .ok r1) :
    (options.order.getD "desc" = "desc" →
      (r1.tasks.map (fun t => mappedRank t.priority)).Pairwise (fun x y => x ≥ y)) ∧
    (options.order.getD "desc" ≠ "desc" →
      (r1.tasks.map (fun t => mappedRank t.priority)).Pairwise (fun x y => x ≤ y)) ∧
    ∃ r2, Task.findByUser toLowerCase store2 userId options = .ok r2 ∧
      r2.tasks.map (fun t => t.priority) = r1.tasks.map (fun t => t.priority) := by
  by_cases horder : options.order.getD "desc" = "desc"
  · obtain ⟨hs, hr⟩ := sorted_by_key store1 store2 userId options r1
      (fun t => -mappedRank t.priority) (fun n => priorityOfRank (-n)) hperm
      (fun t ht => by simp [priorityOfRank_mappedRank _ (hprio t ht)])
      (fun a ha b hb => by
        rw [hsort, horder]
        exact compareTasks_priority_desc a b (hprio a ha) (hprio b hb)) h1
    refine ⟨fun _ => ?_, fun h => absurd horder h, hr⟩
    rw [List.pairwise_map]
    exact hs.imp (fun h => by omega)
  · obtain ⟨hs, hr⟩ := sorted_by_key store1 store2 userId options r1
      (fun t => mappedRank t.priority) priorityOfRank hperm
      (fun t ht => priorityOfRank_mappedRank _ (hprio t ht))
      (fun a ha b hb => by
        rw [hsort]
        exact compareTasks_priority_asc _ horder a b (hprio a ha) (hprio b hb)) h1
    refine ⟨fun h => absurd h horder, fun _ => ?_, hr⟩
    rw [List.pairwise_map]
    exact hs

/-- The sample store sorted by ascending priority. -/
theorem priority_sort_ordered_witness :
    Task.findByUser asciiToLowerCase sampleStore "u1"
      { sortBy := some "priority", order := some "asc" } =
        .ok { tasks := [sampleTask2, sampleTask1], total := 2, totalPages := .int 1,
              currentPage := .int 1 } ∧
      ([sampleTask2, sampleTask1].map (fun t => mappedRank t.priority)).Pairwise
        (fun x y => x ≤ y) :=
  ⟨rfl,
    (priority_sort_ordered asciiToLowerCase sampleStore [sampleTask2, sampleTask1, sampleTask3] "u1"
      { sortBy := some "priority", order := some "asc" }
      { tasks := [sampleTask2, sampleTask1], total := 2, totalPages := .int 1,
        currentPage := .int 1 }
      (List.Perm.swap sampleTask2 sampleTask1 [sampleTask3])
      (by
        intro t ht
        simp only [sampleStore, List.mem_cons, List.mem_singleton, List.not_mem_nil,
          or_false] at ht
        rcases ht with rfl | rfl | rfl <;>
          simp [recognizedPriority, sampleTask1, sampleTask2, sampleTask3])
      rfl rfl).2.1 (by decide)⟩

/-! ## C5 -/

theorem docGet_of_mem (store : List Task) (t : Task) (hu : uniqueIds store) (ht : t ∈ store) :
    docGet store t._id = some t := by
  unfold docGet
  induction store with
  | nil => simp at ht
  | cons x xs ih =>
    unfold uniqueIds at hu
    simp only [List.map_cons, List.nodup_cons] at hu
    rcases List.mem_cons.mp ht with rfl | hmem
    · simp [List.find?_cons]
    · have hx : x._id ≠ t._id := by
        intro h
        exact hu.1 (h ▸ List.mem_map_of_mem (fun t => t._id) hmem)
      simp only [List.find?_cons, hx, decide_False]
      exact ih hu.2 hmem

theorem autoId_ne (id : String) (h : isAutoId id = true) : id ≠ "" ∧ id ≠ "stats" := by
  constructor <;>
  · rintro rfl
    revert h
    decide

theorem route_single (id : String) : "/".intercalate [id] = id := by
  simp [String.intercalate, String.intercalate.go]

theorem findOne_other_owner (store : List Task) (t : Task) (other : String)
    (hu : uniqueIds store) (ht : t ∈ store) (hne : t.userId ≠ other) :
    Task.findOne store t._id other = none := by
  simp [Task.findOne, docGet_of_mem store t hu ht, hne]

theorem findOne_missing (store : List Task) (id other : String) (h : docGet store id = none) :
    Task.findOne store id other = none := by
  simp [Task.findOne, h]

theorem handler_not_found {toLowerCase : String → String}
    (store : List Task) (id other method : String) (env : Env)
    (query : Query) (body : Body)
    (hm : method = "GET" ∨ method = "PUT" ∨ method = "DELETE")
    (h1 : id ≠ "") (h2 : id ≠ "stats") (hf : Task.findOne store id other = none) :
    tasksHandler toLowerCase (.granted other)
        { method := method, params := some [id], query := query, body := body } env store =
      (⟨404, .message false "Task not found"⟩, store) := by
  unfold tasksHandler
  rcases hm with rfl | rfl | rfl <;>
    simp [route_single, h1, h2, hf, taskNotFound]

/-- C5: let `t` be a stored task (with a store-generated id) whose owner is not `other`.
Then `Task.findOne(t._id, other)` is `null`, the same answer as for an id that does not
exist; no result of `Task.findByUser(other, spec)` contains `t`; and the GET, PUT and
DELETE handlers on `/tasks/t._id` called with the identity `other` answer 404 with the
body `success: false, message: 'Task not found'` and leave the store as it was. -/
theorem ownership_isolation (toLowerCase : String → String)
    (store : List Task) (t : Task) (other : String)
    (hu : uniqueIds store) (ht : t ∈ store) (hid : isAutoId t._id = true)
    (hne : t.userId ≠ other) :
    Task.findOne store t._id other = none ∧
    (∀ missing, docGet store missing = none →
      Task.findOne store missing other = Task.findOne store t._id other) ∧
    (∀ options r, Task.findByUser toLowerCase store other options = .ok r → t ∉ r.tasks) ∧
    (∀ (method : String) (env : Env) (query : Query) (body : Body),
      method = "GET" ∨ method = "PUT" ∨ method = "DELETE" →
      tasksHandler toLowerCase (.granted other)
          { method := method, params := some [t._id], query := query, body := body }
          env store =
        (⟨404, .message false "Task not found"⟩, store)) := by
  have hnone := findOne_other_owner store t other hu ht hne
  refine ⟨hnone, ?_, ?_, ?_⟩
  · intro missing hm
    rw [hnone, findOne_missing store missing other hm]
  · intro options r hr hmem
    exact hne (findByUser_mem store other options r hr t hmem).1.2
  · intro method env query body hm
    exact handler_not_found store t._id other method env query body hm
      (autoId_ne _ hid).1 (autoId_ne _ hid).2 hnone

/-- The first sample task, owned by `u1`, is not found under the identity `u2`. -/
theorem ownership_isolation_witness :
    uniqueIds sampleStore ∧ sampleTask1 ∈ sampleStore ∧
      isAutoId sampleTask1._id = true ∧ sampleTask1.userId ≠ "u2" ∧
      Task.findOne sampleStore sampleTask1._id "u2" = none :=
  have hu : uniqueIds sampleStore := by
    unfold uniqueIds
    decide
  have hm : sampleTask1 ∈ sampleStore := List.mem_cons_self _ _
  ⟨hu, hm, rfl, by decide,
    (ownership_isolation asciiToLowerCase sampleStore sampleTask1 "u2" hu hm rfl (by decide)).1⟩

/-! ## Statistics: C6, C7, C8 -/

theorem lookup_map_update (o : Counters) (k k2 : String) :
    (o.map (fun kv => if kv.1 = k then (kv.1, kv.2.map (· + 1)) else kv)).lookup k2 =
      (o.lookup k2).map (fun v => if k2 = k then v.map (· + 1) else v) := by
  induction o with
  | nil => simp
  | cons kv rest ih =>
    obtain ⟨a, b⟩ := kv
    by_cases h2 : k2 = a
    · subst h2
      by_cases hk : k2 = k
      · simp [List.lookup_cons, hk]
      · simp [List.lookup_cons, hk]
    · have hne : (k2 == a) = false := by simpa using h2
      by_cases hk : a = k
      · subst hk
        simp only [List.map_cons, if_true, List.lookup_cons, hne]
        exact ih
      · simp only [List.map_cons, hk, if_false, List.lookup_cons, hne]
        exact ih

theorem lookup_append_some (o extra : Counters) (k : String) (v : Option Nat)
    (h : o.lookup k = some v) : (o ++ extra).lookup k = some v := by
  induction o with
  | nil => simp at h
  | cons kv rest ih =>
    obtain ⟨a, b⟩ := kv
    simp only [List.cons_append, List.lookup_cons] at h ⊢
    cases hka : (k == a) with
    | true => simpa [hka] using h
    | false =>
      simp only [hka] at h ⊢
      exact ih h

theorem counterStep_lookup (o : Counters) (key k2 : String) (v : Option Nat)
    (h : o.lookup k2 = some v) :
    (counterStep o key).lookup k2 = some (if key = k2 then v.map (· + 1) else v) := by
  unfold counterStep
  by_cases hd : counterDefined o key = true
  · simp only [hd, if_true]
    unfold counterIncrement
    cases hl : o.lookup key with
    | some w =>
      simp only [lookup_map_update, h, Option.map_some']
      by_cases hk : k2 = key
      · simp [hk]
      · have hk2 : ¬ key = k2 := fun e => hk e.symm
        simp [hk, hk2]
    | none =>
      have hk : ¬ key = k2 := by
        intro e
        rw [e, h] at hl
        exact Option.noConfusion hl
      simp only [hk, if_false]
      split
      · exact h
      · exact lookup_append_some _ _ _ _ h
  · simp only [hd]
    by_cases hk : key = k2
    · exfalso
      apply hd
      simp [counterDefined, hk, h]
    · simp [hk, h]

theorem statsStep_total (s : Stats) (t : Task) : (statsStep s t).total = s.total + 1 := by
  unfold statsStep
  by_cases h1 : counterDefined s.byStatus (toPropertyKey t.status) = true <;>
    by_cases h2 : counterDefined s.byPriority (toPropertyKey t.priority) = true <;>
    simp [h1, h2]

theorem statsStep_byStatus (s : Stats) (t : Task) :
    (statsStep s t).byStatus = counterStep s.byStatus (toPropertyKey t.status) := by
  unfold statsStep counterStep
  by_cases h1 : counterDefined s.byStatus (toPropertyKey t.status) = true <;>
    by_cases h2 : counterDefined s.byPriority (toPropertyKey t.priority) = true <;>
    simp [h1, h2]

theorem statsStep_byPriority (s : Stats) (t : Task) :
    (statsStep s t).byPriority = counterStep s.byPriority (toPropertyKey t.priority) := by
  unfold statsStep counterStep
  by_cases h1 : counterDefined s.byStatus (toPropertyKey t.status) = true <;>
    by_cases h2 : counterDefined s.byPriority (toPropertyKey t.priority) = true <;>
    simp [h1, h2]

theorem countKey_cons (t : Task) (ts : List Task) (f : Task → JsVal) (k : String) :
    countKey (t :: ts) f k = (if toPropertyKey (f t) = k then 1 else 0) + countKey ts f k := by
  unfold countKey
  by_cases h : toPropertyKey (f t) = k
  · simp [List.filter_cons, h]
    omega
  · simp [List.filter_cons, h]

theorem foldl_stats_total (tasks : List Task) (s : Stats) :
    (tasks.foldl statsStep s).total = s.total + tasks.length := by
  induction tasks generalizing s with
  | nil => simp
  | cons t ts ih =>
    simp only [List.foldl_cons, List.length_cons]
    rw [ih, statsStep_total]
    omega

theorem foldl_stats_byStatus (tasks : List Task) (s : Stats) (k : String) (n : Nat)
    (h : s.byStatus.lookup k = some (some n)) :
    (tasks.foldl statsStep s).byStatus.lookup k =
      some (some (n + countKey tasks (fun t => t.status) k)) := by
  induction tasks generalizing s n with
  | nil => simpa [countKey] using h
  | cons t ts ih =>
    simp only [List.foldl_cons]
    have hstep := counterStep_lookup s.byStatus (toPropertyKey t.status) k (some n) h
    rw [← statsStep_byStatus] at hstep
    rw [countKey_cons]
    by_cases hk : toPropertyKey t.status = k
    · simp only [hk, if_true, Option.map_some'] at hstep ⊢
      rw [ih _ _ hstep]
      congr 2
      omega
    · simp only [hk, if_false] at hstep ⊢
      rw [ih _ _ hstep]
      congr 2
      omega

theorem foldl_stats_byPriority (tasks : List Task) (s : Stats) (k : String) (n : Nat)
    (h : s.byPriority.lookup k = some (some n)) :
    (tasks.foldl statsStep s).byPriority.lookup k =
      some (some (n + countKey tasks (fun t => t.priority) k)) := by
  induction tasks generalizing s n with
  | nil => simpa [countKey] using h
  | cons t ts ih =>
    simp only [List.foldl_cons]
    have hstep := counterStep_lookup s.byPriority (toPropertyKey t.priority) k (some n) h
    rw [← statsStep_byPriority] at hstep
    rw [countKey_cons]
    by_cases hk : toPropertyKey t.priority = k
    · simp only [hk, if_true, Option.map_some'] at hstep ⊢
      rw [ih _ _ hstep]
      congr 2
      omega
    · simp only [hk, if_false] at hstep ⊢
      rw [ih _ _ hstep]
      congr 2
      omega

theorem countKey_sum_le (tasks : List Task) (f : Task → JsVal) (k1 k2 k3 : String)
    (h12 : k1 ≠ k2) (h13 : k1 ≠ k3) (h23 : k2 ≠ k3) :
    countKey tasks f k1 + countKey tasks f k2 + countKey tasks f k3 ≤ tasks.length := by
  induction tasks with
  | nil => simp [countKey]
  | cons t ts ih =>
    simp only [countKey_cons, List.length_cons]
    by_cases e1 : toPropertyKey (f t) = k1
    · have e2 : ¬ toPropertyKey (f t) = k2 := fun e => h12 (e1.symm.trans e)
      have e3 : ¬ toPropertyKey (f t) = k3 := fun e => h13 (e1.symm.trans e)
      rw [if_pos e1, if_neg e2, if_neg e3]
      omega
    · by_cases e2 : toPropertyKey (f t) = k2
      · have e3 : ¬ toPropertyKey (f t) = k3 := fun e => h23 (e2.symm.trans e)
        rw [if_neg e1, if_pos e2, if_neg e3]
        omega
      · by_cases e3 : toPropertyKey (f t) = k3
        · rw [if_neg e1, if_neg e2, if_pos e3]
          omega
        · rw [if_neg e1, if_neg e2, if_neg e3]
          omega

theorem countKey_sum_eq (tasks : List Task) (f : Task → JsVal) (k1 k2 k3 : String)
    (h12 : k1 ≠ k2) (h13 : k1 ≠ k3) (h23 : k2 ≠ k3)
    (hall : ∀ t ∈ tasks, f t = .str k1 ∨ f t = .str k2 ∨ f t = .str k3) :
    countKey tasks f k1 + countKey tasks f k2 + countKey tasks f k3 = tasks.length := by
  induction tasks with
  | nil => simp [countKey]
  | cons t ts ih =>
    have ih2 := ih (fun x hx => hall x (List.mem_cons_of_mem _ hx))
    simp only [countKey_cons, List.length_cons]
    rcases hall t (List.mem_cons_self _ _) with e | e | e
    · have e2 : ¬ k1 = k2 := h12
      have e3 : ¬ k1 = k3 := h13
      simp only [e, toPropertyKey, e2, e3, if_true, if_false]
      omega
    · have e1 : ¬ k2 = k1 := fun h => h12 h.symm
      have e3 : ¬ k2 = k3 := h23
      simp only [e, toPropertyKey, e1, e3, if_true, if_false]
      omega
    · have e1 : ¬ k3 = k1 := fun h => h13 h.symm
      have e2 : ¬ k3 = k2 := fun h => h23 h.symm
      simp only [e, toPropertyKey, e1, e2, if_true, if_false]
      omega

/-- C6: in the result of `Task.getStats` the three status buckets hold counts whose sum
is at most `total`, with equality when every task of the owner has a recognized status;
likewise the three priority buckets sum to at most `total`, with equality when every
task of the owner has a recognized priority. -/
theorem stats_sums_le_total (store : List Task) (userId : String) :
    ∃ p i c lo me hi : Nat,
      (Task.getStats store userId).byStatus.lookup "pending" = some (some p) ∧
      (Task.getStats store userId).byStatus.lookup "in-progress" = some (some i) ∧
      (Task.getStats store userId).byStatus.lookup "completed" = some (some c) ∧
      (Task.getStats store userId).byPriority.lookup "low" = some (some lo) ∧
      (Task.getStats store userId).byPriority.lookup "medium" = some (some me) ∧
      (Task.getStats store userId).byPriority.lookup "high" = some (some hi) ∧
      p + i + c ≤ (Task.getStats store userId).total ∧
      ((∀ t ∈ whereUserId store userId, recognizedStatus t.status) →
        p + i + c = (Task.getStats store userId).total) ∧
      lo + me + hi ≤ (Task.getStats store userId).total ∧
      ((∀ t ∈ whereUserId store userId, recognizedPriority t.priority) →
        lo + me + hi = (Task.getStats store userId).total) := by
  have htotal : (Task.getStats store userId).total = (whereUserId store userId).length := by
    unfold Task.getStats
    rw [foldl_stats_total]
    simp [Stats.initial]
  refine ⟨_, _, _, _, _, _,
    foldl_stats_byStatus _ Stats.initial "pending" 0 rfl,
    foldl_stats_byStatus _ Stats.initial "in-progress" 0 rfl,
    foldl_stats_byStatus _ Stats.initial "completed" 0 rfl,
    foldl_stats_byPriority _ Stats.initial "low" 0 rfl,
    foldl_stats_byPriority _ Stats.initial "medium" 0 rfl,
    foldl_stats_byPriority _ Stats.initial "high" 0 rfl, ?_, ?_, ?_, ?_⟩
  · rw [htotal]
    have := countKey_sum_le (whereUserId store userId) (fun t => t.status)
      "pending" "in-progress" "completed" (by decide) (by decide) (by decide)
    omega
  · intro hall
    rw [htotal]
    have := countKey_sum_eq (whereUserId store userId) (fun t => t.status)
      "pending" "in-progress" "completed" (by decide) (by decide) (by decide) hall
    omega
  · rw [htotal]
    have := countKey_sum_le (whereUserId store userId) (fun t => t.priority)
      "low" "medium" "high" (by decide) (by decide) (by decide)
    omega
  · intro hall
    rw [htotal]
    have := countKey_sum_eq (whereUserId store userId) (fun t => t.priority)
      "low" "medium" "high" (by decide) (by decide) (by decide)
      (fun t ht => by
        rcases hall t ht with h | h | h
        · exact Or.inr (Or.inr h)
        · exact Or.inr (Or.inl h)
        · exact Or.inl h)
    omega

theorem countKey_of_strings (tasks : List Task) (f : Task → JsVal) (k : String)
    (hall : ∀ t ∈ tasks, ∃ x, f t = .str x) :
    countKey tasks f k = (tasks.filter (fun t => f t = .str k)).length := by
  unfold countKey
  congr 1
  apply List.filter_congr
  intro t ht
  obtain ⟨x, hx⟩ := hall t ht
  simp [hx, toPropertyKey]

/-- C7, as amended: `Task.getStats` returns `total` equal to the number of the owner's
tasks; each status bucket holds the number of those tasks whose status, read as a
property key, is the bucket's name (for string statuses: whose status is that name), and
likewise each priority bucket; and one more task raises the status bucket named by its
status by one and leaves the other status buckets alone, so it increments at most one
status bucket, and one exactly when its status is recognized; likewise for priority. -/
theorem stats_counts (store : List Task) (userId : String) :
    (Task.getStats store userId).total = (whereUserId store userId).length ∧
    (∀ s ∈ ["pending", "in-progress", "completed"],
      (Task.getStats store userId).byStatus.lookup s =
        some (some (countKey (whereUserId store userId) (fun t => t.status) s))) ∧
    (∀ p ∈ ["low", "medium", "high"],
      (Task.getStats store userId).byPriority.lookup p =
        some (some (countKey (whereUserId store userId) (fun t => t.priority) p))) ∧
    (∀ s, (∀ t ∈ whereUserId store userId, ∃ x, t.status = .str x) →
      countKey (whereUserId store userId) (fun t => t.status) s =
        ((whereUserId store userId).filter (fun t => t.status = .str s)).length) ∧
    (∀ p, (∀ t ∈ whereUserId store userId, ∃ x, t.priority = .str x) →
      countKey (whereUserId store userId) (fun t => t.priority) p =
        ((whereUserId store userId).filter (fun t => t.priority = .str p)).length) ∧
    (∀ (done : List Task) (t : Task), ∀ s ∈ ["pending", "in-progress", "completed"],
      ∃ n, (done.foldl statsStep Stats.initial).byStatus.lookup s = some (some n) ∧
        (statsStep (done.foldl statsStep Stats.initial) t).byStatus.lookup s =
          some (some (if toPropertyKey t.status = s then n + 1 else n))) ∧
    (∀ (done : List Task) (t : Task), ∀ p ∈ ["low", "medium", "high"],
      ∃ n, (done.foldl statsStep Stats.initial).byPriority.lookup p = some (some n) ∧
        (statsStep (done.foldl statsStep Stats.initial) t).byPriority.lookup p =
          some (some (if toPropertyKey t.priority = p then n + 1 else n))) := by
  have hs0 : ∀ s ∈ ["pending", "in-progress", "completed"],
      Stats.initial.byStatus.lookup s = some (some 0) := by decide
  have hp0 : ∀ p ∈ ["low", "medium", "high"],
      Stats.initial.byPriority.lookup p = some (some 0) := by decide
  refine ⟨?_, ?_, ?_, ?_, ?_, ?_, ?_⟩
  · unfold Task.getStats
    rw [foldl_stats_total]
    simp [Stats.initial]
  · intro s hs
    unfold Task.getStats
    rw [foldl_stats_byStatus _ _ s 0 (hs0 s hs), Nat.zero_add]
  · intro p hp
    unfold Task.getStats
    rw [foldl_stats_byPriority _ _ p 0 (hp0 p hp), Nat.zero_add]
  · intro s hall
    exact countKey_of_strings _ _ s hall
  · intro p hall
    exact countKey_of_strings _ _ p hall
  · intro done t s hs
    have h := foldl_stats_byStatus done Stats.initial s 0 (hs0 s hs)
    refine ⟨_, h, ?_⟩
    rw [statsStep_byStatus, counterStep_lookup _ _ _ _ h]
    by_cases hk : toPropertyKey t.status = s <;> simp [hk]
  · intro done t p hp
    have h := foldl_stats_byPriority done Stats.initial p 0 (hp0 p hp)
    refine ⟨_, h, ?_⟩
    rw [statsStep_byPriority, counterStep_lookup _ _ _ _ h]
    by_cases hk : toPropertyKey t.priority = p <;> simp [hk]

/-- A task whose status is `archived` is counted in `total` and increments no status
bucket: all three stay at zero. -/
theorem stats_unrecognized_status_no_bucket :
    (Task.getStats [archivedTask] "u1").total = 1 ∧
    (Task.getStats [archivedTask] "u1").byStatus.lookup "pending" = some (some 0) ∧
    (Task.getStats [archivedTask] "u1").byStatus.lookup "in-progress" = some (some 0) ∧
    (Task.getStats [archivedTask] "u1").byStatus.lookup "completed" = some (some 0) := by
  decide

/-- C8: evaluation at a task whose status is `constructor`, a string outside the three
recognized values.  The guard `byStatus[status] !== undefined` finds the inherited
property, the increment stores `NaN` under a new own key, and `byStatus` ends with four
keys instead of three. -/
theorem stats_inherited_status_adds_key :
    Task.getStats [constructorTask] "u1" =
      { total := 1
        byStatus := [("pending", some 0), ("in-progress", some 0), ("completed", some 0),
          ("constructor", none)]
        byPriority := [("low", some 0), ("medium", some 1), ("high", some 0)] } := by
  decide

/-! ## C9 -/

theorem whereUserId_append (s1 s2 : List Task) (u : String) :
    whereUserId (s1 ++ s2) u = whereUserId s1 u ++ whereUserId s2 u := by
  simp [whereUserId]

/-- C9: starting from a store in which the owner has no tasks, after `Task.create` of
`title: A, status: pending, priority: high` and of `title: B, status: completed,
priority: low`, the call `Task.findByUser(owner, status: pending)` returns exactly the
task A with `total = 1`, and `Task.getStats(owner)` returns `total: 2`, `byStatus`
pending 1, in-progress 0, completed 1 and `byPriority` low 1, medium 0, high 1. -/
theorem scenario_two_tasks (toLowerCase : String → String)
    (store0 : List Task) (owner : String) (env1 env2 : Env)
    (h0 : whereUserId store0 owner = []) :
    Task.findByUser toLowerCase
        (Task.create
          (Task.create store0 env1
            { title := .str "A", status := .str "pending", priority := .str "high",
              userId := owner }).2 env2
          { title := .str "B", status := .str "completed", priority := .str "low",
            userId := owner }).2
        owner { status := some "pending" } =
      .ok { tasks := [(Task.create store0 env1
              { title := .str "A", status := .str "pending", priority := .str "high",
                userId := owner }).1]
            total := 1, totalPages := .int 1, currentPage := .int 1 } ∧
    Task.getStats
        (Task.create
          (Task.create store0 env1
            { title := .str "A", status := .str "pending", priority := .str "high",
              userId := owner }).2 env2
          { title := .str "B", status := .str "completed", priority := .str "low",
            userId := owner }).2
        owner =
      { total := 2
        byStatus := [("pending", some 1), ("in-progress", some 0), ("completed", some 1)]
        byPriority := [("low", some 1), ("medium", some 0), ("high", some 1)] } := by
  constructor
  · unfold Task.findByUser sortedTasks filterTasks
    simp only [Task.create, collectionAdd, whereUserId_append, h0, List.nil_append]
    simp [whereUserId, filterActive, searchFilter, arraySort, insertByCompare, paginate,
      NumArg.withDefault, arraySlice, relativeIndex, JsVal.orElse, JsVal.truthy]
    decide
  · unfold Task.getStats
    simp only [Task.create, collectionAdd, whereUserId_append, h0, List.nil_append]
    simp [whereUserId, statsStep, counterDefined, counterIncrement, Stats.initial,
      toPropertyKey, JsVal.orElse, JsVal.truthy, objectPrototype]
    rfl

/-- The scenario run on a store that holds only a task of another owner. -/
theorem scenario_two_tasks_witness :
    whereUserId [sampleTask3] "u1" = [] ∧
      Task.getStats
          (Task.create
            (Task.create [sampleTask3] sampleEnv1
              { title := .str "A", status := .str "pending", priority := .str "high",
                userId := "u1" }).2 sampleEnv2
            { title := .str "B", status := .str "completed", priority := .str "low",
              userId := "u1" }).2
          "u1" =
        { total := 2
          byStatus := [("pending", some 1), ("in-progress", some 0), ("completed", some 1)]
          byPriority := [("low", some 1), ("medium", some 0), ("high", some 1)] } :=
  ⟨rfl, (scenario_two_tasks asciiToLowerCase [sampleTask3] "u1" sampleEnv1 sampleEnv2 rfl).2⟩

/-! ## C10 -/

theorem findByUser_sorted_ok {toLowerCase : String → String}
    (store : List Task) (userId : String) (options : Options)
    (r : FindResult) (h : Task.findByUser toLowerCase store userId options = .ok r) :
    ∃ full, sortedTasks toLowerCase store userId options = .ok full ∧ r =
      paginate options full := by
  unfold Task.findByUser at h
  cases hs : sortedTasks toLowerCase store userId options with
  | error e => simp [hs] at h
  | ok full =>
    simp only [hs, Except.ok.injEq] at h
    exact ⟨full, rfl, h.symm⟩

theorem arraySlice_page_zero {α : Type} (l : List α) (limit : Int) :
    arraySlice l ((0 - 1) * limit) ((0 - 1) * limit + limit) = [] := by
  have e : (0 - 1) * limit + limit = 0 := by ring
  rw [e]
  simp [arraySlice, relativeIndex]

theorem arraySlice_past_end {α : Type} (l : List α) (start stop : Int)
    (h : (l.length : Int) ≤ start) : arraySlice l start stop = [] := by
  unfold arraySlice relativeIndex
  have h0 : ¬ start < 0 := by omega
  simp only [h0, if_false]
  have : min start.toNat l.length = l.length := by omega
  rw [this]
  simp

/-- C10, as amended: for every integer limit `>= 1` and every page that is `0` or
greater than `totalPages`, whenever the call for page 1 returns, the call for that page
returns too, with an empty `tasks` array and the same `total` and `totalPages` as for
page 1. -/
theorem out_of_range_page_empty (toLowerCase : String → String)
    (store : List Task) (userId : String) (options : Options)
    (limit page : Int) (r1 : FindResult) (hl : 1 ≤ limit)
    (h1 : Task.findByUser toLowerCase store userId
      { options with page := .int 1, limit := .int limit } = .ok r1)
    (hp : page = 0 ∨ ∃ n : Int, r1.totalPages = .int n ∧ n < page) :
    Task.findByUser toLowerCase store userId
      { options with page := .int page, limit := .int limit } =
      .ok { tasks := [], total := r1.total, totalPages := r1.totalPages,
            currentPage := .int page } := by
  obtain ⟨full, hs, hr⟩ := findByUser_sorted_ok _ _ _ _ h1
  rw [sortedTasks_page_limit] at hs
  have h1b := findByUser_int store userId options full hs 1 limit
  rw [h1] at h1b
  simp only [Except.ok.injEq] at h1b
  rw [findByUser_int store userId options full hs page limit]
  have htasks : arraySlice full ((page - 1) * limit) ((page - 1) * limit + limit) = [] := by
    rcases hp with rfl | ⟨n, hn, hlt⟩
    · exact arraySlice_page_zero full limit
    · apply arraySlice_past_end
      obtain ⟨L, rfl⟩ : ∃ L : Nat, limit = (L : Int) := ⟨limit.toNat, by omega⟩
      obtain ⟨m, hm, hle⟩ := ceilDiv_pos full.length L (by omega)
      have hnm : n = (m : Int) := by
        rw [h1b] at hn
        simp only at hn
        rw [hm] at hn
        injection hn with hn
        exact hn.symm
      have h2 : ((m * L : Nat) : Int) ≤ (page - 1) * (L : Int) := by
        push_cast
        have : (m : Int) ≤ page - 1 := by omega
        exact Int.mul_le_mul_of_nonneg_right this (by omega)
      have h3 : ((full.length : Nat) : Int) ≤ ((m * L : Nat) : Int) := by exact_mod_cast hle
      omega
  rw [htasks, h1b]

/-- Page 3 of the sample store at limit 1, where `totalPages` is 2, is empty. -/
theorem out_of_range_page_empty_witness :
    (1 : Int) ≤ 1 ∧
      Task.findByUser asciiToLowerCase sampleStore "u1" { page := .int 1, limit := .int 1 } =
        .ok { tasks := [sampleTask2], total := 2, totalPages := .int 2,
              currentPage := .int 1 } ∧
      Task.findByUser asciiToLowerCase sampleStore "u1" { page := .int 3, limit := .int 1 } =
        .ok { tasks := [], total := 2, totalPages := .int 2, currentPage := .int 3 } :=
  ⟨by decide, rfl,
    out_of_range_page_empty asciiToLowerCase sampleStore "u1" {} 1 3
      { tasks := [sampleTask2], total := 2, totalPages := .int 2, currentPage := .int 1 }
      (by decide) rfl (Or.inr ⟨2, rfl, by decide⟩)⟩

/-- A negative page can return tasks: with two tasks, limit 1 and page `-1` the slice
`slice(-2, -1)` holds the first of the sorted tasks, although page `-1` is outside the
range `1 .. totalPages = 2`. -/
theorem negative_page_returns_tasks :
    Task.findByUser asciiToLowerCase sampleStore "u1" { page := .int (-1), limit := .int 1 } =
      .ok { tasks := [sampleTask2], total := 2, totalPages := .int 2,
            currentPage := .int (-1) } := by
  rfl

/-! ## C11 -/

theorem ceilDiv_eq_ceil (total : Nat) (limit : Int) (hl : limit ≠ 0) :
    ceilDiv total limit = .int ⌈(total : ℚ) / (limit : ℚ)⌉ := by
  unfold ceilDiv
  simp only [hl, if_false]
  by_cases hpos : 0 < limit
  · simp only [hpos, if_true]
    congr 1
    obtain ⟨L, rfl⟩ : ∃ L : Nat, limit = (L : Int) := ⟨limit.toNat, by omega⟩
    have h := Rat.floor_intCast_div_natCast (-(total : Int)) L
    symm
    rw [Int.ceil_eq_iff]
    have hf := Int.floor_le (((-(total : Int) : ℤ) : ℚ) / (L : ℚ))
    have hf2 := Int.lt_floor_add_one (((-(total : Int) : ℤ) : ℚ) / (L : ℚ))
    rw [h] at hf hf2
    push_cast at hf hf2 ⊢
    have e : (-(total : ℚ)) / (L : ℚ) = -((total : ℚ) / (L : ℚ)) := by ring
    rw [e] at hf hf2
    constructor <;> linarith
  · simp only [hpos, if_false]
    congr 1
    obtain ⟨L, hL⟩ : ∃ L : Nat, -limit = (L : Int) := ⟨(-limit).toNat, by omega⟩
    have h := Rat.floor_intCast_div_natCast ((total : Int)) L
    symm
    rw [Int.ceil_eq_iff]
    have hf := Int.floor_le ((((total : Int) : ℤ) : ℚ) / (L : ℚ))
    have hf2 := Int.lt_floor_add_one ((((total : Int) : ℤ) : ℚ) / (L : ℚ))
    rw [h] at hf hf2
    rw [hL]
    have hlim : (limit : ℚ) = -(L : ℚ) := by
      have : limit = -(L : Int) := by omega
      rw [this]
      push_cast
      ring
    rw [hlim]
    push_cast at hf hf2 ⊢
    have e : (total : ℚ) / (-(L : ℚ)) = -((total : ℚ) / (L : ℚ)) := by
      rw [div_neg]
    rw [e]
    constructor <;> linarith

/-- C11: the returned `totalPages` is `Math.ceil(total / limit)` for every limit: `NaN`
for a `NaN` limit, `Infinity` (or `NaN` when `total` is 0) for limit 0, and the integer
ceiling of the quotient for every other integer limit.  For an integer limit `>= 1` it
is the least integer `n` with `n * limit >= total`, and it is 0 when `total` is 0. -/
theorem totalPages_eq_ceil (toLowerCase : String → String)
    (store : List Task) (userId : String) (options : Options)
    (r : FindResult) (h : Task.findByUser toLowerCase store userId options = .ok r) :
    (options.limit.withDefault 10 = none → r.totalPages = .nan) ∧
    (options.limit.withDefault 10 = some 0 →
      r.totalPages = if r.total = 0 then .nan else .inf) ∧
    (∀ l : Int, options.limit.withDefault 10 = some l → l ≠ 0 →
      r.totalPages = .int ⌈(r.total : ℚ) / (l : ℚ)⌉) ∧
    (∀ l : Int, options.limit.withDefault 10 = some l → 1 ≤ l →
      ∃ n : Int, r.totalPages = .int n ∧ (r.total : Int) ≤ n * l ∧
        (∀ m : Int, (r.total : Int) ≤ m * l → n ≤ m) ∧ (r.total = 0 → n = 0)) := by
  obtain ⟨full, _, hr⟩ := findByUser_sorted_ok store userId options r h
  have htot : r.total = full.length := by rw [hr]; rfl
  have hpages : r.totalPages =
      match options.limit.withDefault 10 with
      | some l => ceilDiv full.length l
      | none => .nan := by rw [hr]; rfl
  refine ⟨?_, ?_, ?_, ?_⟩
  · intro hl
    rw [hpages, hl]
  · intro hl
    rw [hpages, hl, htot]
    simp [ceilDiv]
  · intro l hl hne
    rw [hpages, hl, htot]
    exact ceilDiv_eq_ceil _ _ hne
  · intro l hl h1
    have hne : l ≠ 0 := by omega
    have hlq : (0 : ℚ) < (l : ℚ) := by exact_mod_cast (by omega : (0 : Int) < l)
    refine ⟨⌈(r.total : ℚ) / (l : ℚ)⌉, ?_, ?_, ?_, ?_⟩
    · rw [hpages, hl, htot]
      exact ceilDiv_eq_ceil _ _ hne
    · have hc := Int.le_ceil ((r.total : ℚ) / (l : ℚ))
      have : (r.total : ℚ) ≤ (⌈(r.total : ℚ) / (l : ℚ)⌉ : ℚ) * (l : ℚ) :=
        (div_le_iff₀ hlq).mp hc
      exact_mod_cast this
    · intro m hm
      apply Int.ceil_le.mpr
      rw [div_le_iff₀ hlq]
      exact_mod_cast hm
    · intro h0
      simp [h0]

/-- The total pages of the sample store at limit 1: the ceiling of 2 / 1. -/
theorem totalPages_eq_ceil_witness :
    Task.findByUser asciiToLowerCase sampleStore "u1" { limit := .int 1 } =
        .ok { tasks := [sampleTask2], total := 2, totalPages := .int 2,
              currentPage := .int 1 } ∧
      JsNum.int 2 = .int ⌈((2 : Nat) : ℚ) / ((1 : Int) : ℚ)⌉ :=
  ⟨rfl,
    (totalPages_eq_ceil asciiToLowerCase sampleStore "u1" { limit := .int 1 }
      { tasks := [sampleTask2], total := 2, totalPages := .int 2, currentPage := .int 1 }
      rfl).2.2.1 1 rfl (by decide)⟩

/-! ## C12 -/

/-- C12: for an integer page `>= 1` and an integer limit `>= 1` the call returns, and its
`tasks` array is the run of the sorted sequence that starts at index
`startIndex = (page - 1) * limit` and has `limit` elements, clipped to the end of the
sequence and in the same order; so position `i` of the page is position `startIndex + i`
of the sequence, the page has at most `limit` elements, and `currentPage` is `page`. -/
theorem page_is_slice (toLowerCase : String → String)
    (store : List Task) (userId : String) (options : Options)
    (page limit : Int) (hp : 1 ≤ page) (hl : 1 ≤ limit) (full : List Task)
    (hs : sortedTasks toLowerCase store userId options = .ok full) :
    ∃ r, Task.findByUser toLowerCase store userId
        { options with page := .int page, limit := .int limit } = .ok r ∧
      r.tasks = (full.drop ((page - 1) * limit).toNat).take limit.toNat ∧
      (∀ i : Nat, i < limit.toNat → r.tasks[i]? = full[((page - 1) * limit).toNat + i]?) ∧
      r.tasks.length = min limit.toNat (full.length - ((page - 1) * limit).toNat) ∧
      r.tasks.length ≤ limit.toNat ∧
      r.currentPage = .int page := by
  obtain ⟨L, rfl⟩ : ∃ L : Nat, limit = (L : Int) := ⟨limit.toNat, by omega⟩
  obtain ⟨P, rfl⟩ : ∃ P : Nat, page = (P : Int) + 1 := ⟨(page - 1).toNat, by omega⟩
  have e1 : ((P : Int) + 1 - 1) * (L : Int) = ((P * L : Nat) : Int) := by
    push_cast
    ring
  have e2 : ((P * L : Nat) : Int) + (L : Int) = ((P * L + L : Nat) : Int) := by
    push_cast
    ring
  have htasks : arraySlice full ((P * L : Nat) : Int)
      (((P * L : Nat) : Int) + (L : Int)) = (full.drop (P * L)).take L := by
    rw [e2, arraySlice_nat]
    simp
  refine ⟨_, findByUser_int store userId options full hs _ _, ?_, ?_, ?_, ?_, rfl⟩
  · simp only [e1, htasks, Int.toNat_ofNat]
  · intro i hi
    simp only [e1, htasks, Int.toNat_ofNat] at hi ⊢
    rw [List.getElem?_take_of_lt hi, List.getElem?_drop]
  · simp only [e1, htasks, Int.toNat_ofNat, List.length_take, List.length_drop]
  · simp only [e1, htasks, Int.toNat_ofNat, List.length_take]
    omega

/-- Page 2 of the sample store at limit 1 is the second task of the sorted sequence. -/
theorem page_is_slice_witness :
    sortedTasks asciiToLowerCase sampleStore "u1" {} = .ok [sampleTask2, sampleTask1] ∧
      ∃ r, Task.findByUser asciiToLowerCase sampleStore "u1"
        { page := .int 2, limit := .int 1 } = .ok r ∧
        r.tasks = ([sampleTask2, sampleTask1].drop ((2 - 1) * 1 : Int).toNat).take
          (1 : Int).toNat :=
  ⟨rfl,
    match page_is_slice asciiToLowerCase sampleStore "u1" {} 2 1 (by decide) (by decide)
      [sampleTask2, sampleTask1] rfl with
    | ⟨r, h1, h2, _⟩ => ⟨r, h1, h2⟩⟩

/-! ## C13 -/

theorem whereUserId_filter (store : List Task) (userId : String) (p : Task → Bool) :
    whereUserId (store.filter p) userId = (whereUserId store userId).filter p := by
  unfold whereUserId
  rw [List.filter_filter, List.filter_filter]
  apply List.filter_congr
  intro x _
  exact Bool.and_comm _ _

theorem filterTasks_normal {toLowerCase : String → String}
    (store : List Task) (userId : String) (options : Options) :
    filterTasks toLowerCase store userId options =
      searchFilter toLowerCase options.search
        (((whereUserId store userId).filter
          (fun t => passesExact options.status t.status)).filter
          (fun t => passesExact options.priority t.priority)) := by
  unfold filterTasks
  simp only [exactFilter_eq options.status (fun t => t.status),
    exactFilter_eq options.priority (fun t => t.priority)]

theorem passesExact_inactive (s : Option String)
    (h : s = none ∨ s = some "all" ∨ s = some "") (v : JsVal) :
    passesExact s v = true := by
  rcases h with rfl | rfl | rfl <;> simp [passesExact]

theorem passesExact_active (s : String) (h1 : s ≠ "") (h2 : s ≠ "all") (v : JsVal) :
    passesExact (some s) v = decide (v = .str s) := by
  simp [passesExact, h1, h2]

theorem filterTasks_status_inactive {toLowerCase : String → String}
    (store : List Task) (userId : String)
    (options : Options) (s : Option String)
    (h : s = none ∨ s = some "all" ∨ s = some "") :
    filterTasks toLowerCase store userId { options with status := s } =
      filterTasks toLowerCase store userId { options with status := none } := by
  simp only [filterTasks_normal, passesExact_inactive s h,
    passesExact_inactive none (Or.inl rfl)]

theorem filterTasks_priority_inactive {toLowerCase : String → String}
    (store : List Task) (userId : String)
    (options : Options) (p : Option String)
    (h : p = none ∨ p = some "all" ∨ p = some "") :
    filterTasks toLowerCase store userId { options with priority := p } =
      filterTasks toLowerCase store userId { options with priority := none } := by
  simp only [filterTasks_normal, passesExact_inactive p h,
    passesExact_inactive none (Or.inl rfl)]

theorem filterTasks_status_active {toLowerCase : String → String}
    (store : List Task) (userId : String)
    (options : Options) (s : String) (h1 : s ≠ "") (h2 : s ≠ "all") :
    filterTasks toLowerCase store userId { options with status := some s } =
      filterTasks toLowerCase (store.filter (fun t => t.status = .str s)) userId
        { options with status := none } := by
  simp only [filterTasks_normal, passesExact_active s h1 h2,
    passesExact_inactive none (Or.inl rfl), whereUserId_filter, List.filter_true]

theorem filterTasks_priority_active {toLowerCase : String → String}
    (store : List Task) (userId : String)
    (options : Options) (p : String) (h1 : p ≠ "") (h2 : p ≠ "all") :
    filterTasks toLowerCase store userId { options with priority := some p } =
      filterTasks toLowerCase (store.filter (fun t => t.priority = .str p)) userId
        { options with priority := none } := by
  simp only [filterTasks_normal, passesExact_active p h1 h2,
    passesExact_inactive none (Or.inl rfl), whereUserId_filter, List.filter_true]
  congr 1
  simp only [List.filter_filter]
  apply List.filter_congr
  intro x _
  exact Bool.and_comm _ _

theorem findByUser_congr {toLowerCase : String → String}
    (store1 store2 : List Task) (userId : String) (o1 o2 : Options)
    (hf : filterTasks toLowerCase store1 userId o1 = filterTasks toLowerCase store2 userId o2)
    (hsort : o1.sortBy = o2.sortBy) (horder : o1.order = o2.order)
    (hpage : o1.page = o2.page) (hlimit : o1.limit = o2.limit) :
    Task.findByUser toLowerCase store1 userId o1 =
      Task.findByUser toLowerCase store2 userId o2 := by
  unfold Task.findByUser sortedTasks paginate
  rw [hf, hsort, horder, hpage, hlimit]

/-- C13, as amended: a status (respectively priority) option that is absent, `all` or
the empty string filters nothing: the result is the one obtained with the option left
out.  Any other value keeps exactly the tasks whose status (respectively priority) is
that very string: the result is the one obtained, without the option, from the store
restricted to those tasks. -/
theorem exact_filters (toLowerCase : String → String)
    (store : List Task) (userId : String) (options : Options) :
    (∀ s : Option String, s = none ∨ s = some "all" ∨ s = some "" →
      Task.findByUser toLowerCase store userId { options with status := s } =
        Task.findByUser toLowerCase store userId { options with status := none }) ∧
    (∀ s : String, s ≠ "" → s ≠ "all" →
      Task.findByUser toLowerCase store userId { options with status := some s } =
        Task.findByUser toLowerCase (store.filter (fun t => t.status = .str s)) userId
          { options with status := none }) ∧
    (∀ p : Option String, p = none ∨ p = some "all" ∨ p = some "" →
      Task.findByUser toLowerCase store userId { options with priority := p } =
        Task.findByUser toLowerCase store userId { options with priority := none }) ∧
    (∀ p : String, p ≠ "" → p ≠ "all" →
      Task.findByUser toLowerCase store userId { options with priority := some p } =
        Task.findByUser toLowerCase (store.filter (fun t => t.priority = .str p)) userId
          { options with priority := none }) := by
  refine ⟨?_, ?_, ?_, ?_⟩
  · intro s hs
    exact findByUser_congr _ _ _ _ _
      (filterTasks_status_inactive store userId options s hs) rfl rfl rfl rfl
  · intro s h1 h2
    exact findByUser_congr _ _ _ _ _
      (filterTasks_status_active store userId options s h1 h2) rfl rfl rfl rfl
  · intro p hp
    exact findByUser_congr _ _ _ _ _
      (filterTasks_priority_inactive store userId options p hp) rfl rfl rfl rfl
  · intro p h1 h2
    exact findByUser_congr _ _ _ _ _
      (filterTasks_priority_active store userId options p h1 h2) rfl rfl rfl rfl

/-- The status option `''` is a value other than `all`, yet it filters nothing: both
tasks of `u1` are returned although neither has the status `''`. -/
theorem empty_status_filters_nothing :
    Task.findByUser asciiToLowerCase sampleStore "u1" { status := some "" } =
        .ok { tasks := [sampleTask2, sampleTask1], total := 2, totalPages := .int 1,
              currentPage := .int 1 } ∧
      sampleTask1.status ≠ .str "" ∧ sampleTask2.status ≠ .str "" :=
  ⟨rfl, by decide, by decide⟩

/-! ## C14 -/

theorem matchesSearch_strings {toLowerCase : String → String}
    (q : String) (t : Task) (title description : String)
    (ht : t.title = .str title) (hd : t.description = .str description) :
    matchesSearch toLowerCase q t =
      .ok (includes (toLowerCase title) q || includes (toLowerCase description) q) := by
  unfold matchesSearch
  simp only [ht, hd, callToLowerCase]
  by_cases h : includes (toLowerCase title) q = true
  · simp [h]
  · simp [h]

/-- With a non-empty search string `q`: whenever the filter stage returns, it keeps a
task with a string title and a string description (among those of the owner) if and only
if the task passes the status and priority filters and the lower-cased `q` occurs in the
lower-cased title or in the lower-cased description, whatever the other tasks are; the
filter stage returns when every task of the owner has a string title and a string
description; and a second non-empty search string with the same lower-cased form gives
the same result. -/
theorem search_keeps_iff {toLowerCase : String → String}
    (store : List Task) (userId : String) (options : Options)
    (q : String) (hq : q ≠ "") (hsearch : options.search = some q) :
    (∀ ts, filterTasks toLowerCase store userId options = .ok ts →
      ∀ (t : Task) (title description : String), t ∈ whereUserId store userId →
        t.title = .str title → t.description = .str description →
        (t ∈ ts ↔
          passesExact options.status t.status = true ∧
          passesExact options.priority t.priority = true ∧
          (includes (toLowerCase title) (toLowerCase q) = true ∨
            includes (toLowerCase description) (toLowerCase q) = true))) ∧
    ((∀ t ∈ whereUserId store userId,
        (∃ x, t.title = .str x) ∧ (∃ y, t.description = .str y)) →
      ∃ ts, filterTasks toLowerCase store userId options = .ok ts) ∧
    (∀ q2 : String, q2 ≠ "" → toLowerCase q2 = toLowerCase q →
      Task.findByUser toLowerCase store userId { options with search := some q2 } =
        Task.findByUser toLowerCase store userId options) := by
  refine ⟨?_, ?_, ?_⟩
  · intro ts hts t title description hmem ht hd
    rw [filterTasks_normal, hsearch] at hts
    simp only [searchFilter, hq, if_false] at hts
    rw [(filterE_eq_filter _ _ _ hts).1]
    simp only [List.mem_filter, matchesSearch_strings _ t title description ht hd, okTrue,
      Bool.or_eq_true]
    tauto
  · intro hstr
    rw [filterTasks_normal, hsearch]
    simp only [searchFilter, hq, if_false]
    exact filterE_ok_of_forall (matchesSearch toLowerCase (toLowerCase q))
      (((whereUserId store userId).filter
        (fun t => passesExact options.status t.status)).filter
        (fun t => passesExact options.priority t.priority))
      (fun t ht => by
        have hmem : t ∈ whereUserId store userId :=
          (List.mem_filter.mp (List.mem_filter.mp ht).1).1
        obtain ⟨⟨x, hx⟩, ⟨y, hy⟩⟩ := hstr t hmem
        exact ⟨_, matchesSearch_strings _ t x y hx hy⟩)
  · intro q2 hq2 hlow
    refine findByUser_congr store store userId { options with search := some q2 } options
      ?_ rfl rfl rfl rfl
    simp only [filterTasks_normal, hsearch, searchFilter, hq, hq2, if_false, hlow]

/-- The search `REPORT` and the search `report` give the same result on the sample
store. -/
theorem search_keeps_iff_example :
    Task.findByUser asciiToLowerCase sampleStore "u1" { search := some "report" } =
      Task.findByUser asciiToLowerCase sampleStore "u1" { search := some "REPORT" } :=
  (search_keeps_iff sampleStore "u1" { search := some "REPORT" } "REPORT" (by decide)
    rfl).2.2 "report" (by decide) (by decide)

/-- C14: evaluation on the sample store, in which the second task of owner `u1` has the
string title `Call Bob` and the string description `about the report`.  A search for
`REPORT` keeps that task.  After a PUT request by the owner that sets the title of the
first task to the number 5 (answered 200), the second task is stored as before and its
lower-cased description still contains the lower-cased search string, but the same
search throws in the filter callback on the first task and returns no result. -/
theorem search_loses_string_task :
    (∃ r, Task.findByUser asciiToLowerCase sampleStore "u1" { search := some "REPORT" } =
        .ok r ∧ sampleTask2 ∈ r.tasks) ∧
    (tasksHandler asciiToLowerCase (.granted "u1")
        { method := "PUT", params := some [sampleTask1._id], body := { title := .num 5 } }
        sampleEnv1 sampleStore).1.status = 200 ∧
    sampleTask2 ∈
      whereUserId
        (tasksHandler asciiToLowerCase (.granted "u1")
          { method := "PUT", params := some [sampleTask1._id], body := { title := .num 5 } }
          sampleEnv1 sampleStore).2 "u1" ∧
    sampleTask2.title = .str "Call Bob" ∧
    sampleTask2.description = .str "about the report" ∧
    includes (asciiToLowerCase "about the report") (asciiToLowerCase "REPORT") = true ∧
    Task.findByUser asciiToLowerCase
        (tasksHandler asciiToLowerCase (.granted "u1")
          { method := "PUT", params := some [sampleTask1._id], body := { title := .num 5 } }
          sampleEnv1 sampleStore).2
        "u1" { search := some "REPORT" } =
      .error ⟨"task.title.toLowerCase is not a function"⟩ := by
  refine ⟨⟨_, rfl, by decide⟩, by decide, by decide, rfl, rfl, by decide, rfl⟩

/-! ## C15 -/

/-- The outcomes of `protect`: the account id, or one of two rejection messages. -/
theorem protect_cases (verify : String → Option String) (users : List User)
    (authorization : Option String) :
    (∃ token id user, bearerToken authorization = some token ∧ token ≠ "" ∧
        verify token = some id ∧ User.findById users id = some user ∧
        protect verify users authorization = .granted user.id) ∨
    (∃ token id, bearerToken authorization = some token ∧ token ≠ "" ∧
        verify token = some id ∧ User.findById users id = none ∧
        protect verify users authorization = .denied "User not found") ∨
    ((bearerToken authorization = none ∨ bearerToken authorization = some "" ∨
        ∃ token, bearerToken authorization = some token ∧ verify token = none) ∧
      protect verify users authorization = .denied notAuthorizedMessage) := by
  unfold protect
  cases hb : bearerToken authorization with
  | none => exact Or.inr (Or.inr ⟨Or.inl rfl, rfl⟩)
  | some token =>
    by_cases ht : token = ""
    · subst ht
      exact Or.inr (Or.inr ⟨Or.inr (Or.inl rfl), by simp⟩)
    · cases hv : verify token with
      | none =>
        exact Or.inr (Or.inr ⟨Or.inr (Or.inr ⟨token, rfl, hv⟩), by simp [ht, hv]⟩)
      | some id =>
        cases hu : User.findById users id with
        | none => exact Or.inr (Or.inl ⟨token, id, rfl, ht, hv, hu, by simp [ht, hv, hu]⟩)
        | some user =>
          exact Or.inl ⟨token, id, user, rfl, ht, hv, hu, by simp [ht, hv, hu]⟩

theorem tasksHandler_denied {toLowerCase : String → String}
    (message : String) (req : Request) (env : Env)
    (store : List Task) (hm : req.method ≠ "OPTIONS") :
    tasksHandler toLowerCase (.denied message) req env store =
      (⟨401, .message false message⟩, store) := by
  unfold tasksHandler
  simp [hm]

/-- C15, as amended: every rejection by `protect` has `authorized = false`, and every
route of the task handler answers it with 401 and the error body of the rejection.  That
body carries the message `Not authorized to access this route` when the token is missing
or empty or its verification fails, and the message `User not found` exactly when the
token verifies and the account does not exist. -/
theorem protect_rejections (toLowerCase : String → String)
    (verify : String → Option String) (users : List User)
    (authorization : Option String) (message : String)
    (h : protect verify users authorization = .denied message) :
    (message = notAuthorizedMessage ∨ message = "User not found") ∧
    (message = "User not found" ↔
      ∃ token id, bearerToken authorization = some token ∧ token ≠ "" ∧
        verify token = some id ∧ User.findById users id = none) ∧
    (∀ (req : Request) (env : Env) (store : List Task), req.method ≠ "OPTIONS" →
      tasksHandler toLowerCase (protect verify users authorization) req env store =
        (⟨401, .message false message⟩, store)) := by
  have hhandler : ∀ (req : Request) (env : Env) (store : List Task),
      req.method ≠ "OPTIONS" →
      tasksHandler toLowerCase (protect verify users authorization) req env store =
        (⟨401, .message false message⟩, store) := by
    intro req env store hm
    rw [h]
    exact tasksHandler_denied message req env store hm
  rcases protect_cases verify users authorization with
    ⟨token, id2, user, hb, ht, hv, hu, hp⟩ | ⟨token, id2, hb, ht, hv, hu, hp⟩ | ⟨hc, hp⟩
  · rw [hp] at h
    exact AuthResult.noConfusion h
  · rw [hp] at h
    have hm : message = "User not found" := by
      injection h with h
      exact h.symm
    exact ⟨Or.inr hm, ⟨fun _ => ⟨token, id2, hb, ht, hv, hu⟩, fun _ => hm⟩, hhandler⟩
  · rw [hp] at h
    have hm : message = notAuthorizedMessage := by
      injection h with h
      exact h.symm
    refine ⟨Or.inl hm, ⟨fun hnf => ?_, fun hex => ?_⟩, hhandler⟩
    · rw [hm] at hnf
      exact absurd hnf (by decide)
    · obtain ⟨token, id, hb, ht, hv, _⟩ := hex
      rcases hc with hc | hc | ⟨token2, hc, hv2⟩
      · rw [hc] at hb
        exact Option.noConfusion hb
      · rw [hc] at hb
        injection hb with hb
        exact absurd hb.symm ht
      · rw [hc] at hb
        injection hb with hb
        rw [hb, hv] at hv2
        exact Option.noConfusion hv2

/-- A request without a header is rejected with the message
`Not authorized to access this route`. -/
theorem protect_rejections_witness :
    protect sampleVerify [sampleUser] none = .denied notAuthorizedMessage ∧
      (notAuthorizedMessage = notAuthorizedMessage ∨
        notAuthorizedMessage = "User not found") :=
  ⟨rfl, (protect_rejections asciiToLowerCase sampleVerify [sampleUser]
    none notAuthorizedMessage rfl).1⟩

/-- Two rejections with different bodies: a verified token whose account is gone gets
`User not found`, an invalid token gets `Not authorized to access this route`. -/
theorem account_gone_is_distinguishable :
    protect sampleVerify [sampleUser] (some "Bearer gone") = .denied "User not found" ∧
      protect sampleVerify [sampleUser] (some "Bearer bad") =
        .denied "Not authorized to access this route" := by
  decide

/-! ## C16 -/

theorem findById_id (users : List User) (id : String) (user : User)
    (h : User.findById users id = some user) : user.id = id := by
  unfold User.findById at h
  have := List.find?_some h
  simpa using this

theorem splitOnSpace_no_space (cs : List Char) (h : ' ' ∉ cs) :
    splitOnSpace cs = [⟨cs⟩] := by
  induction cs with
  | nil => rfl
  | cons c cs ih =>
    have hc : c ≠ ' ' := fun e => h (e ▸ List.mem_cons_self _ _)
    have hcs : ' ' ∉ cs := fun e => h (List.mem_cons_of_mem _ e)
    simp [splitOnSpace, ih hcs, hc]

theorem bearerToken_some (header : String) :
    bearerToken (some header) =
      if header ≠ "" ∧ "Bearer".data.isPrefixOf header.data = true then
        (splitOnSpace header.data)[1]?
      else none :=
  rfl

theorem bearerToken_wellFormed (token : String) (h : ' ' ∉ token.data) :
    bearerToken (some ("Bearer " ++ token)) = some token := by
  have hdata : ("Bearer " ++ token).data = 'B' :: 'e' :: 'a' :: 'r' :: 'e' :: 'r' :: ' ' ::
      token.data := by
    simp [String.data_append]
  have hne : ("Bearer " ++ token) ≠ "" := by
    intro e
    have := congrArg String.data e
    rw [hdata] at this
    simp at this
  unfold bearerToken
  simp only [hne, ne_eq, not_false_eq_true, true_and, hdata]
  have hsplit : splitOnSpace ('B' :: 'e' :: 'a' :: 'r' :: 'e' :: 'r' :: ' ' :: token.data) =
      ["Bearer", token] := by
    simp [splitOnSpace, splitOnSpace_no_space _ h]
  rw [hsplit]
  simp [List.isPrefixOf]

/-- C16, as amended: `protect` returns `authorized = true` with the user id `id` if and
only if the header is present, starts with the characters `Bearer`, the second of its
space-separated pieces is a non-empty token, verification of that token succeeds, and
the account bound to the decoded id exists; `id` is then that account's id.  A header
`Bearer <token>` whose token has no space hands exactly that token to verification.  A
header that is absent, does not start with `Bearer`, or has no non-empty second piece
(such as `Bearer` alone) is rejected whatever token verification would answer. -/
theorem protect_granted_iff (verify : String → Option String) (users : List User)
    (authorization : Option String) (id : String) :
    (protect verify users authorization = .granted id ↔
      ∃ header token uid user, authorization = some header ∧
        "Bearer".data.isPrefixOf header.data = true ∧
        (splitOnSpace header.data)[1]? = some token ∧ token ≠ "" ∧
        verify token = some uid ∧ User.findById users uid = some user ∧
        user.id = id ∧ uid = id) ∧
    (∀ token : String, ' ' ∉ token.data →
      bearerToken (some ("Bearer " ++ token)) = some token) ∧
    ((authorization = none ∨
        (∃ header, authorization = some header ∧
          ("Bearer".data.isPrefixOf header.data = false ∨
            (splitOnSpace header.data)[1]? = none ∨
            (splitOnSpace header.data)[1]? = some ""))) →
      ∀ verify2 : String → Option String,
        protect verify2 users authorization = .denied notAuthorizedMessage) := by
  refine ⟨⟨?_, ?_⟩, bearerToken_wellFormed, ?_⟩
  · intro hg
    rcases protect_cases verify users authorization with
      ⟨token, uid, user, hb, ht, hv, hu, hp⟩ | ⟨token, uid, hb, ht, hv, hu, hp⟩ | ⟨hc, hp⟩
    · rw [hp] at hg
      injection hg with hg
      cases ha : authorization with
      | none => simp [ha, bearerToken] at hb
      | some header =>
        simp only [ha, bearerToken] at hb
        by_cases hpre : header ≠ "" ∧ "Bearer".data.isPrefixOf header.data = true
        · rw [if_pos hpre] at hb
          exact ⟨header, token, uid, user, rfl, hpre.2, hb, ht, hv, hu, hg,
            (findById_id users uid user hu).symm.trans hg⟩
        · rw [if_neg hpre] at hb
          exact Option.noConfusion hb
    · rw [hp] at hg
      exact AuthResult.noConfusion hg
    · rw [hp] at hg
      exact AuthResult.noConfusion hg
  · rintro ⟨header, token, uid, user, rfl, hpre, hsplit, ht, hv, hu, hid, _⟩
    have hne : header ≠ "" := by
      rintro rfl
      revert hpre
      decide
    simp [protect, bearerToken, hne, hpre, hsplit, ht, hv, hu, hid]
  · intro hcases verify2
    have hb : bearerToken authorization = none ∨ bearerToken authorization = some "" := by
      rcases hcases with rfl | ⟨header, rfl, hpre | hsplit | hsplit⟩
      · exact Or.inl rfl
      · left
        simp [bearerToken, hpre]
      · rw [bearerToken_some]
        by_cases hc : header ≠ "" ∧ "Bearer".data.isPrefixOf header.data = true
        · left
          rw [if_pos hc, hsplit]
        · left
          rw [if_neg hc]
      · rw [bearerToken_some]
        by_cases hc : header ≠ "" ∧ "Bearer".data.isPrefixOf header.data = true
        · right
          rw [if_pos hc, hsplit]
        · left
          rw [if_neg hc]
    unfold protect
    rcases hb with hb | hb
    · rw [hb]
    · rw [hb]
      simp

/-- The header `BearerX good` is not of the form `Bearer <token>`, yet its second piece
is verified and the request is authorized. -/
theorem bearer_prefix_is_enough :
    protect sampleVerify [sampleUser] (some "BearerX good") = .granted sampleUser.id := by
  decide

/-! ## C17 -/

/-- The route of a request to the collection itself, `/api/tasks`. -/
theorem tasksHandler_post {toLowerCase : String → String}
    (userId : String) (env : Env) (store : List Task)
    (query : Query) (body : Body) :
    tasksHandler toLowerCase (.granted userId)
        { method := "POST", params := none, query := query, body := body } env store =
      match body.title with
      | .str title =>
        if title = "" ∨ isBlank title = true then
          (⟨400, .message false "Title is required"⟩, store)
        else
          (⟨201, .task (some (Task.create store env
              { title := body.title, description := body.description,
                status := body.status, priority := body.priority,
                dueDate := body.dueDate, userId := userId }).1)⟩,
            (Task.create store env
              { title := body.title, description := body.description,
                status := body.status, priority := body.priority,
                dueDate := body.dueDate, userId := userId }).2)
      | title =>
        if title.truthy = true then (serverError ⟨"title.trim is not a function"⟩, store)
        else (⟨400, .message false "Title is required"⟩, store) := by
  unfold tasksHandler
  simp

/-- C17, as amended: an authenticated POST /tasks whose title is missing, falsy, empty
or only white space is answered 400 and creates no task; one whose title is a string
with a non-blank character is answered 201 with the created task, which is appended to
the store and whose `userId` is the authenticated identity's id, whatever other keys the
body carries; one whose title is a truthy value that is not a string is answered 500 and
creates no task. -/
theorem post_task_outcomes (toLowerCase : String → String)
    (userId : String) (env : Env) (store : List Task)
    (query : Query) (body : Body) :
    ((body.title.truthy = false ∨ ∃ s, body.title = .str s ∧ isBlank s = true) →
      tasksHandler toLowerCase (.granted userId)
          { method := "POST", params := none, query := query, body := body } env store =
        (⟨400, .message false "Title is required"⟩, store)) ∧
    (∀ s, body.title = .str s → isBlank s = false →
      ∃ task, tasksHandler toLowerCase (.granted userId)
          { method := "POST", params := none, query := query, body := body } env store =
        (⟨201, .task (some task)⟩, store ++ [task]) ∧
        task.userId = userId ∧ task.title = .str s ∧ task._id = env.docId) ∧
    (body.title.truthy = true → (∀ s, body.title ≠ .str s) →
      tasksHandler toLowerCase (.granted userId)
          { method := "POST", params := none, query := query, body := body } env store =
        (⟨500, .message false "title.trim is not a function"⟩, store)) ∧
    (∀ extra : List (String × JsVal),
      tasksHandler toLowerCase (.granted userId)
          { method := "POST", params := none, query := query,
            body := { body with extra := extra } } env store =
        tasksHandler toLowerCase (.granted userId)
          { method := "POST", params := none, query := query, body := body } env store) := by
  refine ⟨?_, ?_, ?_, ?_⟩
  · intro h
    rw [tasksHandler_post]
    rcases h with h | ⟨s, hs, hb⟩
    · cases ht : body.title <;> simp [ht, JsVal.truthy] at h ⊢ <;> simp [h, JsVal.truthy]
    · simp [hs, hb]
  · intro s hs hb
    have hne : s ≠ "" := by
      rintro rfl
      simp [isBlank] at hb
    rw [tasksHandler_post]
    simp only [hs, hne, hb, false_or, if_false]
    exact ⟨_, rfl, rfl, rfl, rfl⟩
  · intro ht hs
    rw [tasksHandler_post]
    cases hb : body.title <;> simp [hb, ht, serverError] at hs ⊢ <;>
      simp [hb, JsVal.truthy] at ht <;> simp [ht, JsVal.truthy]
  · intro extra
    rw [tasksHandler_post, tasksHandler_post]

/-- A numeric title is neither missing, empty nor blank, and the request is answered
500, not 201. -/
theorem numeric_title_is_server_error :
    tasksHandler asciiToLowerCase (.granted "u1")
        { method := "POST", params := none, body := { title := .num 5 } }
        sampleEnv1 sampleStore =
      (⟨500, .message false "title.trim is not a function"⟩, sampleStore) := by
  decide

/-! ## C18 -/

/-- C18: evaluation at a PUT request by the owner whose body sets the title to the empty
string.  The POST route rejects an empty title with 400; the PUT route checks nothing,
answers 200 and stores the task with an empty title. -/
theorem put_stores_empty_title :
    tasksHandler asciiToLowerCase (.granted "u1")
        { method := "PUT", params := some [sampleTask1._id], body := { title := .str "" } }
        sampleEnv1 sampleStore =
      (⟨200, .task (some { sampleTask1 with
          title := .str "", updatedAt := sampleEnv1.clock1 })⟩,
        [{ sampleTask1 with title := .str "", updatedAt := sampleEnv1.clock1 },
          sampleTask2, sampleTask3]) := by
  decide

/-! ## C19 -/

/-- C19, as amended: the task that `Task.create` returns is the task it stores (appended
to the collection); it carries the supplied title and userId unchanged, the generated
id and the two clock readings as `createdAt` and `updatedAt`; and its description,
status, priority and dueDate are the supplied value when that value is truthy, and the
default `''`, `pending`, `medium`, `null` when the value is not supplied or is falsy
(the empty string, `0`, `false`, `null`). -/
theorem create_defaults (store : List Task) (env : Env) (taskData : TaskData) :
    (Task.create store env taskData).2 = store ++ [(Task.create store env taskData).1] ∧
    (Task.create store env taskData).1.title = taskData.title ∧
    (Task.create store env taskData).1.userId = taskData.userId ∧
    (Task.create store env taskData).1._id = env.docId ∧
    (Task.create store env taskData).1.createdAt = env.clock1 ∧
    (Task.create store env taskData).1.updatedAt = env.clock2 ∧
    (Task.create store env taskData).1.description =
      (if taskData.description.truthy = true then taskData.description else .str "") ∧
    (Task.create store env taskData).1.status =
      (if taskData.status.truthy = true then taskData.status else .str "pending") ∧
    (Task.create store env taskData).1.priority =
      (if taskData.priority.truthy = true then taskData.priority else .str "medium") ∧
    (Task.create store env taskData).1.dueDate =
      (if taskData.dueDate.truthy = true then taskData.dueDate else .null) ∧
    (JsVal.undefined.truthy = false ∧ (JsVal.str "").truthy = false ∧
      (JsVal.num 0).truthy = false ∧ (JsVal.bool false).truthy = false ∧
      JsVal.null.truthy = false) ∧
    (∀ s : String, s ≠ "" → (JsVal.str s).truthy = true) := by
  refine ⟨rfl, rfl, rfl, rfl, rfl, rfl, rfl, rfl, rfl, rfl, by decide, ?_⟩
  intro s hs
  simp [JsVal.truthy, hs]

/-- A supplied status `''` is not carried unchanged: the stored status is `pending`. -/
theorem supplied_empty_status_is_replaced :
    (Task.create [] sampleEnv1
        { title := .str "x", status := .str "", userId := "u1" }).1.status =
      .str "pending" := by
  decide

/-! ## C20 -/

theorem docGet_map (store : List Task) (id : String) (g : Task → Task)
    (hg : ∀ x, (g x)._id = x._id) :
    docGet (store.map g) id = (docGet store id).map g := by
  unfold docGet
  induction store with
  | nil => rfl
  | cons x xs ih =>
    simp only [List.map_cons, List.find?_cons, hg]
    by_cases h : x._id = id
    · simp [h]
    · simp only [h, decide_False]
      exact ih

theorem applyUpdate_eq (body : Body) (updatedAt : String) (t : Task) :
    applyUpdate (buildUpdateData body) updatedAt t = updatedTask t body updatedAt := by
  unfold applyUpdate buildUpdateData updatedTask pickField
  congr 1 <;> split <;> simp_all

theorem tasksHandler_put {toLowerCase : String → String}
    (store : List Task) (t : Task) (owner : String) (env : Env)
    (query : Query) (body : Body) (hu : uniqueIds store) (ht : t ∈ store)
    (hid : isAutoId t._id = true) (hown : t.userId = owner) :
    tasksHandler toLowerCase (.granted owner)
        { method := "PUT", params := some [t._id], query := query, body := body }
        env store =
      (⟨200, .task (some (updatedTask t body env.clock1))⟩,
        store.map (fun x => if x._id = t._id then updatedTask x body env.clock1 else x)) := by
  have hget := docGet_of_mem store t hu ht
  have hone : Task.findOne store t._id owner = some t := by
    simp [Task.findOne, hget, hown]
  have hupd : Task.findByIdAndUpdate store env t._id (buildUpdateData body) =
      .ok (some (updatedTask t body env.clock1),
        store.map (fun x => if x._id = t._id then updatedTask x body env.clock1 else x)) := by
    unfold Task.findByIdAndUpdate docUpdate Task.findById
    simp only [hget, applyUpdate_eq]
    rw [docGet_map _ _ _ (fun x => by split <;> rfl), hget]
    simp
  unfold tasksHandler
  simp [route_single, (autoId_ne _ hid).1, (autoId_ne _ hid).2, hone, hupd]

/-- C20: a PUT /tasks/id by the task's owner is answered 200 with the updated task, and
the store afterwards differs from the store before only in that task: each of title,
description, status, priority and dueDate takes the body's value when the key is present
and keeps its old value when it is absent, `updatedAt` is refreshed, and `_id`,
`userId` and `createdAt` are unchanged; every other document is unchanged; and other
keys of the body, `userId` included, have no effect. -/
theorem put_updates_only_named_fields (toLowerCase : String → String)
    (store : List Task) (t : Task) (owner : String)
    (env : Env) (query : Query) (body : Body) (hu : uniqueIds store) (ht : t ∈ store)
    (hid : isAutoId t._id = true) (hown : t.userId = owner) :
    tasksHandler toLowerCase (.granted owner)
        { method := "PUT", params := some [t._id], query := query, body := body }
        env store =
      (⟨200, .task (some (updatedTask t body env.clock1))⟩,
        store.map (fun x => if x = t then updatedTask t body env.clock1 else x)) ∧
    (updatedTask t body env.clock1)._id = t._id ∧
    (updatedTask t body env.clock1).userId = t.userId ∧
    (updatedTask t body env.clock1).createdAt = t.createdAt ∧
    (updatedTask t body env.clock1).updatedAt = env.clock1 ∧
    (∀ extra : List (String × JsVal),
      tasksHandler toLowerCase (.granted owner)
          { method := "PUT", params := some [t._id], query := query,
            body := { body with extra := extra } } env store =
        tasksHandler toLowerCase (.granted owner)
          { method := "PUT", params := some [t._id], query := query, body := body }
          env store) := by
  have hmap : store.map (fun x => if x._id = t._id then updatedTask x body env.clock1 else x) =
      store.map (fun x => if x = t then updatedTask t body env.clock1 else x) := by
    apply List.map_congr_left
    intro x hx
    by_cases hxt : x = t
    · simp [hxt]
    · have hne : x._id ≠ t._id := by
        intro e
        apply hxt
        have h1 := docGet_of_mem store x hu hx
        have h2 := docGet_of_mem store t hu ht
        rw [e, h2] at h1
        injection h1 with h1
        exact h1.symm
      simp [hxt, hne]
  refine ⟨?_, rfl, rfl, rfl, rfl, ?_⟩
  · rw [tasksHandler_put store t owner env query body hu ht hid hown, hmap]
  · intro extra
    rw [tasksHandler_put store t owner env query body hu ht hid hown,
      tasksHandler_put store t owner env query { body with extra := extra } hu ht hid hown]
    rfl

/-- The owner `u1` changes the status of the first sample task. -/
theorem put_updates_only_named_fields_witness :
    uniqueIds sampleStore ∧ sampleTask1 ∈ sampleStore ∧
      isAutoId sampleTask1._id = true ∧ sampleTask1.userId = "u1" ∧
      tasksHandler asciiToLowerCase (.granted "u1")
          { method := "PUT", params := some [sampleTask1._id], query := {},
            body := { status := .str "completed" } }
          sampleEnv1 sampleStore =
        (⟨200, .task (some
            (updatedTask sampleTask1 { status := .str "completed" } sampleEnv1.clock1))⟩,
          sampleStore.map (fun x =>
            if x = sampleTask1 then
              updatedTask sampleTask1 { status := .str "completed" } sampleEnv1.clock1
            else x)) :=
  have hu : uniqueIds sampleStore := by
    unfold uniqueIds
    decide
  have hm : sampleTask1 ∈ sampleStore := List.mem_cons_self _ _
  ⟨hu, hm, rfl, rfl,
    (put_updates_only_named_fields asciiToLowerCase sampleStore sampleTask1 "u1" sampleEnv1 {}
      { status := .str "completed" } hu hm rfl rfl).1⟩

/-! ## C25 -/

theorem compareTasks_eq (sortBy order : String) (a b : Task) :
    compareTasks sortBy order a b =
      if order = "desc" then (if jsGt (sortKey sortBy a) (sortKey sortBy b) then -1 else 1)
      else (if jsLt (sortKey sortBy a) (sortKey sortBy b) then -1 else 1) :=
  rfl

theorem unitsLt_irrefl (x : List Nat) : unitsLt x x = false := by
  induction x with
  | nil => rfl
  | cons a as ih => simp [unitsLt, ih]

theorem jsLt_irrefl (v : JsVal) : jsLt v v = false := by
  cases v <;> simp [jsLt, toPrimitive, toNumber, unitsLt_irrefl]

/-- C25: for every pair of tasks, every `sortBy` key and every order the sort callback
returns `-1` or `1`, never `0`; and for two tasks with equal sort keys it returns `1`
both for `(a, b)` and for `(b, a)`. -/
theorem comparator_never_zero (sortBy order : String) (a b : Task) :
    (compareTasks sortBy order a b = -1 ∨ compareTasks sortBy order a b = 1) ∧
    compareTasks sortBy order a b ≠ 0 ∧
    (sortKey sortBy a = sortKey sortBy b →
      compareTasks sortBy order a b = 1 ∧ compareTasks sortBy order b a = 1) := by
  refine ⟨?_, ?_, ?_⟩
  · rw [compareTasks_eq]
    split <;> split <;> simp
  · rw [compareTasks_eq]
    split <;> split <;> simp
  · intro h
    rw [compareTasks_eq, compareTasks_eq, h]
    simp [jsGt, jsLt_irrefl]

/-! ## Order of strings and sorting by a strict order -/

theorem unitsLt_trans (x y z : List Nat) (h1 : unitsLt x y = true) (h2 : unitsLt y z = true) :
    unitsLt x z = true := by
  induction x generalizing y z with
  | nil =>
    cases z with
    | nil => cases y <;> simp [unitsLt] at h2
    | cons c cs => simp [unitsLt]
  | cons a as ih =>
    cases y with
    | nil => simp [unitsLt] at h1
    | cons b bs =>
      cases z with
      | nil => simp [unitsLt] at h2
      | cons c cs =>
        simp only [unitsLt, Bool.or_eq_true, decide_eq_true_eq, Bool.and_eq_true,
          beq_iff_eq] at h1 h2 ⊢
        rcases h1 with h1 | ⟨h1, h1t⟩
        · rcases h2 with h2 | ⟨h2, _⟩
          · left
            omega
          · left
            omega
        · rcases h2 with h2 | ⟨h2, h2t⟩
          · left
            omega
          · right
            exact ⟨by omega, ih bs cs h1t h2t⟩

theorem unitsLt_total (x y : List Nat) (h : x ≠ y) :
    unitsLt x y = true ∨ unitsLt y x = true := by
  induction x generalizing y with
  | nil =>
    cases y with
    | nil => exact absurd rfl h
    | cons b bs => simp [unitsLt]
  | cons a as ih =>
    cases y with
    | nil => simp [unitsLt]
    | cons b bs =>
      simp only [unitsLt, Bool.or_eq_true, decide_eq_true_eq, Bool.and_eq_true, beq_iff_eq]
      rcases Nat.lt_trichotomy a b with hab | hab | hab
      · exact Or.inl (Or.inl hab)
      · subst hab
        have hne : as ≠ bs := fun e => h (by rw [e])
        rcases ih bs hne with h1 | h1
        · exact Or.inl (Or.inr ⟨rfl, h1⟩)
        · exact Or.inr (Or.inr ⟨rfl, h1⟩)
      · exact Or.inr (Or.inl hab)

theorem char_not_surrogate (c : Char) :
    c.toNat < 0xD800 ∨ (0xDFFF < c.toNat ∧ c.toNat < 0x110000) := by
  have h := c.valid
  simp only [UInt32.isValidChar, Nat.isValidChar] at h
  exact h

theorem char_eq_of_toNat (c d : Char) (h : c.toNat = d.toNat) : c = d := by
  rw [← Char.ofNat_toNat c, ← Char.ofNat_toNat d, h]

theorem utf16_flatten_injective (l1 l2 : List Char)
    (h : (l1.map utf16).flatten = (l2.map utf16).flatten) : l1 = l2 := by
  induction l1 generalizing l2 with
  | nil =>
    cases l2 with
    | nil => rfl
    | cons d ds =>
      simp only [List.map_nil, List.flatten_nil, List.map_cons, List.flatten_cons, utf16] at h
      split at h <;> simp at h
  | cons c cs ih =>
    cases l2 with
    | nil =>
      simp only [List.map_nil, List.flatten_nil, List.map_cons, List.flatten_cons, utf16] at h
      split at h <;> simp at h
    | cons d ds =>
      have hc := char_not_surrogate c
      have hd := char_not_surrogate d
      simp only [List.map_cons, List.flatten_cons, utf16] at h
      by_cases h1 : c.toNat < 0x10000 <;> by_cases h2 : d.toNat < 0x10000 <;>
        simp only [h1, h2, if_true, if_false, List.cons_append, List.nil_append,
          List.cons.injEq] at h
      · rw [char_eq_of_toNat c d h.1, ih ds h.2]
      · omega
      · omega
      · have : c.toNat = d.toNat := by omega
        rw [char_eq_of_toNat c d this, ih ds h.2.2]

theorem codeUnits_injective (s1 s2 : String) (h : codeUnits s1 = codeUnits s2) : s1 = s2 := by
  unfold codeUnits at h
  have := utf16_flatten_injective s1.data s2.data h
  exact String.ext this

theorem jsLt_str (x y : String) :
    jsLt (.str x) (.str y) = unitsLt (codeUnits x) (codeUnits y) :=
  rfl

theorem jsLt_str_trans (x y z : String) (h1 : jsLt (.str x) (.str y) = true)
    (h2 : jsLt (.str y) (.str z) = true) : jsLt (.str x) (.str z) = true := by
  rw [jsLt_str] at *
  exact unitsLt_trans _ _ _ h1 h2

theorem jsLt_str_total (x y : String) (h : x ≠ y) :
    jsLt (.str x) (.str y) = true ∨ jsLt (.str y) (.str x) = true := by
  rw [jsLt_str, jsLt_str]
  exact unitsLt_total _ _ (fun e => h (codeUnits_injective _ _ e))

theorem insertByCompare_pairwise {α : Type} (cmp : α → α → Int) (before : α → α → Prop)
    (P : α → Prop) (hcmp : ∀ a b, P a → P b → (cmp a b < 0 ↔ before a b))
    (htrans : ∀ a b c, P a → P b → P c → before a b → before b c → before a c)
    (x : α) (acc : List α) (hx : P x) (hacc : ∀ y ∈ acc, P y)
    (hsorted : acc.Pairwise before) (hcross : ∀ y ∈ acc, before x y ∨ before y x) :
    (insertByCompare cmp x acc).Pairwise before := by
  induction acc with
  | nil => simp [insertByCompare]
  | cons y ys ih =>
    obtain ⟨hy1, hy2⟩ := List.pairwise_cons.mp hsorted
    have hPy := hacc y (List.mem_cons_self _ _)
    unfold insertByCompare
    split
    · rename_i hlt
      have hxy : before x y := (hcmp x y hx hPy).mp hlt
      refine List.pairwise_cons.mpr ⟨?_, hsorted⟩
      intro z hz
      rcases List.mem_cons.mp hz with rfl | hz
      · exact hxy
      · exact htrans x y z hx hPy (hacc z (List.mem_cons_of_mem _ hz)) hxy (hy1 z hz)
    · rename_i hlt
      have hyx : before y x := by
        rcases hcross y (List.mem_cons_self _ _) with h | h
        · exact absurd ((hcmp x y hx hPy).mpr h) hlt
        · exact h
      refine List.pairwise_cons.mpr ⟨?_, ih (fun z hz => hacc z (List.mem_cons_of_mem _ hz))
        hy2 (fun z hz => hcross z (List.mem_cons_of_mem _ hz))⟩
      intro z hz
      have hz2 := (insertByCompare_perm cmp x ys).subset hz
      rcases List.mem_cons.mp hz2 with rfl | hz3
      · exact hyx
      · exact hy1 z hz3

theorem foldl_insert_pairwise {α : Type} (cmp : α → α → Int) (before : α → α → Prop)
    (P : α → Prop) (hcmp : ∀ a b, P a → P b → (cmp a b < 0 ↔ before a b))
    (htrans : ∀ a b c, P a → P b → P c → before a b → before b c → before a c)
    (l acc : List α) (hl : ∀ x ∈ l, P x) (hacc : ∀ y ∈ acc, P y)
    (hsorted : acc.Pairwise before)
    (hcross : ∀ x ∈ l, ∀ y ∈ acc, before x y ∨ before y x)
    (hl2 : l.Pairwise (fun a b => before a b ∨ before b a)) :
    (l.foldl (fun acc x => insertByCompare cmp x acc) acc).Pairwise before := by
  induction l generalizing acc with
  | nil => simpa using hsorted
  | cons x xs ih =>
    simp only [List.foldl_cons]
    obtain ⟨hx1, hx2⟩ := List.pairwise_cons.mp hl2
    have hPx := hl x (List.mem_cons_self _ _)
    have hmem : ∀ y ∈ insertByCompare cmp x acc, y = x ∨ y ∈ acc := fun y hy =>
      List.mem_cons.mp ((insertByCompare_perm cmp x acc).subset hy)
    apply ih
    · exact fun z hz => hl z (List.mem_cons_of_mem _ hz)
    · intro y hy
      rcases hmem y hy with rfl | h
      · exact hPx
      · exact hacc y h
    · exact insertByCompare_pairwise cmp before P hcmp htrans x acc hPx hacc hsorted
        (hcross x (List.mem_cons_self _ _))
    · intro z hz y hy
      rcases hmem y hy with rfl | h
      · exact (hx1 z hz).symm
      · exact hcross z (List.mem_cons_of_mem _ hz) y h
    · exact hx2

theorem arraySort_pairwise {α : Type} (cmp : α → α → Int) (before : α → α → Prop)
    (l : List α) (hcmp : ∀ a b, a ∈ l → b ∈ l → (cmp a b < 0 ↔ before a b))
    (htrans : ∀ a b c, a ∈ l → b ∈ l → c ∈ l → before a b → before b c → before a c)
    (htotal : l.Pairwise (fun a b => before a b ∨ before b a)) :
    (arraySort cmp l).Pairwise before := by
  unfold arraySort
  exact foldl_insert_pairwise cmp before (fun a => a ∈ l) hcmp htrans l []
    (fun _ h => h) (fun _ h => absurd h (List.not_mem_nil _)) List.Pairwise.nil
    (fun _ _ _ h => absurd h (List.not_mem_nil _)) htotal

/-! ## C23 -/

theorem sortedTasks_ok {toLowerCase : String → String}
    (store : List Task) (userId : String) (options : Options)
    (full : List Task) (h : sortedTasks toLowerCase store userId options = .ok full) :
    ∃ ts, filterTasks toLowerCase store userId options = .ok ts ∧
      full = arraySort (compareTasks (options.sortBy.getD "createdAt")
        (options.order.getD "desc")) ts := by
  unfold sortedTasks at h
  cases hf : filterTasks toLowerCase store userId options with
  | error e => simp [hf] at h
  | ok ts =>
    simp only [hf, Except.ok.injEq] at h
    exact ⟨ts, rfl, h.symm⟩

theorem sortKey_createdAt (t : Task) : sortKey "createdAt" t = .str t.createdAt := by
  simp [sortKey, Task.prop]

theorem filterTasks_sublist {toLowerCase : String → String}
    (store : List Task) (userId : String) (options : Options)
    (ts : List Task) (h : filterTasks toLowerCase store userId options = .ok ts) :
    ts.Sublist (whereUserId store userId) := by
  rw [filterTasks_eq store userId options ts h]
  exact List.filter_sublist _

/-- C23: a GET /tasks request without `page`, `limit`, `sortBy` and `order` is served
with page 1, limit 10, sortBy `createdAt` and order `desc`: `Task.findByUser` with those
options left out returns what it returns with the four values given, the handler answers
200 with that result, `currentPage` is 1, at most 10 tasks are returned, and when the
owner's tasks have pairwise distinct `createdAt` values the returned tasks are in
strictly decreasing `createdAt` order. -/
theorem default_listing (toLowerCase : String → String)
    (store : List Task) (userId : String) (env : Env)
    (status priority search : Option String) (r : FindResult)
    (h : Task.findByUser toLowerCase store userId
      { status := status, priority := priority, search := search } = .ok r) :
    Task.findByUser toLowerCase store userId
        { status := status, priority := priority, search := search } =
      Task.findByUser toLowerCase store userId
        { status := status, priority := priority, search := search,
          sortBy := some "createdAt", order := some "desc", page := .int 1,
          limit := .int 10 } ∧
    tasksHandler toLowerCase (.granted userId)
        { method := "GET", params := none,
          query := { status := status, priority := priority, search := search } }
        env store =
      (⟨200, .list r.tasks.length r.total r.totalPages r.currentPage r.tasks⟩, store) ∧
    r.currentPage = .int 1 ∧
    r.tasks.length ≤ 10 ∧
    ((whereUserId store userId).Pairwise (fun a b => a.createdAt ≠ b.createdAt) →
      r.tasks.Pairwise (fun a b => jsLt (.str b.createdAt) (.str a.createdAt) = true)) := by
  obtain ⟨full, hs, hr⟩ := findByUser_sorted_ok _ _ _ _ h
  obtain ⟨ts, hf, hfull⟩ := sortedTasks_ok _ _ _ _ hs
  have hhandler : tasksHandler toLowerCase (.granted userId)
        { method := "GET", params := none,
          query := { status := status, priority := priority, search := search } }
        env store =
      (⟨200, .list r.tasks.length r.total r.totalPages r.currentPage r.tasks⟩, store) := by
    have h2 : Task.findByUser toLowerCase store userId
        { status := status, priority := priority, search := search, sortBy := none,
          order := none, page := parseNumArg none 1, limit := parseNumArg none 10 } =
        .ok r := h
    unfold tasksHandler
    simp [h2]
  have htasks : r.tasks = arraySlice full ((0 : Nat) : Int) ((10 : Nat) : Int) := by
    rw [hr]
    rfl
  refine ⟨rfl, hhandler, by rw [hr]; rfl, ?_, ?_⟩
  · rw [htasks, arraySlice_nat]
    simp only [List.length_take]
    omega
  · intro hdistinct
    have hsub : r.tasks.Sublist full := by
      rw [htasks]
      exact arraySlice_sublist _ _ _
    apply List.Pairwise.sublist hsub
    rw [hfull]
    apply arraySort_pairwise
    · intro a b _ _
      simp only [Option.getD_none, compareTasks_eq, if_true, sortKey_createdAt, jsGt]
      by_cases hlt : jsLt (.str b.createdAt) (.str a.createdAt) = true <;> simp [hlt]
    · intro a b c _ _ _ hab hbc
      exact jsLt_str_trans _ _ _ hbc hab
    · have hd := hdistinct.sublist (filterTasks_sublist _ _ _ _ hf)
      exact hd.imp (fun hne => (jsLt_str_total _ _ hne).symm)

/-- The default listing of the sample store: newest first. -/
theorem default_listing_witness :
    Task.findByUser asciiToLowerCase sampleStore "u1" {} =
        .ok { tasks := [sampleTask2, sampleTask1], total := 2, totalPages := .int 1,
              currentPage := .int 1 } ∧
      tasksHandler asciiToLowerCase (.granted "u1") { method := "GET", params := none, query := {} }
          sampleEnv1 sampleStore =
        (⟨200, .list 2 2 (.int 1) (.int 1) [sampleTask2, sampleTask1]⟩, sampleStore) :=
  ⟨rfl,
    (default_listing asciiToLowerCase sampleStore "u1" sampleEnv1 none none none
      { tasks := [sampleTask2, sampleTask1], total := 2, totalPages := .int 1,
        currentPage := .int 1 } rfl).2.1⟩

/-! ## C24 -/

/-- C24: evaluation at a task whose priority is `constructor`, a string other than
`high`, `medium` and `low`.  The lookup `priorityOrder[value]` finds the inherited
function, which is truthy, so the value is not mapped to 0; the function compares as
`NaN` against a number, and the task does not compare below a `high` task: the callback
answers 1 in either argument order and in either sort order. -/
theorem inherited_priority_not_zero :
    sortKey "priority" inheritedPriorityTask =
        .obj "function Object() \x7b [native code] \x7d" ∧
      sortKey "priority" sampleTask1 = .num 3 ∧
      compareTasks "priority" "asc" inheritedPriorityTask sampleTask1 = 1 ∧
      compareTasks "priority" "asc" sampleTask1 inheritedPriorityTask = 1 ∧
      compareTasks "priority" "desc" inheritedPriorityTask sampleTask1 = 1 ∧
      compareTasks "priority" "desc" sampleTask1 inheritedPriorityTask = 1 := by
  decide

/-! ## C26 -/

theorem compareTasks_desc_lt (sortBy : String) (a b : Task) :
    compareTasks sortBy "desc" a b < 0 ↔ jsLt (sortKey sortBy b) (sortKey sortBy a) = true := by
  rw [compareTasks_eq]
  simp only [if_true, jsGt]
  by_cases h : jsLt (sortKey sortBy b) (sortKey sortBy a) = true <;> simp [h]

theorem compareTasks_asc_lt (sortBy order : String) (horder : order ≠ "desc") (a b : Task) :
    compareTasks sortBy order a b < 0 ↔ jsLt (sortKey sortBy a) (sortKey sortBy b) = true := by
  rw [compareTasks_eq]
  simp only [horder, if_false]
  by_cases h : jsLt (sortKey sortBy a) (sortKey sortBy b) = true <;> simp [h]

/-- When `<` is a strict total order on the sort keys of a list, sorting in descending
order gives the reverse of sorting in ascending order. -/
theorem desc_eq_reverse_asc (sortBy : String) (l : List Task)
    (htotal : l.Pairwise (fun x y =>
      jsLt (sortKey sortBy x) (sortKey sortBy y) = true ∨
        jsLt (sortKey sortBy y) (sortKey sortBy x) = true))
    (htrans : ∀ x y z, x ∈ l → y ∈ l → z ∈ l →
      jsLt (sortKey sortBy x) (sortKey sortBy y) = true →
      jsLt (sortKey sortBy y) (sortKey sortBy z) = true →
      jsLt (sortKey sortBy x) (sortKey sortBy z) = true) :
    arraySort (compareTasks sortBy "desc") l =
      (arraySort (compareTasks sortBy "asc") l).reverse := by
  have hasc := arraySort_pairwise (compareTasks sortBy "asc")
    (fun x y => jsLt (sortKey sortBy x) (sortKey sortBy y) = true) l
    (fun a b _ _ => compareTasks_asc_lt sortBy "asc" (by decide) a b) htrans htotal
  have hdesc := arraySort_pairwise (compareTasks sortBy "desc")
    (fun x y => jsLt (sortKey sortBy y) (sortKey sortBy x) = true) l
    (fun a b _ _ => compareTasks_desc_lt sortBy a b)
    (fun a b c ha hb hc hab hbc => htrans c b a hc hb ha hbc hab)
    (htotal.imp (fun h => h.symm))
  have hpa := arraySort_perm (compareTasks sortBy "asc") l
  have hpd := arraySort_perm (compareTasks sortBy "desc") l
  have hasym : ∀ x y, x ∈ l → y ∈ l →
      jsLt (sortKey sortBy x) (sortKey sortBy y) = true →
      ¬ jsLt (sortKey sortBy y) (sortKey sortBy x) = true := by
    intro x y hx hy hxy hyx
    have := htrans x y x hx hy hx hxy hyx
    rw [jsLt_irrefl] at this
    exact Bool.noConfusion this
  let r : Task → Task → Prop := fun x y =>
    jsLt (sortKey sortBy y) (sortKey sortBy x) = true ∧
      ¬ jsLt (sortKey sortBy x) (sortKey sortBy y) = true
  haveI : IsAntisymm Task r := ⟨fun x y h1 h2 => absurd h2.1 h1.2⟩
  have s1 : List.Sorted r (arraySort (compareTasks sortBy "desc") l) :=
    hdesc.imp_of_mem (fun {a b} ha hb hab =>
      ⟨hab, hasym b a (hpd.subset hb) (hpd.subset ha) hab⟩)
  have s2 : List.Sorted r (arraySort (compareTasks sortBy "asc") l).reverse := by
    rw [List.Sorted, List.pairwise_reverse]
    exact hasc.imp_of_mem (fun {a b} ha hb hab =>
      ⟨hab, hasym a b (hpa.subset ha) (hpa.subset hb) hab⟩)
  exact List.eq_of_perm_of_sorted
    (hpd.trans (hpa.symm.trans (List.reverse_perm _).symm)) s1 s2

theorem jsLt_num (m n : Int) : jsLt (.num m) (.num n) = decide (m < n) := by
  simp [jsLt, toPrimitive, toNumber]

/-- C26, as amended: for every pair of tasks and every `sortBy` key the callback's result
for `(a, b)` under order `desc` equals its result for `(b, a)` under order `asc`; and for
every task list on whose sort keys `<` is a strict total order (any two keys compare
strictly one way, and transitively), in particular for pairwise distinct keys that are
all strings or all numbers, the `desc` result is the reverse of the `asc` result. -/
theorem desc_reverses_comparison (sortBy : String) (a b : Task) (l : List Task) :
    compareTasks sortBy "desc" a b = compareTasks sortBy "asc" b a ∧
    (l.Pairwise (fun x y =>
        jsLt (sortKey sortBy x) (sortKey sortBy y) = true ∨
          jsLt (sortKey sortBy y) (sortKey sortBy x) = true) →
      (∀ x y z, x ∈ l → y ∈ l → z ∈ l →
        jsLt (sortKey sortBy x) (sortKey sortBy y) = true →
        jsLt (sortKey sortBy y) (sortKey sortBy z) = true →
        jsLt (sortKey sortBy x) (sortKey sortBy z) = true) →
      arraySort (compareTasks sortBy "desc") l =
        (arraySort (compareTasks sortBy "asc") l).reverse) ∧
    ((∀ x ∈ l, ∃ s, sortKey sortBy x = .str s) →
      l.Pairwise (fun x y => sortKey sortBy x ≠ sortKey sortBy y) →
      arraySort (compareTasks sortBy "desc") l =
        (arraySort (compareTasks sortBy "asc") l).reverse) ∧
    ((∀ x ∈ l, ∃ n, sortKey sortBy x = .num n) →
      l.Pairwise (fun x y => sortKey sortBy x ≠ sortKey sortBy y) →
      arraySort (compareTasks sortBy "desc") l =
        (arraySort (compareTasks sortBy "asc") l).reverse) := by
  refine ⟨?_, desc_eq_reverse_asc sortBy l, ?_, ?_⟩
  · rw [compareTasks_eq, compareTasks_eq]
    simp [jsGt]
  · intro hstr hdist
    apply desc_eq_reverse_asc
    · apply hdist.imp_of_mem
      intro x y hx hy hne
      obtain ⟨s, hs⟩ := hstr x hx
      obtain ⟨t, ht⟩ := hstr y hy
      rw [hs, ht] at hne ⊢
      exact jsLt_str_total s t (fun e => hne (by rw [e]))
    · intro x y z hx hy hz
      obtain ⟨s, hs⟩ := hstr x hx
      obtain ⟨t, ht⟩ := hstr y hy
      obtain ⟨u, hu⟩ := hstr z hz
      rw [hs, ht, hu]
      exact jsLt_str_trans s t u
  · intro hnum hdist
    apply desc_eq_reverse_asc
    · apply hdist.imp_of_mem
      intro x y hx hy hne
      obtain ⟨m, hm⟩ := hnum x hx
      obtain ⟨n, hn⟩ := hnum y hy
      rw [hm, hn] at hne ⊢
      rw [jsLt_num, jsLt_num]
      have : m ≠ n := fun e => hne (by rw [e])
      simp only [decide_eq_true_eq]
      omega
    · intro x y z hx hy hz
      obtain ⟨m, hm⟩ := hnum x hx
      obtain ⟨n, hn⟩ := hnum y hy
      obtain ⟨k, hk⟩ := hnum z hz
      rw [hm, hn, hk, jsLt_num, jsLt_num, jsLt_num]
      simp only [decide_eq_true_eq]
      omega

/-- Two tasks with the distinct `dueDate` keys `null` and `2024-03-01`: neither key is
less than the other, both sort orders leave the tasks as they are, and the `desc` result
is not the reverse of the `asc` result. -/
theorem incomparable_keys_not_reversed :
    sortKey "dueDate" sampleTask1 ≠ sortKey "dueDate" dueTask ∧
      arraySort (compareTasks "dueDate" "desc") [sampleTask1, dueTask] =
        [sampleTask1, dueTask] ∧
      arraySort (compareTasks "dueDate" "asc") [sampleTask1, dueTask] =
        [sampleTask1, dueTask] ∧
      arraySort (compareTasks "dueDate" "desc") [sampleTask1, dueTask] ≠
        (arraySort (compareTasks "dueDate" "asc") [sampleTask1, dueTask]).reverse := by
  decide

/-! ## C29 -/

/-- C29: evaluation after a PUT request by the owner whose body sets the title to the
number 5.  The request is answered 200 and the number is stored; a later search throws
in the filter callback, and the list request is answered 500. -/
theorem search_throws_after_numeric_title :
    (tasksHandler asciiToLowerCase (.granted "u1")
        { method := "PUT", params := some [sampleTask1._id], body := { title := .num 5 } }
        sampleEnv1 sampleStore).1.status = 200 ∧
    Task.findByUser asciiToLowerCase
        (tasksHandler asciiToLowerCase (.granted "u1")
          { method := "PUT", params := some [sampleTask1._id], body := { title := .num 5 } }
          sampleEnv1 sampleStore).2
        "u1" { search := some "report" } =
      .error ⟨"task.title.toLowerCase is not a function"⟩ ∧
    (tasksHandler asciiToLowerCase (.granted "u1")
        { method := "GET", params := none, query := { search := some "report" } }
        sampleEnv2
        (tasksHandler asciiToLowerCase (.granted "u1")
          { method := "PUT", params := some [sampleTask1._id], body := { title := .num 5 } }
          sampleEnv1 sampleStore).2).1 =
      ⟨500, .message false "task.title.toLowerCase is not a function"⟩ := by
  refine ⟨by decide, rfl, by decide⟩

/-! ## C21 -/

theorem authHandler_login {toLowerCase : String → String} (crypto : Crypto) (env : Env)
    (users : List User) (authorization : Option String) (valid : Bool)
    (body : AuthFields) :
    authHandler toLowerCase crypto env
        { method := "POST", path := some ["login"], authorization := authorization,
          valid := valid, body := body } users =
      loginRoute toLowerCase crypto
        { method := "POST", path := some ["login"], authorization := authorization,
          valid := valid, body := body } users := by
  unfold authHandler
  simp [route_single]

theorem findByEmail_some_email {toLowerCase : String → String} (users : List User)
    (email : JsVal) (user : User)
    (h : User.findByEmail toLowerCase users email = .ok (some user)) :
    ∃ e, email = .str e ∧ user.email = toLowerCase e ∧ user ∈ users := by
  unfold User.findByEmail emailToLowerCase at h
  cases email <;> simp at h
  rename_i e
  exact ⟨e, rfl, by simpa using List.find?_some h, List.mem_of_find?_eq_some h⟩

/-- C21, as amended: a POST /auth/login request that passed validation is answered 401
with the body `success: false, message: 'Invalid credentials'`, and no token, both when
no account has the email and when the password is a string that does not match the
stored hash; it is answered 500 with the library's message, and no token, when the
account exists and the password is not a string, or when the email is not a string; it
is answered with a token exactly when the email and the password are strings, the
account exists and the password matches, the status is then 200 and the token is the one
signed for that account's id.  The accounts are left as they were. -/
theorem login_outcomes (toLowerCase : String → String) (crypto : Crypto) (env : Env)
    (users : List User) (authorization : Option String) (body : AuthFields) :
    (User.findByEmail toLowerCase users body.email = .ok none →
      authHandler toLowerCase crypto env
          { method := "POST", path := some ["login"], authorization := authorization,
            valid := true, body := body } users =
        (⟨401, .message false "Invalid credentials"⟩, users)) ∧
    (∀ user p, User.findByEmail toLowerCase users body.email = .ok (some user) →
      body.password = .str p → crypto.compare p user.password = false →
      authHandler toLowerCase crypto env
          { method := "POST", path := some ["login"], authorization := authorization,
            valid := true, body := body } users =
        (⟨401, .message false "Invalid credentials"⟩, users)) ∧
    (∀ user p, User.findByEmail toLowerCase users body.email = .ok (some user) →
      body.password = .str p → crypto.compare p user.password = true →
      authHandler toLowerCase crypto env
          { method := "POST", path := some ["login"], authorization := authorization,
            valid := true, body := body } users =
        (⟨200, .session (crypto.sign user.id) (userSummary user)⟩, users)) ∧
    (∀ user, User.findByEmail toLowerCase users body.email = .ok (some user) →
      (∀ p, body.password ≠ .str p) →
      authHandler toLowerCase crypto env
          { method := "POST", path := some ["login"], authorization := authorization,
            valid := true, body := body } users =
        (⟨500, .message false
            ("Illegal arguments: " ++ jsTypeof body.password ++ ", string")⟩, users)) ∧
    ((∀ e, body.email ≠ .str e) →
      ∃ message,
        authHandler toLowerCase crypto env
            { method := "POST", path := some ["login"], authorization := authorization,
              valid := true, body := body } users =
          (⟨500, .message false message⟩, users)) ∧
    (∀ status token summary,
      (authHandler toLowerCase crypto env
          { method := "POST", path := some ["login"], authorization := authorization,
            valid := true, body := body } users).1 = ⟨status, .session token summary⟩ →
      status = 200 ∧
      ∃ user e p, body.email = .str e ∧ body.password = .str p ∧
        User.findByEmail toLowerCase users body.email = .ok (some user) ∧
        user.email = toLowerCase e ∧ crypto.compare p user.password = true ∧
        token = crypto.sign user.id ∧ summary = userSummary user) := by
  refine ⟨?_, ?_, ?_, ?_, ?_, ?_⟩
  · intro h
    rw [authHandler_login]
    simp [loginRoute, h]
  · intro user p h hp hc
    rw [authHandler_login]
    simp [loginRoute, h, hp, User.matchPassword, hc]
  · intro user p h hp hc
    rw [authHandler_login]
    simp [loginRoute, h, hp, User.matchPassword, hc]
  · intro user h hp
    rw [authHandler_login]
    simp only [loginRoute, h]
    cases hb : body.password with
    | str p => exact absurd hb (hp p)
    | undefined => simp [User.matchPassword, authServerError, jsTypeof]
    | null => simp [User.matchPassword, authServerError, jsTypeof]
    | bool b => simp [User.matchPassword, authServerError, jsTypeof]
    | num n => simp [User.matchPassword, authServerError, jsTypeof]
    | obj r => simp [User.matchPassword, authServerError, jsTypeof]
  · intro he
    rw [authHandler_login]
    simp only [loginRoute, User.findByEmail, emailToLowerCase]
    cases hb : body.email with
    | str e => exact absurd hb (he e)
    | undefined => exact ⟨_, by simp [authServerError]; rfl⟩
    | null => exact ⟨_, by simp [authServerError]; rfl⟩
    | bool b => exact ⟨_, by simp [authServerError]; rfl⟩
    | num n => exact ⟨_, by simp [authServerError]; rfl⟩
    | obj r => exact ⟨_, by simp [authServerError]; rfl⟩
  · intro status token summary h
    rw [authHandler_login] at h
    simp only [loginRoute] at h
    cases hf : User.findByEmail toLowerCase users body.email with
    | error e =>
      rw [hf] at h
      simp [authServerError] at h
    | ok found =>
      cases found with
      | none =>
        rw [hf] at h
        simp at h
      | some user =>
        rw [hf] at h
        obtain ⟨e, he, hemail, _⟩ := findByEmail_some_email users body.email user hf
        cases hb : body.password with
        | str p =>
          rw [hb] at h
          simp only [User.matchPassword] at h
          by_cases hc : crypto.compare p user.password = true
          · simp [hc] at h
            exact ⟨h.1.symm, user, e, p, he, rfl, rfl, hemail, hc, h.2.1.symm,
              h.2.2.symm⟩
          · simp [hc] at h
        | undefined => rw [hb] at h; simp [User.matchPassword, authServerError] at h
        | null => rw [hb] at h; simp [User.matchPassword, authServerError] at h
        | bool b => rw [hb] at h; simp [User.matchPassword, authServerError] at h
        | num n => rw [hb] at h; simp [User.matchPassword, authServerError] at h
        | obj r => rw [hb] at h; simp [User.matchPassword, authServerError] at h

/-- A login into the sample account with the JSON number 123456 as the password: the
request is answered 500 with the message of bcryptjs, not 401. -/
theorem numeric_password_is_server_error :
    authHandler asciiToLowerCase sampleCrypto sampleEnv1
        { method := "POST", path := some ["login"],
          body := { email := .str "ada@example.com", password := .num 123456 } }
        [sampleAccount] =
      (⟨500, .message false "Illegal arguments: number, string"⟩, [sampleAccount]) := by
  decide

/-! ## C22 -/

theorem char_toLower_idem (c : Char) : c.toLower.toLower = c.toLower := by
  by_cases h : 65 ≤ c.toNat ∧ c.toNat ≤ 90
  · obtain ⟨h1, h2⟩ := h
    have hc : c = Char.ofNat c.toNat := (Char.ofNat_toNat c).symm
    generalize c.toNat = n at hc h1 h2
    subst hc
    interval_cases n <;> decide
  · have : c.toLower = c := by
      unfold Char.toLower
      simp only [ge_iff_le]
      rw [if_neg h]
    rw [this, this]

theorem asciiToLowerCase_idem (s : String) :
    asciiToLowerCase (asciiToLowerCase s) = asciiToLowerCase s := by
  unfold asciiToLowerCase
  simp [List.map_map, Function.comp_def, char_toLower_idem]

theorem findByEmail_str {toLowerCase : String → String} (users : List User) (e : String) :
    User.findByEmail toLowerCase users (.str e) =
      .ok (users.find? (fun u => u.email = toLowerCase e)) := rfl

theorem findByEmail_none {toLowerCase : String → String} (users : List User)
    (e : String) (h : User.findByEmail toLowerCase users (.str e) = .ok none) :
    ∀ u ∈ users, u.email ≠ toLowerCase e := by
  rw [findByEmail_str] at h
  intro u hu
  have := List.find?_eq_none.mp (Except.ok.inj h) u hu
  simpa using this

theorem findByEmail_of_none {toLowerCase : String → String} (users : List User)
    (e : String) (h : ∀ u ∈ users, u.email ≠ toLowerCase e) :
    User.findByEmail toLowerCase users (.str e) = .ok none := by
  rw [findByEmail_str]
  congr 1
  rw [List.find?_eq_none]
  intro u hu
  simpa using h u hu

theorem findByEmail_of_duplicate {toLowerCase : String → String} (users : List User)
    (e : String) (hlow : ∀ u ∈ users, toLowerCase u.email = u.email)
    (hdup : ∃ u ∈ users, toLowerCase u.email = toLowerCase e) :
    ∃ u, User.findByEmail toLowerCase users (.str e) = .ok (some u) := by
  rw [findByEmail_str]
  cases hf : users.find? (fun u => u.email = toLowerCase e) with
  | some u => exact ⟨u, rfl⟩
  | none =>
    obtain ⟨u, hu, he⟩ := hdup
    have := List.find?_eq_none.mp hf u hu
    exact absurd ((hlow u hu).symm.trans he) (by simpa using this)

/-- A successful `User.create` got a string email and a string password, and appends the
account it returns. -/
theorem create_ok {toLowerCase : String → String} (crypto : Crypto) (env : Env)
    (users : List User) (userData : UserData) (r : User × List User)
    (h : User.create toLowerCase crypto env users userData = .ok r) :
    ∃ e p, userData.email = .str e ∧ userData.password = .str p ∧
      r.1 =
        { id := env.docId, name := userData.name, email := toLowerCase e,
          password := crypto.hash p, avatar := .str "", bio := .str "",
          createdAt := env.clock1, updatedAt := env.clock2 } ∧
      r.2 = users ++ [r.1] := by
  unfold User.create bcryptHash emailToLowerCase at h
  cases hp : userData.password <;> rw [hp] at h <;> simp at h
  cases he : userData.email <;> rw [he] at h <;> simp at h
  rename_i p e
  refine ⟨e, p, rfl, rfl, ?_, ?_⟩
  · rw [← h]
  · rw [← h]

theorem create_str {toLowerCase : String → String} (crypto : Crypto) (env : Env)
    (users : List User) (userData : UserData) (e p : String)
    (he : userData.email = .str e) (hp : userData.password = .str p) :
    User.create toLowerCase crypto env users userData =
      .ok
        ({ id := env.docId, name := userData.name, email := toLowerCase e,
           password := crypto.hash p, avatar := .str "", bio := .str "",
           createdAt := env.clock1, updatedAt := env.clock2 },
          users ++
            [{ id := env.docId, name := userData.name, email := toLowerCase e,
               password := crypto.hash p, avatar := .str "", bio := .str "",
               createdAt := env.clock1, updatedAt := env.clock2 }]) := by
  unfold User.create bcryptHash emailToLowerCase
  simp [he, hp]

theorem emailsUnique_create {toLowerCase : String → String}
    (hidem : ∀ s, toLowerCase (toLowerCase s) = toLowerCase s)
    (crypto : Crypto) (env : Env) (users : List User) (userData : UserData)
    (r : User × List User) (h : emailsUnique toLowerCase users)
    (hnew : User.findByEmail toLowerCase users userData.email = .ok none)
    (hr : User.create toLowerCase crypto env users userData = .ok r) :
    emailsUnique toLowerCase r.2 := by
  obtain ⟨hlow, hpair⟩ := h
  obtain ⟨e, p, he, _, h1, h2⟩ := create_ok crypto env users userData r hr
  rw [he] at hnew
  have hne := findByEmail_none users e hnew
  have hemail : r.1.email = toLowerCase e := by rw [h1]
  rw [h2]
  constructor
  · intro u hu
    rcases List.mem_append.mp hu with hu | hu
    · exact hlow u hu
    · rw [List.mem_singleton.mp hu, hemail]
      exact hidem _
  · rw [List.pairwise_append]
    refine ⟨hpair, List.pairwise_singleton _ _, ?_⟩
    intro a ha b hb
    rw [List.mem_singleton.mp hb, hlow a ha, hemail, hidem]
    exact hne a ha

theorem emailsUnique_update {toLowerCase : String → String} (users : List User)
    (id : String) (upd : UserUpdate) (updatedAt : String)
    (h : emailsUnique toLowerCase users) :
    emailsUnique toLowerCase
      (users.map (fun u => if u.id = id then applyUserUpdate upd updatedAt u else u)) := by
  obtain ⟨hlow, hpair⟩ := h
  have hemail : ∀ u : User,
      (if u.id = id then applyUserUpdate upd updatedAt u else u).email = u.email := by
    intro u
    split <;> rfl
  constructor
  · intro u hu
    obtain ⟨v, hv, rfl⟩ := List.mem_map.mp hu
    rw [hemail]
    exact hlow v hv
  · rw [List.pairwise_map]
    exact hpair.imp (fun {a b} hab => by rw [hemail, hemail]; exact hab)

theorem findByIdAndUpdate_unique {toLowerCase : String → String} (users : List User)
    (env : Env) (id : String) (upd : UserUpdate) (r : Option User × List User)
    (h : emailsUnique toLowerCase users)
    (hr : User.findByIdAndUpdate users env id upd = .ok r) :
    emailsUnique toLowerCase r.2 := by
  unfold User.findByIdAndUpdate at hr
  cases hf : User.findById users id with
  | none => simp [hf] at hr
  | some u =>
    simp only [hf, Except.ok.injEq] at hr
    rw [← hr]
    exact emailsUnique_update users id upd env.clock1 h

theorem registerRoute_unique {toLowerCase : String → String}
    (hidem : ∀ s, toLowerCase (toLowerCase s) = toLowerCase s)
    (crypto : Crypto) (env : Env) (req : AuthRequest) (users : List User)
    (h : emailsUnique toLowerCase users) :
    emailsUnique toLowerCase (registerRoute toLowerCase crypto env req users).2 := by
  unfold registerRoute
  split
  · exact h
  · split
    · exact h
    · exact h
    · rename_i hnew
      split
      · exact h
      · rename_i hr
        exact emailsUnique_create hidem crypto env users _ _ h hnew hr

theorem loginRoute_users {toLowerCase : String → String} (crypto : Crypto)
    (req : AuthRequest) (users : List User) :
    (loginRoute toLowerCase crypto req users).2 = users := by
  unfold loginRoute
  split
  · rfl
  · split
    · rfl
    · rfl
    · split <;> rfl

theorem meRoute_users (crypto : Crypto) (req : AuthRequest) (users : List User) :
    (meRoute crypto req users).2 = users := by
  unfold meRoute
  split
  · rfl
  · split <;> rfl

theorem profileRoute_unique {toLowerCase : String → String} (crypto : Crypto)
    (env : Env) (req : AuthRequest) (users : List User)
    (h : emailsUnique toLowerCase users) :
    emailsUnique toLowerCase (profileRoute crypto env req users).2 := by
  unfold profileRoute
  split
  · exact h
  · split
    · exact h
    · split
      · exact h
      · rename_i hr
        exact findByIdAndUpdate_unique _ _ _ _ _ h hr
      · rename_i hr
        exact findByIdAndUpdate_unique _ _ _ _ _ h hr

theorem passwordRoute_unique {toLowerCase : String → String} (crypto : Crypto)
    (env : Env) (req : AuthRequest) (users : List User)
    (h : emailsUnique toLowerCase users) :
    emailsUnique toLowerCase (passwordRoute crypto env req users).2 := by
  unfold passwordRoute
  split
  · exact h
  · split
    · exact h
    · split
      · exact h
      · split
        · exact h
        · exact h
        · split
          · exact h
          · split
            · exact h
            · rename_i hr
              exact findByIdAndUpdate_unique _ _ _ _ _ h hr

theorem googleRoute_unique {toLowerCase : String → String}
    (hidem : ∀ s, toLowerCase (toLowerCase s) = toLowerCase s)
    (crypto : Crypto) (env : Env) (req : AuthRequest) (users : List User)
    (h : emailsUnique toLowerCase users) :
    emailsUnique toLowerCase (googleRoute toLowerCase crypto env req users).2 := by
  unfold googleRoute
  split
  · exact h
  · split
    · exact h
    · split
      · exact h
      · split
        · exact h
        · exact h
        · rename_i hnew
          split
          · exact h
          · rename_i hr
            exact emailsUnique_create hidem crypto env users _ _ h hnew hr

/-- Every request to the auth handler preserves the email invariant. -/
theorem authHandler_emailsUnique {toLowerCase : String → String}
    (hidem : ∀ s, toLowerCase (toLowerCase s) = toLowerCase s)
    (crypto : Crypto) (env : Env) (req : AuthRequest) (users : List User)
    (h : emailsUnique toLowerCase users) :
    emailsUnique toLowerCase (authHandler toLowerCase crypto env req users).2 := by
  unfold authHandler
  split
  · exact h
  · simp only
    split
    · exact registerRoute_unique hidem crypto env req users h
    · split
      · rw [loginRoute_users]
        exact h
      · split
        · rw [meRoute_users]
          exact h
        · split
          · exact profileRoute_unique crypto env req users h
          · split
            · exact passwordRoute_unique crypto env req users h
            · split
              · exact googleRoute_unique hidem crypto env req users h
              · exact h

theorem runAuth_emailsUnique {toLowerCase : String → String}
    (hidem : ∀ s, toLowerCase (toLowerCase s) = toLowerCase s)
    (requests : List (Crypto × Env × AuthRequest)) (users : List User)
    (h : emailsUnique toLowerCase users) :
    emailsUnique toLowerCase (runAuth toLowerCase requests users) := by
  unfold runAuth
  induction requests generalizing users with
  | nil => exact h
  | cons x xs ih =>
    simp only [List.foldl_cons]
    exact ih _ (authHandler_emailsUnique hidem x.1 x.2.1 x.2.2 users h)

theorem authHandler_register {toLowerCase : String → String} (crypto : Crypto)
    (env : Env) (users : List User) (authorization : Option String) (valid : Bool)
    (body : AuthFields) :
    authHandler toLowerCase crypto env
        { method := "POST", path := some ["register"], authorization := authorization,
          valid := valid, body := body } users =
      registerRoute toLowerCase crypto env
        { method := "POST", path := some ["register"], authorization := authorization,
          valid := valid, body := body } users := by
  unfold authHandler
  simp [route_single]

/-- C22: let `toLowerCase` be idempotent, as the lower-casing of the runtime is.
Starting from accounts that satisfy the email invariant (in particular from no
accounts), after every sequence of requests to the auth handler handled one after the
other, registrations included, every stored email is lower-case and no two stored emails
are equal up to letter case.  A register request that passed validation and whose email
equals an existing account's email up to letter case is answered 400 with the message
`Email already registered` and creates no account; a register request that failed
validation is answered 400 and creates no account either; a register request that
passed validation with a string password and an email that no account has up to letter
case is answered 201 and appends one account, whose email is the lower-cased one. -/
theorem register_keeps_emails_unique (toLowerCase : String → String)
    (hidem : ∀ s, toLowerCase (toLowerCase s) = toLowerCase s)
    (requests : List (Crypto × Env × AuthRequest)) (users : List User)
    (h : emailsUnique toLowerCase users) :
    emailsUnique toLowerCase (runAuth toLowerCase requests users) ∧
    emailsUnique toLowerCase (runAuth toLowerCase requests []) ∧
    (∀ (crypto : Crypto) (env : Env) (authorization : Option String) (body : AuthFields)
        (e : String), body.email = .str e →
      (∃ u ∈ users, toLowerCase u.email = toLowerCase e) →
      authHandler toLowerCase crypto env
          { method := "POST", path := some ["register"], authorization := authorization,
            valid := true, body := body } users =
        (⟨400, .message false "Email already registered"⟩, users)) ∧
    (∀ (crypto : Crypto) (env : Env) (authorization : Option String) (body : AuthFields),
      authHandler toLowerCase crypto env
          { method := "POST", path := some ["register"], authorization := authorization,
            valid := false, body := body } users =
        (⟨400, .validationErrors⟩, users)) ∧
    (∀ (crypto : Crypto) (env : Env) (authorization : Option String) (body : AuthFields)
        (e p : String), body.email = .str e → body.password = .str p →
      (∀ u ∈ users, toLowerCase u.email ≠ toLowerCase e) →
      ∃ token summary,
        authHandler toLowerCase crypto env
            { method := "POST", path := some ["register"], authorization := authorization,
              valid := true, body := body } users =
          (⟨201, .session token summary⟩,
            users ++
              [{ id := env.docId, name := body.name, email := toLowerCase e,
                 password := crypto.hash p, avatar := .str "", bio := .str "",
                 createdAt := env.clock1, updatedAt := env.clock2 }])) := by
  refine ⟨runAuth_emailsUnique hidem requests users h, ?_, ?_, ?_, ?_⟩
  · exact runAuth_emailsUnique hidem requests []
      ⟨fun _ hu => absurd hu (List.not_mem_nil _), List.Pairwise.nil⟩
  · intro crypto env authorization body e he hdup
    obtain ⟨u, hu⟩ := findByEmail_of_duplicate users e h.1 hdup
    rw [authHandler_register]
    simp [registerRoute, he, hu]
  · intro crypto env authorization body
    rw [authHandler_register]
    simp [registerRoute]
  · intro crypto env authorization body e p he hp hnew
    have hnone : User.findByEmail toLowerCase users (.str e) = .ok none :=
      findByEmail_of_none users e (fun u hu heq => hnew u hu (by rw [heq, hidem]))
    rw [authHandler_register]
    simp only [registerRoute, he, hp, hnone]
    rw [create_str crypto env users _ e p rfl rfl]
    exact ⟨_, _, rfl⟩

/-- Two registrations with the same email in different letter case: the second is
refused and one account is stored. -/
theorem register_keeps_emails_unique_witness :
    (∀ s, asciiToLowerCase (asciiToLowerCase s) = asciiToLowerCase s) ∧
      emailsUnique asciiToLowerCase [] ∧
      emailsUnique asciiToLowerCase
        (runAuth asciiToLowerCase
          [(sampleCrypto, sampleEnv1,
              { method := "POST", path := some ["register"],
                body := { name := .str "Ada", email := .str "Ada@Example.com",
                          password := .str "secret1" } }),
            (sampleCrypto, sampleEnv2,
              { method := "POST", path := some ["register"],
                body := { name := .str "Ada", email := .str "ada@example.COM",
                          password := .str "secret2" } })] []) ∧
      (runAuth asciiToLowerCase
          [(sampleCrypto, sampleEnv1,
              { method := "POST", path := some ["register"],
                body := { name := .str "Ada", email := .str "Ada@Example.com",
                          password := .str "secret1" } }),
            (sampleCrypto, sampleEnv2,
              { method := "POST", path := some ["register"],
                body := { name := .str "Ada", email := .str "ada@example.COM",
                          password := .str "secret2" } })] []).map (fun u => u.email) =
        ["ada@example.com"] :=
  ⟨asciiToLowerCase_idem, by decide,
    (register_keeps_emails_unique asciiToLowerCase asciiToLowerCase_idem _ []
      (by decide)).1, by decide⟩

/-! ## C27 -/

theorem authHandler_google {toLowerCase : String → String} (crypto : Crypto) (env : Env)
    (users : List User) (authorization : Option String) (valid : Bool)
    (body : AuthFields) :
    authHandler toLowerCase crypto env
        { method := "POST", path := some ["google"], authorization := authorization,
          valid := valid, body := body } users =
      googleRoute toLowerCase crypto env
        { method := "POST", path := some ["google"], authorization := authorization,
          valid := valid, body := body } users := by
  unfold authHandler
  simp [route_single]

/-- The first Google sign-in for an email creates the account `User.create` builds. -/
theorem googleRoute_new {toLowerCase : String → String} (crypto : Crypto) (env : Env)
    (users : List User) (req : AuthRequest) (idToken : String) (decoded : GoogleToken)
    (hbody : req.body.idToken = some idToken) (hne : idToken ≠ "")
    (hv : crypto.verifyIdToken idToken = .ok decoded)
    (hnew : User.findByEmail toLowerCase users (.str decoded.email) = .ok none) :
    googleRoute toLowerCase crypto env req users =
      (⟨200, .session (crypto.sign env.docId)
          [("id", .str env.docId), ("name", (googleUserData decoded).name),
           ("email", .str (toLowerCase decoded.email)), ("avatar", .str ""),
           ("bio", .str "")]⟩,
        users ++
          [{ id := env.docId, name := (googleUserData decoded).name,
             email := toLowerCase decoded.email, password := crypto.hash decoded.uid,
             avatar := .str "", bio := .str "", createdAt := env.clock1,
             updatedAt := env.clock2 }]) := by
  unfold googleRoute
  simp only [hbody, if_neg hne, hv, hnew]
  rw [create_str crypto env users (googleUserData decoded) decoded.email decoded.uid
    rfl rfl]
  rfl

theorem findByEmail_append_new {toLowerCase : String → String} (users : List User)
    (account : User) (email : String)
    (hnew : User.findByEmail toLowerCase users (.str email) = .ok none)
    (he : account.email = toLowerCase email) :
    User.findByEmail toLowerCase (users ++ [account]) (.str email) =
      .ok (some account) := by
  rw [findByEmail_str] at *
  rw [List.find?_append, Except.ok.inj hnew]
  simp [he]

/-- C27: an account created by Google sign-in can be logged into with a password.  When
the first Google sign-in for an email stores a new account, its password field is the
hash of the Firebase UID, and a POST /auth/login request with the token's email and the
UID as the password, checked by a `compare` that accepts the UID against that hash,
is answered 200 with a token for the account. -/
theorem google_account_login_with_uid (toLowerCase : String → String)
    (crypto crypto2 : Crypto) (env env2 : Env)
    (users : List User) (idToken : String) (decoded : GoogleToken)
    (hne : idToken ≠ "") (hv : crypto.verifyIdToken idToken = .ok decoded)
    (hnew : User.findByEmail toLowerCase users (.str decoded.email) = .ok none)
    (hcmp : crypto2.compare decoded.uid (crypto.hash decoded.uid) = true) :
    ∃ account : User,
      (authHandler toLowerCase crypto env
          { method := "POST", path := some ["google"],
            body := { idToken := some idToken } } users).2 = users ++ [account] ∧
      account.password = crypto.hash decoded.uid ∧
      authHandler toLowerCase crypto2 env2
          { method := "POST", path := some ["login"],
            body := { email := .str decoded.email, password := .str decoded.uid } }
          (users ++ [account]) =
        (⟨200, .session (crypto2.sign account.id) (userSummary account)⟩,
          users ++ [account]) := by
  refine ⟨{ id := env.docId, name := (googleUserData decoded).name,
            email := toLowerCase decoded.email, password := crypto.hash decoded.uid,
            avatar := .str "", bio := .str "", createdAt := env.clock1,
            updatedAt := env.clock2 }, ?_, rfl, ?_⟩
  · rw [authHandler_google,
      googleRoute_new crypto env users _ idToken decoded rfl hne hv hnew]
  · rw [authHandler_login]
    simp only [loginRoute]
    rw [findByEmail_append_new users _ decoded.email hnew rfl]
    simp [User.matchPassword, hcmp]

/-- A Google sign-in into an empty store, then a login with the UID as the password. -/
theorem google_account_login_with_uid_witness :
    ("google-ok" ≠ "" ∧
      sampleCrypto.verifyIdToken "google-ok" =
        .ok { uid := "firebase-uid-1", email := "Grace@Example.com", name := some "Grace",
              picture := some "https://example.com/grace.png" } ∧
      User.findByEmail asciiToLowerCase [] (.str "Grace@Example.com") = .ok none ∧
      sampleCrypto.compare "firebase-uid-1" (sampleCrypto.hash "firebase-uid-1") = true) ∧
    ∃ account : User,
      (authHandler asciiToLowerCase sampleCrypto sampleEnv1
          { method := "POST", path := some ["google"],
            body := { idToken := some "google-ok" } } []).2 = [] ++ [account] ∧
      account.password = sampleCrypto.hash "firebase-uid-1" ∧
      authHandler asciiToLowerCase sampleCrypto sampleEnv2
          { method := "POST", path := some ["login"],
            body := { email := .str "Grace@Example.com",
                      password := .str "firebase-uid-1" } }
          ([] ++ [account]) =
        (⟨200, .session (sampleCrypto.sign account.id) (userSummary account)⟩,
          [] ++ [account]) :=
  ⟨⟨by decide, rfl, rfl, by decide⟩,
    google_account_login_with_uid asciiToLowerCase sampleCrypto sampleCrypto sampleEnv1
      sampleEnv2 [] "google-ok"
      { uid := "firebase-uid-1", email := "Grace@Example.com", name := some "Grace",
        picture := some "https://example.com/grace.png" }
      (by decide) rfl rfl (by decide)⟩

/-! ## C28 -/

/-- C28: when Google sign-in creates a new account, the stored account and the summary
in the response carry the name the handler passed to `User.create` (the token's name, or
the local part of the email when the name is absent or empty), but not the avatar: the
handler passes the token's picture, and the avatar stored and returned is the empty
string whatever the picture is. -/
theorem google_signup_drops_picture (toLowerCase : String → String)
    (crypto : Crypto) (env : Env) (users : List User)
    (idToken : String) (decoded : GoogleToken)
    (hne : idToken ≠ "") (hv : crypto.verifyIdToken idToken = .ok decoded)
    (hnew : User.findByEmail toLowerCase users (.str decoded.email) = .ok none) :
    (googleUserData decoded).avatar = .str (decoded.picture.getD "") ∧
    authHandler toLowerCase crypto env
        { method := "POST", path := some ["google"],
          body := { idToken := some idToken } } users =
      (⟨200, .session (crypto.sign env.docId)
          [("id", .str env.docId), ("name", (googleUserData decoded).name),
           ("email", .str (toLowerCase decoded.email)), ("avatar", .str ""),
           ("bio", .str "")]⟩,
        users ++
          [{ id := env.docId, name := (googleUserData decoded).name,
             email := toLowerCase decoded.email, password := crypto.hash decoded.uid,
             avatar := .str "", bio := .str "", createdAt := env.clock1,
             updatedAt := env.clock2 }]) := by
  refine ⟨rfl, ?_⟩
  rw [authHandler_google, googleRoute_new crypto env users _ idToken decoded rfl hne hv hnew]

/-- A token with a picture: the account is stored and returned with the avatar `''`. -/
theorem google_signup_drops_picture_witness :
    ("google-ok" ≠ "" ∧
      sampleCrypto.verifyIdToken "google-ok" =
        .ok { uid := "firebase-uid-1", email := "Grace@Example.com", name := some "Grace",
              picture := some "https://example.com/grace.png" } ∧
      User.findByEmail asciiToLowerCase [] (.str "Grace@Example.com") = .ok none) ∧
    (googleUserData
        { uid := "firebase-uid-1", email := "Grace@Example.com", name := some "Grace",
          picture := some "https://example.com/grace.png" }).avatar =
      .str "https://example.com/grace.png" ∧
    authHandler asciiToLowerCase sampleCrypto sampleEnv1
        { method := "POST", path := some ["google"],
          body := { idToken := some "google-ok" } } [] =
      (⟨200, .session ("token:" ++ sampleEnv1.docId)
          [("id", .str sampleEnv1.docId), ("name", .str "Grace"),
           ("email", .str "grace@example.com"), ("avatar", .str ""),
           ("bio", .str "")]⟩,
        [{ id := sampleEnv1.docId, name := .str "Grace",
           email := "grace@example.com", password := "hash:firebase-uid-1",
           avatar := .str "", bio := .str "", createdAt := sampleEnv1.clock1,
           updatedAt := sampleEnv1.clock2 }]) :=
  ⟨⟨by decide, rfl, rfl⟩,
    google_signup_drops_picture asciiToLowerCase sampleCrypto sampleEnv1 [] "google-ok"
      { uid := "firebase-uid-1", email := "Grace@Example.com", name := some "Grace",
        picture := some "https://example.com/grace.png" }
      (by decide) rfl rfl⟩

/-! ## C30 -/

theorem findById_rehash (f : String → String) (users : List User) (id : String) :
    User.findById (users.map (rehash f)) id = (User.findById users id).map (rehash f) := by
  unfold User.findById
  rw [List.find?_map]
  rfl

theorem findByEmail_rehash {toLowerCase : String → String} (f : String → String)
    (users : List User) (email : JsVal) :
    User.findByEmail toLowerCase (users.map (rehash f)) email =
      (User.findByEmail toLowerCase users email).map (Option.map (rehash f)) := by
  unfold User.findByEmail
  cases emailToLowerCase toLowerCase email with
  | error e => rfl
  | ok lowered =>
    simp only [Except.map]
    rw [List.find?_map]
    rfl

theorem protect_rehash (verify : String → Option String) (f : String → String)
    (users : List User) (authorization : Option String) :
    protect verify (users.map (rehash f)) authorization =
      protect verify users authorization := by
  unfold protect
  simp only [findById_rehash]
  cases bearerToken authorization with
  | none => rfl
  | some token =>
    simp only
    split
    · rfl
    · cases verify token with
      | none => rfl
      | some id =>
        simp only
        cases User.findById users id <;> rfl

theorem findById_mem (users : List User) (id : String) (u : User)
    (h : User.findById users id = some u) : u ∈ users :=
  List.mem_of_find?_eq_some h

theorem findByIdAndUpdate_rehash (f : String → String) (users : List User) (env : Env)
    (id : String) (upd : UserUpdate) (hp : upd.password = none) :
    User.findByIdAndUpdate (users.map (rehash f)) env id upd =
      (User.findByIdAndUpdate users env id upd).map
        (fun r => (r.1.map (rehash f), r.2.map (rehash f))) := by
  unfold User.findByIdAndUpdate
  rw [findById_rehash]
  cases User.findById users id with
  | none => rfl
  | some u =>
    simp only [Option.map_some', Except.map]
    have hmap : (users.map (rehash f)).map
          (fun u => if u.id = id then applyUserUpdate upd env.clock1 u else u) =
        (users.map
          (fun u => if u.id = id then applyUserUpdate upd env.clock1 u else u)).map
          (rehash f) := by
      simp only [List.map_map]
      apply List.map_congr_left
      intro a _
      simp only [Function.comp]
      by_cases ha : a.id = id
      · have ha2 : (rehash f a).id = id := ha
        rw [if_pos ha, if_pos ha2]
        simp [rehash, applyUserUpdate, hp]
      · have ha2 : ¬ (rehash f a).id = id := ha
        rw [if_neg ha, if_neg ha2]
    rw [hmap, findById_rehash]

theorem findByIdAndUpdate_isOk (users : List User) (env : Env) (id : String)
    (upd : UserUpdate) (u : User) (h : User.findById users id = some u) :
    ∃ r, User.findByIdAndUpdate users env id upd = .ok r := by
  unfold User.findByIdAndUpdate
  rw [h]
  exact ⟨_, rfl⟩

theorem registerRoute_rehash {toLowerCase : String → String} (crypto crypto2 : Crypto)
    (env : Env) (req : AuthRequest) (users : List User) (f : String → String)
    (hsign : crypto2.sign = crypto.sign) :
    (registerRoute toLowerCase crypto2 env req (users.map (rehash f))).1 =
      (registerRoute toLowerCase crypto env req users).1 := by
  unfold registerRoute
  rw [findByEmail_rehash]
  by_cases hv : req.valid = false
  · simp [hv]
  · simp only [hv, if_false]
    cases hf : User.findByEmail toLowerCase users req.body.email with
    | error e => rfl
    | ok found =>
      cases found with
      | some u => rfl
      | none =>
        simp only [Except.map, Option.map_none']
        unfold User.create bcryptHash emailToLowerCase
        cases req.body.password <;> cases req.body.email <;> simp [hsign, userSummary]

theorem loginRoute_rehash {toLowerCase : String → String} (crypto crypto2 : Crypto)
    (req : AuthRequest) (users : List User) (f : String → String)
    (hsign : crypto2.sign = crypto.sign)
    (hcmp : ∀ u ∈ users, ∀ p,
      crypto2.compare p (f u.password) = crypto.compare p u.password) :
    (loginRoute toLowerCase crypto2 req (users.map (rehash f))).1 =
      (loginRoute toLowerCase crypto req users).1 := by
  unfold loginRoute
  rw [findByEmail_rehash]
  by_cases hv : req.valid = false
  · simp [hv]
  · simp only [hv, if_false]
    cases hf : User.findByEmail toLowerCase users req.body.email with
    | error e => rfl
    | ok found =>
      cases found with
      | none => rfl
      | some u =>
        obtain ⟨_, _, _, hu⟩ := findByEmail_some_email users req.body.email u hf
        simp only [Except.map, Option.map_some']
        unfold User.matchPassword
        cases hp : req.body.password with
        | str p =>
          simp only
          have hc : crypto2.compare p (rehash f u).password = crypto.compare p u.password :=
            hcmp u hu p
          rw [hc]
          cases crypto.compare p u.password <;> simp [hsign, userSummary, rehash]
        | undefined => rfl
        | null => rfl
        | bool b => rfl
        | num n => rfl
        | obj r => rfl

theorem meRoute_rehash (crypto crypto2 : Crypto) (req : AuthRequest) (users : List User)
    (f : String → String) (hverify : crypto2.verify = crypto.verify) :
    (meRoute crypto2 req (users.map (rehash f))).1 = (meRoute crypto req users).1 := by
  unfold meRoute
  rw [hverify, protect_rehash]
  cases protect crypto.verify users req.authorization with
  | denied m => rfl
  | granted id =>
    simp only [findById_rehash]
    cases User.findById users id <;> rfl

theorem profileRoute_rehash (crypto crypto2 : Crypto) (env : Env) (req : AuthRequest)
    (users : List User) (f : String → String) (hverify : crypto2.verify = crypto.verify) :
    (profileRoute crypto2 env req (users.map (rehash f))).1 =
      (profileRoute crypto env req users).1 := by
  unfold profileRoute
  rw [hverify, protect_rehash]
  cases protect crypto.verify users req.authorization with
  | denied m => rfl
  | granted id =>
    simp only
    by_cases hv : req.valid = false
    · simp [hv]
    · simp only [hv, if_false]
      rw [findByIdAndUpdate_rehash f users env id (buildProfileUpdate req.body) (by
        simp [buildProfileUpdate])]
      cases User.findByIdAndUpdate users env id (buildProfileUpdate req.body) with
      | error e => rfl
      | ok r =>
        obtain ⟨found, users2⟩ := r
        cases found <;> rfl

theorem passwordRoute_rehash (crypto crypto2 : Crypto) (env : Env) (req : AuthRequest)
    (users : List User) (f : String → String)
    (hsign : crypto2.sign = crypto.sign) (hverify : crypto2.verify = crypto.verify)
    (hcmp : ∀ u ∈ users, ∀ p,
      crypto2.compare p (f u.password) = crypto.compare p u.password) :
    (passwordRoute crypto2 env req (users.map (rehash f))).1 =
      (passwordRoute crypto env req users).1 := by
  unfold passwordRoute
  rw [hverify, protect_rehash]
  cases protect crypto.verify users req.authorization with
  | denied m => rfl
  | granted id =>
    simp only
    by_cases hv : req.valid = false
    · simp [hv]
    · simp only [hv, if_false, findById_rehash]
      cases hf : User.findById users id with
      | none => rfl
      | some u =>
        have hu := findById_mem users id u hf
        have hf2 : User.findById (users.map (rehash f)) id = some (rehash f u) := by
          rw [findById_rehash, hf]
          rfl
        simp only [Option.map_some']
        unfold User.matchPassword
        cases hp : req.body.currentPassword with
        | str p =>
          simp only
          have hc : crypto2.compare p (rehash f u).password = crypto.compare p u.password :=
            hcmp u hu p
          rw [hc]
          cases crypto.compare p u.password with
          | false => rfl
          | true =>
            simp only
            unfold bcryptHash
            cases hn : req.body.newPassword with
            | str n =>
              simp only
              obtain ⟨r, hr⟩ := findByIdAndUpdate_isOk users env id
                { password := some (crypto.hash n) } u hf
              obtain ⟨r2, hr2⟩ := findByIdAndUpdate_isOk (users.map (rehash f)) env id
                { password := some (crypto2.hash n) } (rehash f u) hf2
              rw [hr, hr2]
              simp [hsign, rehash]
            | undefined => rfl
            | null => rfl
            | bool b => rfl
            | num n => rfl
            | obj r => rfl
        | undefined => rfl
        | null => rfl
        | bool b => rfl
        | num n => rfl
        | obj r => rfl

theorem googleRoute_rehash {toLowerCase : String → String} (crypto crypto2 : Crypto)
    (env : Env) (req : AuthRequest) (users : List User) (f : String → String)
    (hsign : crypto2.sign = crypto.sign)
    (htoken : crypto2.verifyIdToken = crypto.verifyIdToken) :
    (googleRoute toLowerCase crypto2 env req (users.map (rehash f))).1 =
      (googleRoute toLowerCase crypto env req users).1 := by
  unfold googleRoute
  cases req.body.idToken with
  | none => rfl
  | some idToken =>
    simp only
    by_cases hi : idToken = ""
    · simp [hi]
    · simp only [hi, if_false, htoken]
      cases crypto.verifyIdToken idToken with
      | error e => rfl
      | ok decoded =>
        simp only [findByEmail_rehash]
        cases hf : User.findByEmail toLowerCase users (.str decoded.email) with
        | error e => rfl
        | ok found =>
          cases found with
          | some u => simp [Except.map, hsign, userSummary, rehash]
          | none =>
            simp only [Except.map, Option.map_none']
            rw [create_str crypto env users (googleUserData decoded) decoded.email
                decoded.uid rfl rfl,
              create_str crypto2 env (users.map (rehash f)) (googleUserData decoded)
                decoded.email decoded.uid rfl rfl]
            simp [hsign, userSummary]

/-- The response of the auth handler is the same when every stored hash is rewritten and
the password comparison gives the same verdicts on the rewritten hashes. -/
theorem authHandler_rehash {toLowerCase : String → String} (crypto crypto2 : Crypto)
    (env : Env) (req : AuthRequest) (users : List User) (f : String → String)
    (hsign : crypto2.sign = crypto.sign) (hverify : crypto2.verify = crypto.verify)
    (htoken : crypto2.verifyIdToken = crypto.verifyIdToken)
    (hcmp : ∀ u ∈ users, ∀ p,
      crypto2.compare p (f u.password) = crypto.compare p u.password) :
    (authHandler toLowerCase crypto2 env req (users.map (rehash f))).1 =
      (authHandler toLowerCase crypto env req users).1 := by
  unfold authHandler
  split
  · rfl
  · simp only
    split
    · exact registerRoute_rehash crypto crypto2 env req users f hsign
    · split
      · exact loginRoute_rehash crypto crypto2 req users f hsign hcmp
      · split
        · exact meRoute_rehash crypto crypto2 req users f hverify
        · split
          · exact profileRoute_rehash crypto crypto2 env req users f hverify
          · split
            · exact passwordRoute_rehash crypto crypto2 env req users f hsign hverify hcmp
            · split
              · exact googleRoute_rehash crypto crypto2 env req users f hsign htoken
              · rfl

theorem registerRoute_user {toLowerCase : String → String} (crypto : Crypto) (env : Env)
    (req : AuthRequest) (users : List User) (obj : List (String × JsVal))
    (h : (registerRoute toLowerCase crypto env req users).1.body.user = some obj) :
    ∃ u ∈ (registerRoute toLowerCase crypto env req users).2,
      obj = userSummary u ∨ obj = meSummary u := by
  by_cases hv : req.valid = false
  · simp [registerRoute, hv, AuthBody.user] at h
  · cases hf : User.findByEmail toLowerCase users req.body.email with
    | error e => simp [registerRoute, hv, hf, AuthBody.user, authServerError] at h
    | ok found =>
      cases found with
      | some u => simp [registerRoute, hv, hf, AuthBody.user] at h
      | none =>
        cases hr : User.create toLowerCase crypto env users
            { name := req.body.name, email := req.body.email,
              password := req.body.password } with
        | error e => simp [registerRoute, hv, hf, hr, AuthBody.user, authServerError] at h
        | ok created =>
          have hroute : registerRoute toLowerCase crypto env req users =
              (⟨201, .session (crypto.sign created.1.id) (userSummary created.1)⟩,
                created.2) := by
            simp [registerRoute, hv, hf, hr]
          rw [hroute] at h ⊢
          simp only [AuthBody.user, Option.some.injEq] at h
          obtain ⟨_, _, _, _, _, h2⟩ := create_ok crypto env users _ created hr
          refine ⟨created.1, ?_, Or.inl h.symm⟩
          rw [h2]
          simp

theorem loginRoute_user {toLowerCase : String → String} (crypto : Crypto)
    (req : AuthRequest) (users : List User) (obj : List (String × JsVal))
    (h : (loginRoute toLowerCase crypto req users).1.body.user = some obj) :
    ∃ u ∈ (loginRoute toLowerCase crypto req users).2,
      obj = userSummary u ∨ obj = meSummary u := by
  rw [loginRoute_users]
  by_cases hv : req.valid = false
  · simp [loginRoute, hv, AuthBody.user] at h
  · cases hf : User.findByEmail toLowerCase users req.body.email with
    | error e => simp [loginRoute, hv, hf, AuthBody.user, authServerError] at h
    | ok found =>
      cases found with
      | none => simp [loginRoute, hv, hf, AuthBody.user] at h
      | some user =>
        obtain ⟨_, _, _, hu⟩ := findByEmail_some_email users req.body.email user hf
        cases hm : User.matchPassword crypto req.body.password user.password with
        | error e => simp [loginRoute, hv, hf, hm, AuthBody.user, authServerError] at h
        | ok b =>
          cases b with
          | false => simp [loginRoute, hv, hf, hm, AuthBody.user] at h
          | true =>
            have hroute : loginRoute toLowerCase crypto req users =
                (⟨200, .session (crypto.sign user.id) (userSummary user)⟩, users) := by
              simp [loginRoute, hv, hf, hm]
            rw [hroute] at h
            simp only [AuthBody.user, Option.some.injEq] at h
            exact ⟨user, hu, Or.inl h.symm⟩

theorem meRoute_user (crypto : Crypto) (req : AuthRequest) (users : List User)
    (obj : List (String × JsVal))
    (h : (meRoute crypto req users).1.body.user = some obj) :
    ∃ u ∈ (meRoute crypto req users).2, obj = userSummary u ∨ obj = meSummary u := by
  rw [meRoute_users]
  cases hp : protect crypto.verify users req.authorization with
  | denied m => simp [meRoute, hp, AuthBody.user] at h
  | granted id =>
    cases hf : User.findById users id with
    | none => simp [meRoute, hp, hf, AuthBody.user, authServerError] at h
    | some user =>
      simp only [meRoute, hp, hf, AuthBody.user, Option.some.injEq] at h
      exact ⟨user, findById_mem users _ user hf, Or.inr h.symm⟩

theorem profileRoute_user (crypto : Crypto) (env : Env) (req : AuthRequest)
    (users : List User) (obj : List (String × JsVal))
    (h : (profileRoute crypto env req users).1.body.user = some obj) :
    ∃ u ∈ (profileRoute crypto env req users).2,
      obj = userSummary u ∨ obj = meSummary u := by
  cases hp : protect crypto.verify users req.authorization with
  | denied m => simp [profileRoute, hp, AuthBody.user] at h
  | granted id =>
    by_cases hv : req.valid = false
    · simp [profileRoute, hp, hv, AuthBody.user] at h
    · cases hr : User.findByIdAndUpdate users env id (buildProfileUpdate req.body) with
      | error e => simp [profileRoute, hp, hv, hr, AuthBody.user, authServerError] at h
      | ok r =>
        obtain ⟨found, users2⟩ := r
        cases found with
        | none => simp [profileRoute, hp, hv, hr, AuthBody.user, authServerError] at h
        | some user =>
          have hroute : profileRoute crypto env req users =
              (⟨200, .account (userSummary user)⟩, users2) := by
            simp [profileRoute, hp, hv, hr]
          rw [hroute] at h ⊢
          simp only [AuthBody.user, Option.some.injEq] at h
          refine ⟨user, ?_, Or.inl h.symm⟩
          unfold User.findByIdAndUpdate at hr
          cases hf : User.findById users id with
          | none => simp [hf] at hr
          | some u0 =>
            simp only [hf, Except.ok.injEq, Prod.mk.injEq] at hr
            rw [← hr.2]
            exact findById_mem _ _ user hr.1

theorem passwordRoute_user (crypto : Crypto) (env : Env) (req : AuthRequest)
    (users : List User) : (passwordRoute crypto env req users).1.body.user = none := by
  unfold passwordRoute
  split
  · rfl
  · split
    · rfl
    · split
      · rfl
      · split
        · rfl
        · rfl
        · split
          · rfl
          · split <;> rfl

theorem googleRoute_user {toLowerCase : String → String} (crypto : Crypto) (env : Env)
    (req : AuthRequest) (users : List User) (obj : List (String × JsVal))
    (h : (googleRoute toLowerCase crypto env req users).1.body.user = some obj) :
    ∃ u ∈ (googleRoute toLowerCase crypto env req users).2,
      obj = userSummary u ∨ obj = meSummary u := by
  cases hi : req.body.idToken with
  | none => simp [googleRoute, hi, AuthBody.user] at h
  | some idToken =>
    by_cases hne : idToken = ""
    · simp [googleRoute, hi, hne, AuthBody.user] at h
    · cases hv : crypto.verifyIdToken idToken with
      | error e => simp [googleRoute, hi, hne, hv, AuthBody.user, authServerError] at h
      | ok decoded =>
        cases hf : User.findByEmail toLowerCase users (.str decoded.email) with
        | error e =>
          simp [googleRoute, hi, hne, hv, hf, AuthBody.user, authServerError] at h
        | ok found =>
          cases found with
          | some user =>
            have hroute : googleRoute toLowerCase crypto env req users =
                (⟨200, .session (crypto.sign user.id) (userSummary user)⟩, users) := by
              simp [googleRoute, hi, hne, hv, hf]
            rw [hroute] at h ⊢
            obtain ⟨_, _, _, hu⟩ := findByEmail_some_email users _ user hf
            simp only [AuthBody.user, Option.some.injEq] at h
            exact ⟨user, hu, Or.inl h.symm⟩
          | none =>
            cases hr : User.create toLowerCase crypto env users
                (googleUserData decoded) with
            | error e =>
              simp [googleRoute, hi, hne, hv, hf, hr, AuthBody.user, authServerError] at h
            | ok created =>
              have hroute : googleRoute toLowerCase crypto env req users =
                  (⟨200, .session (crypto.sign created.1.id) (userSummary created.1)⟩,
                    created.2) := by
                simp [googleRoute, hi, hne, hv, hf, hr]
              rw [hroute] at h ⊢
              simp only [AuthBody.user, Option.some.injEq] at h
              obtain ⟨_, _, _, _, _, h2⟩ := create_ok crypto env users _ created hr
              refine ⟨created.1, ?_, Or.inl h.symm⟩
              rw [h2]
              simp

/-- The route the auth handler dispatches to, for a method other than `OPTIONS`. -/
theorem authHandler_cases {toLowerCase : String → String} (crypto : Crypto) (env : Env)
    (req : AuthRequest) (users : List User) :
    authHandler toLowerCase crypto env req users = (⟨200, .empty⟩, users) ∨
    authHandler toLowerCase crypto env req users =
      registerRoute toLowerCase crypto env req users ∨
    authHandler toLowerCase crypto env req users = loginRoute toLowerCase crypto req users ∨
    authHandler toLowerCase crypto env req users = meRoute crypto req users ∨
    authHandler toLowerCase crypto env req users = profileRoute crypto env req users ∨
    authHandler toLowerCase crypto env req users = passwordRoute crypto env req users ∨
    authHandler toLowerCase crypto env req users =
      googleRoute toLowerCase crypto env req users ∨
    authHandler toLowerCase crypto env req users =
      (⟨404, .message false "Route not found"⟩, users) := by
  unfold authHandler
  split
  · exact Or.inl rfl
  · simp only
    split
    · exact Or.inr (Or.inl rfl)
    · split
      · exact Or.inr (Or.inr (Or.inl rfl))
      · split
        · exact Or.inr (Or.inr (Or.inr (Or.inl rfl)))
        · split
          · exact Or.inr (Or.inr (Or.inr (Or.inr (Or.inl rfl))))
          · split
            · exact Or.inr (Or.inr (Or.inr (Or.inr (Or.inr (Or.inl rfl)))))
            · split
              · exact Or.inr (Or.inr (Or.inr (Or.inr (Or.inr (Or.inr (Or.inl rfl))))))
              · exact Or.inr (Or.inr (Or.inr (Or.inr (Or.inr (Or.inr (Or.inr rfl))))))

/-- Every `user` object the auth handler sends is one of its two object literals, built
from an account of the store the request leaves. -/
theorem authHandler_user {toLowerCase : String → String} (crypto : Crypto) (env : Env)
    (req : AuthRequest) (users : List User) (obj : List (String × JsVal))
    (h : (authHandler toLowerCase crypto env req users).1.body.user = some obj) :
    ∃ u ∈ (authHandler toLowerCase crypto env req users).2,
      obj = userSummary u ∨ obj = meSummary u := by
  rcases authHandler_cases crypto env req users with
    hc | hc | hc | hc | hc | hc | hc | hc <;> rw [hc] at h ⊢
  · simp [AuthBody.user] at h
  · exact registerRoute_user crypto env req users obj h
  · exact loginRoute_user crypto req users obj h
  · exact meRoute_user crypto req users obj h
  · exact profileRoute_user crypto env req users obj h
  · rw [passwordRoute_user] at h
    simp at h
  · exact googleRoute_user crypto env req users obj h
  · simp [AuthBody.user] at h

/-- C30: for every request to the auth handler (register, login, me, profile, password,
google and anything else), every store of account records and every outcome of the
library calls: the response is the same when every stored password hash is replaced by
another value and the password comparison gives the same verdicts on the replaced
hashes, so the response carries nothing of a stored hash beyond the verdict of the
comparison; and a `user` object in the response body is the literal of the five fields
id, name, email, avatar, bio of an account of the store, with their values, or that
literal followed by the account's createdAt (the object of /auth/me). -/
theorem response_hides_password_hash (toLowerCase : String → String)
    (crypto crypto2 : Crypto) (env : Env) (req : AuthRequest) (users : List User)
    (f : String → String)
    (hsign : crypto2.sign = crypto.sign) (hverify : crypto2.verify = crypto.verify)
    (htoken : crypto2.verifyIdToken = crypto.verifyIdToken)
    (hcmp : ∀ u ∈ users, ∀ p,
      crypto2.compare p (f u.password) = crypto.compare p u.password) :
    (authHandler toLowerCase crypto2 env req (users.map (rehash f))).1 =
      (authHandler toLowerCase crypto env req users).1 ∧
    ∀ obj, (authHandler toLowerCase crypto env req users).1.body.user = some obj →
      ∃ u ∈ (authHandler toLowerCase crypto env req users).2,
        obj =
          [("id", .str u.id), ("name", u.name), ("email", .str u.email),
           ("avatar", u.avatar), ("bio", u.bio)] ∨
        obj =
          [("id", .str u.id), ("name", u.name), ("email", .str u.email),
           ("avatar", u.avatar), ("bio", u.bio), ("createdAt", .str u.createdAt)] :=
  ⟨authHandler_rehash crypto crypto2 env req users f hsign hverify htoken hcmp,
    fun obj h => authHandler_user crypto env req users obj h⟩

/-- A login into the sample account, with the stored hash as it is and with the hash
written back to front: the two responses are the same 200 response. -/
theorem response_hides_password_hash_witness :
    (sampleCryptoReversed.sign = sampleCrypto.sign ∧
      sampleCryptoReversed.verify = sampleCrypto.verify ∧
      sampleCryptoReversed.verifyIdToken = sampleCrypto.verifyIdToken ∧
      (rehash (fun h => ⟨h.data.reverse⟩) sampleAccount).password = "1terces:hsah" ∧
      ∀ u ∈ [sampleAccount], ∀ p,
        sampleCryptoReversed.compare p ((fun h : String => ⟨h.data.reverse⟩) u.password) =
          sampleCrypto.compare p u.password) ∧
    (authHandler asciiToLowerCase sampleCrypto sampleEnv1
        { method := "POST", path := some ["login"],
          body := { email := .str "ADA@example.com", password := .str "secret1" } }
        [sampleAccount]).1 =
      ⟨200, .session "token:u1"
        [("id", .str "u1"), ("name", .str "Ada"), ("email", .str "ada@example.com"),
         ("avatar", .str ""), ("bio", .str "")]⟩ ∧
    (authHandler asciiToLowerCase sampleCryptoReversed sampleEnv1
        { method := "POST", path := some ["login"],
          body := { email := .str "ADA@example.com", password := .str "secret1" } }
        ([sampleAccount].map (rehash (fun h => ⟨h.data.reverse⟩)))).1 =
      (authHandler asciiToLowerCase sampleCrypto sampleEnv1
        { method := "POST", path := some ["login"],
          body := { email := .str "ADA@example.com", password := .str "secret1" } }
        [sampleAccount]).1 :=
  ⟨⟨rfl, rfl, rfl, by decide, by
      intro u hu p
      simp [sampleCryptoReversed]⟩,
    by decide,
    (response_hides_password_hash asciiToLowerCase sampleCrypto sampleCryptoReversed
      sampleEnv1
      { method := "POST", path := some ["login"],
        body := { email := .str "ADA@example.com", password := .str "secret1" } }
      [sampleAccount] (fun h => ⟨h.data.reverse⟩) rfl rfl rfl (by
        intro u hu p
        simp [sampleCryptoReversed])).1⟩

end Judix
